import Mathlib

/-!
# AIPU memory manager (`drivers/staging/aipu/src/aipu_mm.c`)

A shallow embedding of the page allocator of the AIPU driver: the region
bitmap, the per-page metadata array, first-fit placement, release of one
run, bulk release for a departing file, the mmap bookkeeping, the SRAM
gate, and the set-up of the two regions by `aipu_init_mm`.

Conventions of the embedding.

* C pointers `struct file *` are natural numbers, `0` standing for `NULL`.
* `u64` / `unsigned long` quantities are natural numbers; where the C
  arithmetic can wrap (rounding the requested byte length up to a page)
  the reduction modulo `2 ^ 64` is written out.
* A bitmap is a `List Bool` (bit `i` is the `i`-th entry, `true` = set) and
  the page array is a `List aipu_virt_page`.
* `unsigned int` parameters of the bitmap library receive the caller's
  value modulo `2 ^ 32`. The `int` counters of the SRAM gate are integers,
  exact while they stay within the range of an `int`.
* Error codes are the negative `errno` integers returned by the C code.
* In the state-passing functions every operation is one atomic step. The
  calls of `mutex_lock` and `mutex_unlock` are embedded separately, as the
  list of accesses of each operation (section "Lock discipline").
* The kernel services called by the region set-up are inputs of the
  embedded functions (section "Region set-up").
-/

namespace AipuMM

/-! ## Constants -/

/-- Modelled from the spec: the kernel's page constants are outside the
source files; the spec's scenarios use `page_size = 4096`. -/
def PAGE_SHIFT : Nat := 12

/-- Modelled from the spec: the page size of the spec's scenarios,
`1 << PAGE_SHIFT`. -/
def PAGE_SIZE : Nat := 4096

/-- Modulus of 64-bit unsigned arithmetic (`u64`, `unsigned long` on arm64). -/
def U64_MOD : Nat := 2 ^ 64

/-- Modulus of 32-bit unsigned arithmetic (`unsigned int`). -/
def U32_MOD : Nat := 2 ^ 32

/-- The largest value of a C `int`. -/
def INT_MAX : Int := 2 ^ 31 - 1

/-- The `errno` value `EPERM`. -/
def EPERM : Int := 1

/-- The `errno` value `ENOMEM`. -/
def ENOMEM : Int := 12

/-- The `errno` value `EINVAL`. -/
def EINVAL : Int := 22

/-- Modelled from the spec: `config.h` is not among the source files. The
spec has the allocator try SRAM first, so the SRAM branch of `aipu_mm_alloc`
is compiled in. -/
def AIPU_CONFIG_ENABLE_SRAM : Nat := 1

/-- Modelled from the spec: `config.h` is not among the source files. The
spec has a failed SRAM placement fall back to DRAM. -/
def AIPU_CONFIG_ENABLE_FALL_BACK_TO_DDR : Nat := 1

/-! ## Kernel integer helpers used by the allocator

`ALIGN`, `order_base_2`, `is_power_of_2` and the bitmap routines below are
Linux macros and library routines (`include/linux/kernel.h`, `log2.h`,
`bitmap.h`, `lib/bitmap.c`, `lib/find_bit.c`) that the driver calls. They
are outside the source files and are written here after their kernel
definitions. -/

/-- The kernel macro `ALIGN(x, a)` on a `u64` value, for `a` a power of two:
`(x + (a - 1)) & ~(a - 1)`, the sum taken modulo `2 ^ 64`. Clearing the bits
of the mask is written as subtracting them. -/
def ALIGN (x a : Nat) : Nat :=
  let y := (x + (a - 1)) % U64_MOD
  y - (y &&& (a - 1))

/-- Helper of `fls`: number of binary digits of `n`, at most `fuel`. -/
def fls_aux : Nat → Nat → Nat
  | 0, _ => 0
  | fuel + 1, n => if n = 0 then 0 else fls_aux fuel (n / 2) + 1

/-- The kernel `fls`: position of the most significant set bit, counted from
one, and `0` for `0`. The argument is a 32-bit or 64-bit word, so 64 rounds
are enough. -/
def fls (n : Nat) : Nat := fls_aux 64 n

/-- The kernel `ilog2(n)`, that is `fls(n) - 1`. -/
def ilog2 (n : Nat) : Nat := fls n - 1

/-- The kernel `order_base_2(n)`: `n > 1 ? ilog2(n - 1) + 1 : 0`. -/
def order_base_2 (n : Nat) : Nat :=
  if n > 1 then ilog2 (n - 1) + 1 else 0

/-- The kernel `is_power_of_2(n)`: `n != 0 && ((n & (n - 1)) == 0)`. -/
def is_power_of_2 (n : Nat) : Bool :=
  n != 0 && (n &&& (n - 1)) == 0

/-- The kernel `__ALIGN_MASK(x, mask)`: `(x + mask) & ~mask`. -/
def ALIGN_MASK (x mask : Nat) : Nat :=
  (x + mask) - ((x + mask) &&& mask)

/-! ## Bitmap library (`lib/bitmap.c`, `lib/find_bit.c`) -/

/-- Value of bit `i` of a bitmap; bits past the end read as clear. -/
def test_bit (map : List Bool) (i : Nat) : Bool := map.getD i false

/-- Scan loop shared by `find_next_zero_bit` and `find_next_bit`: the first
index `i` among `start, start + 1, ...` (at most `n` of them) whose bit
equals `v`, and `size` when there is none. -/
def find_next_aux (v : Bool) (map : List Bool) (size : Nat) : Nat → Nat → Nat
  | 0, _ => size
  | n + 1, i => if test_bit map i = v then i else find_next_aux v map size n (i + 1)

/-- The kernel `find_next_zero_bit(map, size, start)`: lowest clear bit at an
index in `[start, size)`, or `size`. -/
def find_next_zero_bit (map : List Bool) (size start : Nat) : Nat :=
  find_next_aux false map size (size - start) start

/-- The kernel `find_next_bit(map, size, start)`: lowest set bit at an index
in `[start, size)`, or `size`. -/
def find_next_bit (map : List Bool) (size start : Nat) : Nat :=
  find_next_aux true map size (size - start) start

/-- The `again:` loop of `bitmap_find_next_zero_area_off`, with a bound on
the number of rounds. Each round takes the first clear bit at or after
`start`, rounds it up to the alignment, and either reports that the window
leaves the map (`end > size`, result `end`), restarts after the first set
bit inside the window, or returns the window start. -/
def bitmap_find_next_zero_area_off_loop (map : List Bool) (size nr align_mask align_offset : Nat) :
    Nat → Nat → Nat
  | 0, _ => size
  | fuel + 1, start =>
    let index0 := find_next_zero_bit map size start
    let index := ALIGN_MASK (index0 + align_offset) align_mask - align_offset
    let end_ := index + nr
    if end_ > size then end_
    else
      let i := find_next_bit map end_ index
      if i < end_ then
        bitmap_find_next_zero_area_off_loop map size nr align_mask align_offset fuel (i + 1)
      else index

/-- Modelled from the spec: `bitmap_find_next_zero_area_off` is a routine of
`lib/bitmap.c`, outside the source files. The spec describes the search as
finding the lowest index of a free, aligned window of `nr` pages; this
definition follows the library routine's loop, and `find_area_spec` shows
that it meets the spec's description whenever `nr ≥ 1`. The parameter `nr`
of the library routine is an `unsigned int`: the caller reduces its
`unsigned long` page count modulo `2 ^ 32` when it passes it. Every round
moves `start` past a set bit below `size`, so `size + 1` rounds always
suffice. -/
def bitmap_find_next_zero_area_off (map : List Bool) (size start nr align_mask align_offset : Nat) :
    Nat :=
  bitmap_find_next_zero_area_off_loop map size nr align_mask align_offset (size + 1) start

/-- Write `v` into the bits `[start, start + nr)` of a bitmap. -/
def bitmap_fill (v : Bool) : List Bool → Nat → Nat → List Bool
  | [], _, _ => []
  | b :: bs, 0, 0 => b :: bs
  | _ :: bs, 0, n + 1 => v :: bitmap_fill v bs 0 n
  | b :: bs, s + 1, n => b :: bitmap_fill v bs s n

/-- The kernel `bitmap_set(map, start, nr)`; `nr` is an `unsigned int`, reduced
modulo `2 ^ 32` by the caller. The allocator calls it after a successful
search, so with `start + nr` at most the page count of the region. -/
def bitmap_set (map : List Bool) (start nr : Nat) : List Bool :=
  bitmap_fill true map start nr

/-- The kernel `bitmap_clear(map, start, nr)`; `nr` is an `unsigned int`,
reduced modulo `2 ^ 32` by the caller. -/
def bitmap_clear (map : List Bool) (start nr : Nat) : List Bool :=
  bitmap_fill false map start nr

/-- The kernel `clear_bit(nr, map)`. -/
def clear_bit (nr : Nat) (map : List Bool) : List Bool := map.set nr false

/-- The kernel `bitmap_empty(map, nbits)`: no bit below `nbits` is set. -/
def bitmap_empty (map : List Bool) (nbits : Nat) : Bool :=
  find_next_bit map nbits 0 == nbits

/-! ## Data model (`aipu_mm.h`) -/

inductive aipu_mem_type where
  | AIPU_MEM_TYPE_NONE
  | AIPU_MEM_TYPE_DEV_RESERVED
  | AIPU_MEM_TYPE_DMA_RESERVED
  | AIPU_MEM_TYPE_CMA_RESERVED
  | AIPU_MEM_TYPE_CMA_DEFAULT
  | AIPU_MEM_TYPE_KERNEL
  deriving DecidableEq, Repr

inductive aipu_mem_region_id where
  | AIPU_MEM_REGION_DRAM_ID
  | AIPU_MEM_REGION_SRAM_ID
  deriving DecidableEq, Repr

/-- The C `struct aipu_virt_page`. -/
structure aipu_virt_page where
  tid : Int
  filp : Nat
  map_num : Int
  contiguous_alloc_len : Nat
  deriving DecidableEq, Repr

/-- A page entry after `memset(page, 0, sizeof(*page))`. -/
def zero_page : aipu_virt_page :=
  { tid := 0, filp := 0, map_num := 0, contiguous_alloc_len := 0 }

/-- The C `struct aipu_mem_region` (the device pointer aside). -/
structure aipu_mem_region where
  base_iova : Nat
  base_pa : Nat
  base_va : Nat
  bytes : Nat
  base_pfn : Nat
  type : aipu_mem_type
  pages : List aipu_virt_page
  bitmap : List Bool
  count : Nat
  attrs : Nat
  deriving DecidableEq, Repr

/-- The C `struct aipu_sram_disable_per_fd`, one entry of the disable list. -/
structure aipu_sram_disable_per_fd where
  cnt : Int
  filp : Nat
  deriving DecidableEq, Repr

/-- The C `struct aipu_memory_manager`; `reg[0]` is `reg_dram` and `reg[1]` is
`reg_sram`. -/
structure aipu_memory_manager where
  version : Int
  limit : Nat
  has_iommu : Bool
  host_aipu_offset : Nat
  reg_dram : aipu_mem_region
  reg_sram : aipu_mem_region
  sram_dft_dtype : Int
  sram_disable : Int
  sram_disable_head : List aipu_sram_disable_per_fd
  deriving DecidableEq, Repr

/-- The array access `mm->reg[id]`. -/
def aipu_memory_manager.reg (mm : aipu_memory_manager) : aipu_mem_region_id → aipu_mem_region
  | .AIPU_MEM_REGION_DRAM_ID => mm.reg_dram
  | .AIPU_MEM_REGION_SRAM_ID => mm.reg_sram

/-- The user-visible `struct aipu_buf_desc`. -/
structure aipu_buf_desc where
  pa : Nat
  dev_offset : Nat
  bytes : Nat
  deriving DecidableEq, Repr

/-- The user-visible `struct aipu_buf_request`: `bytes` is a `u64`,
`align_in_page` and `data_type` are 32-bit words. -/
structure aipu_buf_request where
  bytes : Nat
  align_in_page : Nat
  data_type : Int
  desc : aipu_buf_desc
  deriving DecidableEq, Repr

/-- The fields of `struct vm_area_struct` read by `aipu_mm_mmap_buf`. -/
structure vm_area_struct where
  vm_pgoff : Nat
  vm_start : Nat
  vm_end : Nat
  deriving DecidableEq, Repr

/-- The page entry `reg->pages[i]`. -/
def aipu_mem_region.page (reg : aipu_mem_region) (i : Nat) : aipu_virt_page :=
  reg.pages.getD i zero_page

/-- The assignment `mm->reg[id] = reg`. -/
def aipu_memory_manager.set_reg (mm : aipu_memory_manager) (id : aipu_mem_region_id)
    (reg : aipu_mem_region) : aipu_memory_manager :=
  match id with
  | .AIPU_MEM_REGION_DRAM_ID => { mm with reg_dram := reg }
  | .AIPU_MEM_REGION_SRAM_ID => { mm with reg_sram := reg }

/-! ## Allocation -/

/-- The C `aipu_mm_alloc_in_region_no_lock`. `tid` is `task_pid_nr(current)`.
Returns the status, the request with its descriptor filled in, and the
region. The page count `alloc_nr` is an `unsigned long`; the bitmap search
and `bitmap_set` take it as an `unsigned int`, that is modulo `2 ^ 32`, while
the page entry and the descriptor record it at full width. The start index
handed to `bitmap_set` is below the page count of the region. -/
def aipu_mm_alloc_in_region_no_lock (buf_req : aipu_buf_request) (reg : aipu_mem_region)
    (filp : Nat) (tid : Int) : Int × aipu_buf_request × aipu_mem_region :=
  if filp = 0 then (-EINVAL, buf_req, reg)
  else
    let alloc_nr := ALIGN buf_req.bytes PAGE_SIZE >>> PAGE_SHIFT
    let align_order := order_base_2 buf_req.align_in_page
    let mask := (1 <<< align_order) - 1
    let offset := reg.base_pfn &&& ((1 <<< align_order) - 1)
    let bitmap_no :=
      bitmap_find_next_zero_area_off reg.bitmap reg.count 0 (alloc_nr % U32_MOD) mask offset
    if bitmap_no ≥ reg.count then (-ENOMEM, buf_req, reg)
    else
      let page := reg.page bitmap_no
      let pa := reg.base_iova + (bitmap_no <<< PAGE_SHIFT)
      (0,
       { buf_req with desc := { pa := pa, dev_offset := pa, bytes := alloc_nr * PAGE_SIZE } },
       { reg with
           bitmap := bitmap_set reg.bitmap bitmap_no (alloc_nr % U32_MOD)
           pages := reg.pages.set bitmap_no
             { page with contiguous_alloc_len := alloc_nr, filp := filp, tid := tid } })

/-- The C `aipu_mm_alloc`: argument check, SRAM first when it is present,
enabled and the data type matches, then DRAM. -/
def aipu_mm_alloc (mm : aipu_memory_manager) (buf_req : aipu_buf_request) (filp : Nat)
    (tid : Int) : Int × aipu_buf_request × aipu_memory_manager :=
  if filp = 0 then (-EINVAL, buf_req, mm)
  else if buf_req.bytes = 0 ∨ is_power_of_2 buf_req.align_in_page = false then
    (-EINVAL, buf_req, mm)
  else if AIPU_CONFIG_ENABLE_SRAM = 1 ∧ mm.reg_sram.bytes ≠ 0 ∧ mm.sram_disable = 0 ∧
      mm.sram_dft_dtype = buf_req.data_type then
    let s := aipu_mm_alloc_in_region_no_lock buf_req mm.reg_sram filp tid
    if (s.1 ≠ 0 ∧ AIPU_CONFIG_ENABLE_FALL_BACK_TO_DDR = 0) ∨ s.1 = 0 then
      (s.1, s.2.1, { mm with reg_sram := s.2.2 })
    else
      let d := aipu_mm_alloc_in_region_no_lock s.2.1 mm.reg_dram filp tid
      (d.1, d.2.1, { mm with reg_sram := s.2.2, reg_dram := d.2.2 })
  else
    let d := aipu_mm_alloc_in_region_no_lock buf_req mm.reg_dram filp tid
    (d.1, d.2.1, { mm with reg_dram := d.2.2 })

/-! ## Release -/

/-- The C `aipu_mm_free_in_region_no_lock`. The caller has resolved the
region from `buf->pa`, so `buf->pa - reg->base_iova` does not wrap. The
recorded run length is an `unsigned long`; `bitmap_clear` takes it as an
`unsigned int`, that is modulo `2 ^ 32`. -/
def aipu_mm_free_in_region_no_lock (buf : aipu_buf_desc) (reg : aipu_mem_region)
    (filp : Nat) : Int × aipu_mem_region :=
  if filp = 0 then (-EINVAL, reg)
  else
    let bitmap_no := (buf.pa - reg.base_iova) >>> PAGE_SHIFT
    if bitmap_no ≥ reg.count then (-EINVAL, reg)
    else
      let page := reg.page bitmap_no
      let alloc_nr := page.contiguous_alloc_len
      if page.filp ≠ filp ∨ alloc_nr = 0 then (-EINVAL, reg)
      else
        (0, { reg with
                bitmap := bitmap_clear reg.bitmap bitmap_no (alloc_nr % U32_MOD)
                pages := reg.pages.set bitmap_no zero_page })

/-- The C `aipu_mm_find_region`: the first region, DRAM before SRAM, whose
address range holds `iova`. -/
def aipu_mm_find_region (mm : aipu_memory_manager) (iova : Nat) : Option aipu_mem_region_id :=
  if iova ≥ mm.reg_dram.base_iova ∧ iova < mm.reg_dram.base_iova + mm.reg_dram.bytes then
    some .AIPU_MEM_REGION_DRAM_ID
  else if iova ≥ mm.reg_sram.base_iova ∧ iova < mm.reg_sram.base_iova + mm.reg_sram.bytes then
    some .AIPU_MEM_REGION_SRAM_ID
  else none

/-- The C `aipu_mm_free`. -/
def aipu_mm_free (mm : aipu_memory_manager) (buf : aipu_buf_desc) (filp : Nat) :
    Int × aipu_memory_manager :=
  if filp = 0 then (-EINVAL, mm)
  else
    match aipu_mm_find_region mm buf.pa with
    | none => (-EINVAL, mm)
    | some id =>
      let r := aipu_mm_free_in_region_no_lock buf (mm.reg id) filp
      (r.1, mm.set_reg id r.2)

/-- One round of the loop of `aipu_mm_free_filp_in_region`: when page `i`
records `filp`, zero the entry and clear bit `i`. -/
def aipu_mm_free_filp_step (filp : Nat) (reg : aipu_mem_region) (i : Nat) : aipu_mem_region :=
  if (reg.page i).filp = filp then
    { reg with pages := reg.pages.set i zero_page, bitmap := clear_bit i reg.bitmap }
  else reg

/-- The C `aipu_mm_free_filp_in_region`: the loop over `i = 0 .. count - 1`. -/
def aipu_mm_free_filp_in_region (reg : aipu_mem_region) (filp : Nat) : aipu_mem_region :=
  if filp = 0 then reg
  else (List.range reg.count).foldl (aipu_mm_free_filp_step filp) reg

/-- The C `aipu_mm_free_buffers`: DRAM, then SRAM. -/
def aipu_mm_free_buffers (mm : aipu_memory_manager) (filp : Nat) : aipu_memory_manager :=
  let mm1 := { mm with reg_dram := aipu_mm_free_filp_in_region mm.reg_dram filp }
  { mm1 with reg_sram := aipu_mm_free_filp_in_region mm1.reg_sram filp }

/-! ## Export of a run to user space -/

/-- The C `aipu_mm_find_page`; the result is the index of the page entry.
Its one caller, `aipu_mm_mmap_buf`, has resolved the region from `iova`, so
`iova - reg->base_iova` does not wrap. -/
def aipu_mm_find_page (reg : aipu_mem_region) (filp : Nat) (iova : Nat) : Option Nat :=
  if filp = 0 ∨ iova % PAGE_SIZE ≠ 0 then none
  else
    let page_no := (iova - reg.base_iova) >>> PAGE_SHIFT
    if page_no ≥ reg.count then none
    else
      let page := reg.page page_no
      if page.map_num ≠ 0 ∨ page.filp ≠ filp then none
      else some page_no

/-- The call that `aipu_mm_mmap_buf` makes to the external mapper:
`remap_pfn_range` (`remap = true`) or `dma_mmap_attrs`, with the byte length
handed over. -/
structure mmap_call where
  remap : Bool
  size : Nat
  deriving DecidableEq, Repr

/-- The external call of `aipu_mm_mmap_buf`, if the checks before it pass. -/
def aipu_mm_mmap_buf_call (mm : aipu_memory_manager) (vma : vm_area_struct) (filp : Nat) :
    Option mmap_call :=
  let offset := (vma.vm_pgoff * PAGE_SIZE) % U64_MOD
  match aipu_mm_find_region mm offset with
  | none => none
  | some id =>
    match aipu_mm_find_page (mm.reg id) filp offset with
    | none => none
    | some page_no =>
      if (mm.reg id).type = .AIPU_MEM_TYPE_DEV_RESERVED then
        some { remap := true, size := vma.vm_end - vma.vm_start }
      else
        some { remap := false,
               size := ((mm.reg id).page page_no).contiguous_alloc_len <<< PAGE_SHIFT }

/-- The C `aipu_mm_mmap_buf`. `ext_ret` is the status returned by the
external mapper (`remap_pfn_range` or `dma_mmap_attrs`). -/
def aipu_mm_mmap_buf (mm : aipu_memory_manager) (vma : vm_area_struct) (filp : Nat)
    (ext_ret : Int) : Int × aipu_memory_manager :=
  let offset := (vma.vm_pgoff * PAGE_SIZE) % U64_MOD
  match aipu_mm_find_region mm offset with
  | none => (-EINVAL, mm)
  | some id =>
    let reg := mm.reg id
    match aipu_mm_find_page reg filp offset with
    | none => (-EINVAL, mm)
    | some page_no =>
      if ext_ret = 0 then
        let page := reg.page page_no
        (ext_ret, mm.set_reg id
          { reg with pages := reg.pages.set page_no { page with map_num := page.map_num + 1 } })
      else (ext_ret, mm)

/-! ## SRAM gate -/

/-- The list walk of `aipu_mm_disable_sram_allocation`: bump the count of the
first entry recording `filp`; `none` when there is no such entry. -/
def sram_disable_list_inc (filp : Nat) :
    List aipu_sram_disable_per_fd → Option (List aipu_sram_disable_per_fd)
  | [] => none
  | e :: es =>
    if e.filp = filp then some ({ e with cnt := e.cnt + 1 } :: es)
    else (sram_disable_list_inc filp es).map (fun es1 => e :: es1)

/-- The list walk of `aipu_mm_enable_sram_allocation`: lower the count of the
first entry recording `filp` when it is non-zero, and stop there. -/
def sram_disable_list_dec (filp : Nat) :
    List aipu_sram_disable_per_fd → List aipu_sram_disable_per_fd
  | [] => []
  | e :: es =>
    if e.filp = filp then (if e.cnt ≠ 0 then { e with cnt := e.cnt - 1 } else e) :: es
    else e :: sram_disable_list_dec filp es

/-- The C `aipu_mm_disable_sram_allocation`. `kzalloc_ok` tells whether the
allocation of a new list entry succeeds. The counters `sram_disable` and
`cnt` are C `int`s that the code increments without a check; they are
embedded as integers, which is exact as long as the value incremented is
below `INT_MAX`. -/
def aipu_mm_disable_sram_allocation (mm : aipu_memory_manager) (filp : Nat)
    (kzalloc_ok : Bool) : Int × aipu_memory_manager :=
  if mm.reg_sram.bytes = 0 then (-EPERM, mm)
  else if bitmap_empty mm.reg_sram.bitmap mm.reg_sram.count = false then (-EPERM, mm)
  else
    match sram_disable_list_inc filp mm.sram_disable_head with
    | some l => (0, { mm with sram_disable_head := l, sram_disable := mm.sram_disable + 1 })
    | none =>
      if kzalloc_ok = false then (-ENOMEM, mm)
      else
        (0, { mm with
                sram_disable_head := { cnt := 1, filp := filp } :: mm.sram_disable_head
                sram_disable := mm.sram_disable + 1 })

/-- The C `aipu_mm_enable_sram_allocation`. The counters are decremented only
when they are not zero; as integers they are exact for the values that
`aipu_mm_disable_sram_allocation` produces below `INT_MAX`. -/
def aipu_mm_enable_sram_allocation (mm : aipu_memory_manager) (filp : Nat) :
    Int × aipu_memory_manager :=
  if mm.reg_sram.bytes = 0 then (-EPERM, mm)
  else if mm.sram_disable = 0 then (-EPERM, mm)
  else
    (0, { mm with
            sram_disable_head := sram_disable_list_dec filp mm.sram_disable_head
            sram_disable := mm.sram_disable - 1 })

/-! ## Freshly initialised manager and operation sequences -/

/-- A region as `aipu_mm_init_mem_region` leaves it on success:
`count = bytes >> PAGE_SHIFT`, bitmap and page array zeroed
(`aipu_mm_init_pages`), `base_pfn = PFN_DOWN(base_iova)`. An absent SRAM
region is the all-zero region. -/
def region_fresh (reg : aipu_mem_region) : Prop :=
  reg.count = reg.bytes >>> PAGE_SHIFT ∧
  reg.bitmap = List.replicate reg.count false ∧
  reg.pages = List.replicate reg.count zero_page ∧
  reg.base_pfn = reg.base_iova >>> PAGE_SHIFT

instance (reg : aipu_mem_region) : Decidable (region_fresh reg) := by
  unfold region_fresh; infer_instance

/-- A manager as `aipu_init_mm` leaves it on success: both regions fresh,
the gate open and the disable list empty. -/
def mm_fresh (mm : aipu_memory_manager) : Prop :=
  region_fresh mm.reg_dram ∧ region_fresh mm.reg_sram ∧
  mm.sram_disable = 0 ∧ mm.sram_disable_head = []

instance (mm : aipu_memory_manager) : Decidable (mm_fresh mm) := by
  unfold mm_fresh; infer_instance

/-- One call into the memory manager, with the inputs the environment
supplies. -/
inductive mm_op where
  | alloc (buf_req : aipu_buf_request) (filp : Nat) (tid : Int)
  | free (buf : aipu_buf_desc) (filp : Nat)
  | free_buffers (filp : Nat)
  | mmap_buf (vma : vm_area_struct) (filp : Nat) (ext_ret : Int)
  | disable_sram (filp : Nat) (kzalloc_ok : Bool)
  | enable_sram (filp : Nat)
  deriving DecidableEq, Repr

/-- State of the manager after one call. -/
def mm_step (mm : aipu_memory_manager) : mm_op → aipu_memory_manager
  | .alloc buf_req filp tid => (aipu_mm_alloc mm buf_req filp tid).2.2
  | .free buf filp => (aipu_mm_free mm buf filp).2
  | .free_buffers filp => aipu_mm_free_buffers mm filp
  | .mmap_buf vma filp ext_ret => (aipu_mm_mmap_buf mm vma filp ext_ret).2
  | .disable_sram filp kzalloc_ok => (aipu_mm_disable_sram_allocation mm filp kzalloc_ok).2
  | .enable_sram filp => (aipu_mm_enable_sram_allocation mm filp).2

/-- State of the manager after a sequence of calls. -/
def mm_run (mm : aipu_memory_manager) (ops : List mm_op) : aipu_memory_manager :=
  ops.foldl mm_step mm

/-- A 4-page DRAM region at bus address `0x40000000`, freshly initialised. -/
def dram4 : aipu_mem_region :=
  { base_iova := 0x40000000, base_pa := 0x40000000, base_va := 0x1000, bytes := 0x4000,
    base_pfn := 0x40000, type := .AIPU_MEM_TYPE_DEV_RESERVED,
    pages := List.replicate 4 zero_page, bitmap := List.replicate 4 false, count := 4,
    attrs := 0 }

/-- The all-zero region: SRAM absent. -/
def no_region : aipu_mem_region :=
  { base_iova := 0, base_pa := 0, base_va := 0, bytes := 0, base_pfn := 0,
    type := .AIPU_MEM_TYPE_NONE, pages := [], bitmap := [], count := 0, attrs := 0 }

/-- A freshly initialised manager with the DRAM region `dram` and no SRAM. -/
def mm_of_dram (dram : aipu_mem_region) : aipu_memory_manager :=
  { version := 1, limit := 0xC0000000, has_iommu := false, host_aipu_offset := 0,
    reg_dram := dram, reg_sram := no_region, sram_dft_dtype := 0, sram_disable := 0,
    sram_disable_head := [] }

/-- A request for `bytes` bytes aligned to `align` pages, descriptor empty. -/
def mk_req (bytes align : Nat) : aipu_buf_request :=
  { bytes := bytes, align_in_page := align, data_type := 0,
    desc := { pa := 0, dev_offset := 0, bytes := 0 } }

/-- The 4-page manager after caller 7 has been given pages `[0, 1]`
(8192 bytes) and page `[2]` (4096 bytes). -/
def mm_scenario_a : aipu_memory_manager :=
  mm_run (mm_of_dram dram4) [.alloc (mk_req 8192 1) 7 100, .alloc (mk_req 4096 1) 7 100]

/-- A buffer descriptor naming the bus address `pa`. -/
def desc_at (pa : Nat) : aipu_buf_desc := { pa := pa, dev_offset := pa, bytes := 0 }

/-- A 4-page DRAM region at bus address `0x1000` (page frame 1), freshly
initialised. -/
def dram4_odd : aipu_mem_region :=
  { base_iova := 0x1000, base_pa := 0x1000, base_va := 0x1000, bytes := 0x4000,
    base_pfn := 1, type := .AIPU_MEM_TYPE_DEV_RESERVED,
    pages := List.replicate 4 zero_page, bitmap := List.replicate 4 false, count := 4,
    attrs := 0 }

/-! ## Vocabulary of the specification -/

/-- Number of pages of a request as the specification words it:
`ceil(byte_length / page_size)`. -/
def page_run (bytes : Nat) : Nat := (bytes + (PAGE_SIZE - 1)) / PAGE_SIZE

/-- The request's byte length rounds up to a page without leaving 64 bits. -/
def no_wrap (bytes : Nat) : Prop := bytes + (PAGE_SIZE - 1) < U64_MOD

instance (bytes : Nat) : Decidable (no_wrap bytes) := by
  unfold no_wrap; infer_instance

/-- The request's byte length rounds up to fewer than `2 ^ 32` pages
(`bytes + PAGE_SIZE - 1 < 2 ^ 44`), so that the page count is the same number
as an `unsigned long` and as an `unsigned int`. -/
def run_fits (bytes : Nat) : Prop := bytes + (PAGE_SIZE - 1) < U32_MOD * PAGE_SIZE

instance (bytes : Nat) : Decidable (run_fits bytes) := by
  unfold run_fits; infer_instance

/-- A free run as the specification words it: the pages `[i, i + nr)` lie in
the region, are all clear in the bitmap, and `base_pfn + i` is a multiple of
the alignment. -/
def fits (reg : aipu_mem_region) (nr align i : Nat) : Prop :=
  i + nr ≤ reg.count ∧ (∀ j, i ≤ j → j < i + nr → test_bit reg.bitmap j = false) ∧
  (reg.base_pfn + i) % align = 0

instance (reg : aipu_mem_region) (nr align i : Nat) : Decidable (fits reg nr align i) := by
  unfold fits; infer_instance

/-- The three conditions under which `aipu_mm_alloc` tries SRAM first: the
region is present, the gate is open, the data type matches. -/
def sram_eligible (mm : aipu_memory_manager) (buf_req : aipu_buf_request) : Prop :=
  mm.reg_sram.bytes ≠ 0 ∧ mm.sram_disable = 0 ∧ mm.sram_dft_dtype = buf_req.data_type

instance (mm : aipu_memory_manager) (buf_req : aipu_buf_request) :
    Decidable (sram_eligible mm buf_req) := by
  unfold sram_eligible; infer_instance

/-- The address `iova` lies in the bus address range of the region. -/
def in_region (reg : aipu_mem_region) (iova : Nat) : Prop :=
  reg.base_iova ≤ iova ∧ iova < reg.base_iova + reg.bytes

instance (reg : aipu_mem_region) (iova : Nat) : Decidable (in_region reg iova) := by
  unfold in_region; infer_instance

/-- The address `iova` lies in the region, its page index is below the page
count, and that page is the head of a live run owned by `filp`. -/
def owns_run (reg : aipu_mem_region) (iova filp : Nat) : Prop :=
  in_region reg iova ∧ (iova - reg.base_iova) / PAGE_SIZE < reg.count ∧
  (reg.page ((iova - reg.base_iova) / PAGE_SIZE)).filp = filp ∧
  0 < (reg.page ((iova - reg.base_iova) / PAGE_SIZE)).contiguous_alloc_len

instance (reg : aipu_mem_region) (iova filp : Nat) : Decidable (owns_run reg iova filp) := by
  unfold owns_run; infer_instance

/-- The DRAM and SRAM regions occupy disjoint bus address ranges. -/
def regions_disjoint (mm : aipu_memory_manager) : Prop :=
  mm.reg_dram.base_iova + mm.reg_dram.bytes ≤ mm.reg_sram.base_iova ∨
  mm.reg_sram.base_iova + mm.reg_sram.bytes ≤ mm.reg_dram.base_iova

instance (mm : aipu_memory_manager) : Decidable (regions_disjoint mm) := by
  unfold regions_disjoint; infer_instance

/-- Page index of a bus address inside a region. -/
def page_index (reg : aipu_mem_region) (iova : Nat) : Nat :=
  (iova - reg.base_iova) / PAGE_SIZE

/-- The region after the run headed at page `idx` has been released: the
head entry zeroed and the bits of the run cleared, as many of them as the
recorded run length names as an `unsigned int`. -/
def region_released (reg : aipu_mem_region) (idx : Nat) : aipu_mem_region :=
  { reg with
      bitmap := bitmap_clear reg.bitmap idx ((reg.page idx).contiguous_alloc_len % U32_MOD)
      pages := reg.pages.set idx zero_page }

/-- Page `i` lies inside the run of some head `h ≤ i` whose recorded run
length is non-zero. -/
def in_live_run (reg : aipu_mem_region) (i : Nat) : Prop :=
  ∃ h, h < i + 1 ∧ i < h + (reg.page h).contiguous_alloc_len

instance (reg : aipu_mem_region) (i : Nat) : Decidable (in_live_run reg i) := by
  unfold in_live_run; infer_instance

/-- Bitmap/page consistency as the specification words it: a bit is set
exactly when its page lies within a run whose head has a non-zero run length,
and the run lengths add up to the number of set bits. -/
def bitmap_page_consistent (reg : aipu_mem_region) : Prop :=
  (∀ i, i < reg.count → (test_bit reg.bitmap i = true ↔ in_live_run reg i)) ∧
  (reg.pages.map (fun p => p.contiguous_alloc_len)).sum = reg.bitmap.count true

instance (reg : aipu_mem_region) : Decidable (bitmap_page_consistent reg) := by
  unfold bitmap_page_consistent; infer_instance

/-- The region after a run of `nr` pages has been placed at page `i` for
`filp`: the bits of the run set and the head entry written (its `map_num`
is left as it was). -/
def region_placed (reg : aipu_mem_region) (i nr filp : Nat) (tid : Int) : aipu_mem_region :=
  { reg with
      bitmap := bitmap_set reg.bitmap i nr
      pages := reg.pages.set i
        { reg.page i with contiguous_alloc_len := nr, filp := filp, tid := tid } }

/-- The region after the run headed at page `n` has been exported once more:
only `map_num` of that entry changes. -/
def region_mapped (reg : aipu_mem_region) (n : Nat) : aipu_mem_region :=
  { reg with pages := reg.pages.set n { reg.page n with map_num := (reg.page n).map_num + 1 } }

/-- Invariant of a region kept by requests of fewer than `2 ^ 32` pages:
bitmap and page array have `count` entries; an entry with an owner is the
head of a run; the pages of a run lie in the region and are set in the
bitmap; runs of different heads do not overlap. -/
def region_inv (reg : aipu_mem_region) : Prop :=
  (reg.bitmap.length = reg.count ∧ reg.pages.length = reg.count) ∧
  (∀ h, (reg.page h).filp ≠ 0 → 0 < (reg.page h).contiguous_alloc_len) ∧
  (∀ h, 0 < (reg.page h).contiguous_alloc_len →
    h + (reg.page h).contiguous_alloc_len ≤ reg.count ∧
    ∀ j, h ≤ j → j < h + (reg.page h).contiguous_alloc_len → test_bit reg.bitmap j = true) ∧
  (∀ h1 h2, h1 ≠ h2 → 0 < (reg.page h1).contiguous_alloc_len →
    0 < (reg.page h2).contiguous_alloc_len →
    h1 + (reg.page h1).contiguous_alloc_len ≤ h2 ∨
    h2 + (reg.page h2).contiguous_alloc_len ≤ h1)

/-- The region invariant for both regions of a manager. -/
def mm_inv (mm : aipu_memory_manager) : Prop :=
  ∀ id, region_inv (mm.reg id)

/-- Two managers have the same static layout: base address, byte length and
page count of each region. -/
def same_layout (a b : aipu_memory_manager) : Prop :=
  ∀ id, (a.reg id).base_iova = (b.reg id).base_iova ∧ (a.reg id).bytes = (b.reg id).bytes ∧
    (a.reg id).count = (b.reg id).count

/-- The inputs of a call fit their C types and, for an allocation, the byte
length rounds up to fewer than `2 ^ 32` pages, the range in which the page
count survives the `unsigned int` parameters of the bitmap library:
`bytes + PAGE_SIZE - 1 < 2 ^ 44`, and `align_in_page` is a 32-bit word. -/
def op_in_range : mm_op → Prop
  | .alloc buf_req _ _ => run_fits buf_req.bytes ∧ buf_req.align_in_page < 2 ^ 32
  | _ => True

instance (op : mm_op) : Decidable (op_in_range op) := by
  cases op <;> unfold op_in_range <;> infer_instance

/-- The call releases the run headed at page `idx` of region `id` and owned
by `owner`: it is an `aipu_mm_free` by the owner whose address resolves to
that region and page, or an `aipu_mm_free_buffers` by the owner. -/
def releases (mm : aipu_memory_manager) (id : aipu_mem_region_id) (idx owner : Nat) :
    mm_op → Prop
  | .free buf filp =>
    filp = owner ∧ aipu_mm_find_region mm buf.pa = some id ∧ page_index (mm.reg id) buf.pa = idx
  | .free_buffers filp => filp = owner
  | _ => False

instance (mm : aipu_memory_manager) (id : aipu_mem_region_id) (idx owner : Nat) (op : mm_op) :
    Decidable (releases mm id idx owner op) := by
  cases op <;> unfold releases <;> infer_instance

/-- A 2-page DRAM region at bus address `0x40000000`, freshly initialised. -/
def dram2 : aipu_mem_region :=
  { base_iova := 0x40000000, base_pa := 0x40000000, base_va := 0x1000, bytes := 0x2000,
    base_pfn := 0x40000, type := .AIPU_MEM_TYPE_DEV_RESERVED,
    pages := List.replicate 2 zero_page, bitmap := List.replicate 2 false, count := 2,
    attrs := 0 }

/-- A 2-page SRAM region at bus address `0x100000`, freshly initialised. -/
def sram2 : aipu_mem_region :=
  { base_iova := 0x100000, base_pa := 0x100000, base_va := 0x9000, bytes := 0x2000,
    base_pfn := 0x100, type := .AIPU_MEM_TYPE_DEV_RESERVED,
    pages := List.replicate 2 zero_page, bitmap := List.replicate 2 false, count := 2,
    attrs := 0 }

/-- Scenario B of the specification: a freshly initialised manager with a
2-page SRAM and a 2-page DRAM region; the SRAM-eligible data type is `0`, the
data type of `mk_req`. -/
def mm_scenario_b : aipu_memory_manager :=
  { version := 1, limit := 0xC0000000, has_iommu := false, host_aipu_offset := 0,
    reg_dram := dram2, reg_sram := sram2, sram_dft_dtype := 0, sram_disable := 0,
    sram_disable_head := [] }

/-- The bus address that an mmap request names: `vma->vm_pgoff * PAGE_SIZE`
as a `u64`. -/
def vma_offset (vma : vm_area_struct) : Nat := (vma.vm_pgoff * PAGE_SIZE) % U64_MOD

/-- A caller's own disable count: the count of the first list entry recording
`filp`, and `0` when the list has none. -/
def per_fd_cnt (filp : Nat) : List aipu_sram_disable_per_fd → Int
  | [] => 0
  | e :: es => if e.filp = filp then e.cnt else per_fd_cnt filp es

/-- The disable list has an entry recording `filp`. -/
def has_entry (filp : Nat) (l : List aipu_sram_disable_per_fd) : Prop :=
  ∃ e, e ∈ l ∧ e.filp = filp

instance (filp : Nat) (l : List aipu_sram_disable_per_fd) : Decidable (has_entry filp l) := by
  unfold has_entry; infer_instance

/-! ## Region set-up (`aipu_init_mm`)

The kernel services that the set-up calls (`memremap`, `dma_alloc_attrs`,
the reserved-memory and device helpers, the allocators) are inputs: each
function below takes the answers of the services it calls. What has been
acquired and not yet given back is kept in a ledger next to the region, so
that the error paths can be checked for leaks. Memory obtained with
`devm_kzalloc` (the bitmap, the child device) is owned by the device and is
not entered in the ledger. -/

/-- The `errno` value `ENODEV`. -/
def ENODEV : Int := 19

/-- The kernel constant `U32_MAX`. -/
def U32_MAX : Nat := 2 ^ 32 - 1

/-- The kernel constant `DMA_ATTR_FORCE_CONTIGUOUS`, `1UL << 6`. -/
def DMA_ATTR_FORCE_CONTIGUOUS : Nat := 64

/-- Modelled from the spec: `armchina_aipu.h` is not among the source files.
The spec speaks of one hardware generation limited to 32-bit device
addresses; the value stands for that generation and no proof depends on
it. -/
def AIPU_ISA_VERSION_ZHOUYI_V2 : Int := 2

/-- Modelled from the spec: `armchina_aipu.h` is not among the source files.
The SRAM-eligible class that `aipu_init_mm` configures; the scenarios of the
spec use one class, numbered `0` here. -/
def AIPU_MM_DATA_TYPE_NONE : Int := 0

/-- Answers of the kernel services called while one region is set up.
Pointers are natural numbers with `0` for `NULL`; status words are the
integers the services return (`0` on success). -/
structure region_services where
  child : Nat
  dma_parms : Nat
  device_add : Int
  memremap : Nat
  of_reserved_mem_device_init_by_idx : Int
  dma_set_coherent_mask : Int
  dma_alloc_va : Nat
  dma_alloc_iova : Nat
  bitmap_ok : Bool
  pages_ok : Bool
  deriving DecidableEq, Repr

/-- Ledger of one region: what has been acquired and not given back. -/
structure region_resources where
  child_dev : Bool
  mapping : Bool
  reserved_mem : Bool
  dma_buffer : Bool
  page_array : Bool
  deriving DecidableEq, Repr

/-- The empty ledger. -/
def no_resources : region_resources :=
  { child_dev := false, mapping := false, reserved_mem := false, dma_buffer := false,
    page_array := false }

/-- A `memory-region` node of the device tree as `aipu_init_mm` reads it:
the compatible string, the two boolean properties, and the answer of
`of_address_to_resource` (`none` when it fails, else `start` and `end`). -/
structure of_memory_region where
  shared_dma_pool : Bool
  reusable : Bool
  no_map : Bool
  resource : Option (Nat × Nat)
  deriving DecidableEq, Repr

/-- Everything `aipu_init_mm` reads from the platform: the allocation of the
disable list head, the `host-aipu-offset` property, the IOMMU group, the
build configuration (`CONFIG_CMA` and the two `config.h` constants, which
are not among the source files and are left open), the two `memory-region`
nodes and the services of each region. -/
structure init_env where
  head_ok : Bool
  host_aipu_offset : Option Nat
  iommu_group : Bool
  CONFIG_CMA : Bool
  AIPU_CONFIG_USE_DRAM_DEFAULT_SIZE : Nat
  AIPU_CONFIG_DRAM_DEFAULT_SIZE : Nat
  memory_region_dram : Option of_memory_region
  memory_region_sram : Option of_memory_region
  dram : region_services
  sram : region_services
  deriving DecidableEq, Repr

/-- The C `aipu_mm_create_child_sramdev`: the child device, or `NULL` when
one of its three steps fails. -/
def aipu_mm_create_child_sramdev (srv : region_services) : Nat :=
  if srv.child = 0 then 0
  else if srv.dma_parms = 0 then 0
  else if srv.device_add = 0 then srv.child
  else 0

/-- The C `aipu_mm_init_pages`: page count, zeroed bitmap, zeroed page
array. -/
def aipu_mm_init_pages (reg : aipu_mem_region) (srv : region_services)
    (res : region_resources) : Int × aipu_mem_region × region_resources :=
  let reg1 := { reg with count := reg.bytes >>> PAGE_SHIFT }
  if srv.bitmap_ok = false then (-ENOMEM, reg1, res)
  else
    let reg2 := { reg1 with bitmap := List.replicate reg1.count false }
    if srv.pages_ok = false then (-ENOMEM, reg2, res)
    else
      (0, { reg2 with pages := List.replicate reg2.count zero_page },
       { res with page_array := true })

/-- The device-visible upper bound that `aipu_mm_init_mem_region` computes:
`base_pa + bytes - host_aipu_offset` as a `u64`, cut to its low 32 bits for
Zhouyi V2. -/
def region_upper (mm : aipu_memory_manager) (reg : aipu_mem_region) : Nat :=
  let upper := (reg.base_pa + reg.bytes + (U64_MOD - mm.host_aipu_offset % U64_MOD)) % U64_MOD
  if mm.version = AIPU_ISA_VERSION_ZHOUYI_V2 then upper &&& U32_MAX else upper

/-- The region types for which `aipu_mm_init_mem_region` makes the address
check: native reserved, DMA reserved, and CMA reserved without an IOMMU. -/
def range_checked (mm : aipu_memory_manager) (reg : aipu_mem_region) : Prop :=
  reg.type = .AIPU_MEM_TYPE_DEV_RESERVED ∨ reg.type = .AIPU_MEM_TYPE_DMA_RESERVED ∨
  (mm.has_iommu = false ∧ reg.type = .AIPU_MEM_TYPE_CMA_RESERVED)

instance (mm : aipu_memory_manager) (reg : aipu_mem_region) :
    Decidable (range_checked mm reg) := by
  unfold range_checked; infer_instance

/-- The `err:` label of `aipu_mm_init_mem_region`: give back the backing
store if there is one, release the reserved pool of a DMA or CMA reserved
region, delete the child device of the SRAM region, and return `ret`. -/
def aipu_mm_init_mem_region_err (id : aipu_mem_region_id) (ret : Int) (reg : aipu_mem_region)
    (res : region_resources) : Int × aipu_mem_region × region_resources :=
  let reg1 := if reg.base_va ≠ 0 then { reg with base_va := 0 } else reg
  let res1 :=
    if reg.base_va ≠ 0 then
      (if reg.type = .AIPU_MEM_TYPE_DEV_RESERVED then { res with mapping := false }
       else { res with dma_buffer := false })
    else res
  let res2 :=
    if reg.type = .AIPU_MEM_TYPE_DMA_RESERVED ∨ reg.type = .AIPU_MEM_TYPE_CMA_RESERVED then
      { res1 with reserved_mem := false }
    else res1
  let res3 :=
    if id = .AIPU_MEM_REGION_SRAM_ID then { res2 with child_dev := false } else res2
  (ret, reg1, res3)

/-- The `init_page:` label of `aipu_mm_init_mem_region`: build the page
tables, then record the base page frame. -/
def aipu_mm_init_mem_region_pages (id : aipu_mem_region_id) (srv : region_services)
    (reg : aipu_mem_region) (res : region_resources) :
    Int × aipu_mem_region × region_resources :=
  let p := aipu_mm_init_pages reg srv res
  if p.1 ≠ 0 then aipu_mm_init_mem_region_err id p.1 p.2.1 p.2.2
  else (p.1, { p.2.1 with base_pfn := p.2.1.base_iova >>> PAGE_SHIFT }, p.2.2)

/-- The C `aipu_mm_init_mem_region` for region `id`, started with the ledger
`res` of that region. `use_dft` and `dft_size` are the `config.h` constants
`AIPU_CONFIG_USE_DRAM_DEFAULT_SIZE` and `AIPU_CONFIG_DRAM_DEFAULT_SIZE`. The
local `ret` of the C function is threaded through (`ret1`, `ret2`): the
branch taken when `dma_alloc_attrs` fails jumps to `err:` with whatever
`ret` holds at that point. The device of the DRAM region is `mm->dev`, that
of the SRAM region is the child device. -/
def aipu_mm_init_mem_region (mm : aipu_memory_manager) (id : aipu_mem_region_id)
    (use_dft dft_size : Nat) (srv : region_services) (res : region_resources) :
    Int × aipu_memory_manager × region_resources :=
  let reg := mm.reg id
  if reg.bytes = 0 ∧ reg.type ≠ .AIPU_MEM_TYPE_CMA_DEFAULT ∧ reg.type ≠ .AIPU_MEM_TYPE_KERNEL then
    (0, mm, res)
  else if id = .AIPU_MEM_REGION_SRAM_ID ∧ aipu_mm_create_child_sramdev srv = 0 then
    (-ENODEV, mm, res)
  else
    let res0 := if id = .AIPU_MEM_REGION_SRAM_ID then { res with child_dev := true } else res
    let r : Int × aipu_mem_region × region_resources :=
      if range_checked mm reg ∧ region_upper mm reg > mm.limit then
        aipu_mm_init_mem_region_err id (-EINVAL) reg res0
      else if reg.type = .AIPU_MEM_TYPE_DEV_RESERVED then
        if srv.memremap = 0 then aipu_mm_init_mem_region_err id (-EINVAL) reg res0
        else
          aipu_mm_init_mem_region_pages id srv
            { reg with base_va := srv.memremap, base_iova := reg.base_pa }
            { res0 with mapping := true }
      else
        let reserved : Prop :=
          reg.type = .AIPU_MEM_TYPE_DMA_RESERVED ∨ reg.type = .AIPU_MEM_TYPE_CMA_RESERVED
        let ret1 : Int := if reserved then srv.of_reserved_mem_device_init_by_idx else 0
        if reserved ∧ ret1 ≠ 0 then aipu_mm_init_mem_region_err id ret1 reg res0
        else
          let res1 := if reserved then { res0 with reserved_mem := true } else res0
          let masked : Prop :=
            mm.has_iommu = true ∧
              (reg.type = .AIPU_MEM_TYPE_CMA_RESERVED ∨ reg.type = .AIPU_MEM_TYPE_KERNEL)
          let ret2 : Int := if masked then srv.dma_set_coherent_mask else ret1
          if masked ∧ ret2 ≠ 0 then aipu_mm_init_mem_region_err id ret2 reg res1
          else
            let reg1 :=
              { reg with
                  attrs :=
                    if mm.has_iommu = true ∧ reg.type = .AIPU_MEM_TYPE_CMA_RESERVED then
                      DMA_ATTR_FORCE_CONTIGUOUS
                    else 0 }
            let reg2 :=
              if reg.type = .AIPU_MEM_TYPE_KERNEL ∨ reg.type = .AIPU_MEM_TYPE_CMA_DEFAULT ∨
                  use_dft = 1 then
                { reg1 with bytes := dft_size }
              else reg1
            if srv.dma_alloc_va = 0 then aipu_mm_init_mem_region_err id ret2 reg2 res1
            else
              aipu_mm_init_mem_region_pages id srv
                { reg2 with base_va := srv.dma_alloc_va, base_iova := srv.dma_alloc_iova }
                { res1 with dma_buffer := true }
    (r.1, mm.set_reg id r.2.1, r.2.2)

/-- The C `aipu_mm_deinit_mem_region`. The page array is freed (ledger); the
pointer `reg->pages` is left in place as in the C code. The SRAM region has
a device to delete exactly when its ledger records the child device. -/
def aipu_mm_deinit_mem_region (mm : aipu_memory_manager) (id : aipu_mem_region_id)
    (res : region_resources) : aipu_memory_manager × region_resources :=
  let reg := mm.reg id
  let free_dev (res1 : region_resources) : region_resources :=
    if id = .AIPU_MEM_REGION_SRAM_ID ∧ res1.child_dev = true then
      { res1 with child_dev := false }
    else res1
  if reg.bytes = 0 ∨ reg.base_va = 0 then (mm, free_dev res)
  else
    let res1 :=
      if reg.type = .AIPU_MEM_TYPE_DEV_RESERVED then { res with mapping := false }
      else { res with dma_buffer := false }
    let res2 :=
      if reg.type = .AIPU_MEM_TYPE_DMA_RESERVED ∨ reg.type = .AIPU_MEM_TYPE_CMA_RESERVED then
        { res1 with reserved_mem := false }
      else res1
    let res3 := { res2 with page_array := false }
    (mm.set_reg id { reg with bytes := 0, base_va := 0 }, free_dev res3)

/-- One round of the `memory-region` loop of `aipu_init_mm`: classify the
node and take base address and length from its resource. `none` is the
`return -EINVAL` taken when `of_address_to_resource` fails; an absent node
leaves the region as it is. The length `end - start + 1` is a `u64`. -/
def aipu_init_mm_memory_region (cma : Bool) (np : Option of_memory_region)
    (reg : aipu_mem_region) : Option aipu_mem_region :=
  match np with
  | none => some reg
  | some n =>
    let reg1 :=
      if n.shared_dma_pool = true then
        (if cma = true ∧ n.reusable = true then
          { reg with type := .AIPU_MEM_TYPE_CMA_RESERVED }
         else if n.no_map = true then { reg with type := .AIPU_MEM_TYPE_DMA_RESERVED }
         else reg)
      else { reg with type := .AIPU_MEM_TYPE_DEV_RESERVED }
    match n.resource with
    | none => none
    | some r =>
      some { reg1 with
               base_pa := r.1
               bytes := (r.2 + (U64_MOD - r.1 % U64_MOD) + 1) % U64_MOD }

/-- The manager after `memset(mm, 0, sizeof(*mm))` and the assignments that
open `aipu_init_mm`. -/
def mm_zeroed (version : Int) : aipu_memory_manager :=
  { version := version, limit := 0xC0000000, has_iommu := false, host_aipu_offset := 0,
    reg_dram := no_region, reg_sram := no_region, sram_dft_dtype := AIPU_MM_DATA_TYPE_NONE,
    sram_disable := 0, sram_disable_head := [] }

/-- The part of the C `aipu_init_mm` that precedes the two calls of
`aipu_mm_init_mem_region`: list head, `host-aipu-offset`, IOMMU group, the
`memory-region` loop, the default type of an undeclared DRAM region, the
IOMMU/SRAM conflict and the co-location check. The status is `0` when region
set-up is reached. -/
def aipu_init_mm_probe (version : Int) (env : init_env) : Int × aipu_memory_manager :=
  let mm0 := mm_zeroed version
  if env.head_ok = false then (-ENOMEM, mm0)
  else
    let mm1 :=
      { mm0 with
          host_aipu_offset := env.host_aipu_offset.getD 0
          has_iommu := env.iommu_group }
    match aipu_init_mm_memory_region env.CONFIG_CMA env.memory_region_dram mm1.reg_dram with
    | none => (-EINVAL, mm1)
    | some dram =>
      let mm2 := { mm1 with reg_dram := dram }
      match aipu_init_mm_memory_region env.CONFIG_CMA env.memory_region_sram mm2.reg_sram with
      | none => (-EINVAL, mm2)
      | some sram =>
        let mm3 := { mm2 with reg_sram := sram }
        let mm4 :=
          if mm3.reg_dram.bytes = 0 then
            (if mm3.has_iommu = true then
              { mm3 with reg_dram := { mm3.reg_dram with type := .AIPU_MEM_TYPE_KERNEL } }
             else
              { mm3 with reg_dram := { mm3.reg_dram with type := .AIPU_MEM_TYPE_CMA_DEFAULT } })
          else mm3
        if mm4.has_iommu = true ∧ mm4.reg_dram.type = .AIPU_MEM_TYPE_CMA_RESERVED ∧
            (mm4.reg_sram.type = .AIPU_MEM_TYPE_DEV_RESERVED ∨
              mm4.reg_sram.type = .AIPU_MEM_TYPE_DMA_RESERVED) then
          (-EINVAL, mm4)
        else
          let bypass_iommu : Prop :=
            mm4.has_iommu = true ∧
              (mm4.reg_dram.type = .AIPU_MEM_TYPE_DEV_RESERVED ∨
                mm4.reg_dram.type = .AIPU_MEM_TYPE_DMA_RESERVED)
          if (mm4.has_iommu = false ∨ bypass_iommu) ∧ mm4.reg_sram.bytes ≠ 0 ∧
              mm4.reg_sram.base_pa >>> 32 ≠ mm4.reg_dram.base_pa >>> 32 then
            (0, { mm4 with reg_sram := { mm4.reg_sram with bytes := 0, base_pa := 0 } })
          else (0, mm4)

/-- The ledgers of both regions. -/
structure held_resources where
  dram : region_resources
  sram : region_resources
  deriving DecidableEq, Repr

/-- The C `aipu_init_mm`: the preparation above, then the DRAM region, then
the SRAM region; when the SRAM set-up returns an error the DRAM region is
torn down again. -/
def aipu_init_mm (version : Int) (env : init_env) :
    Int × aipu_memory_manager × held_resources :=
  let p := aipu_init_mm_probe version env
  if p.1 ≠ 0 then (p.1, p.2, { dram := no_resources, sram := no_resources })
  else
    let d := aipu_mm_init_mem_region p.2 .AIPU_MEM_REGION_DRAM_ID
      env.AIPU_CONFIG_USE_DRAM_DEFAULT_SIZE env.AIPU_CONFIG_DRAM_DEFAULT_SIZE env.dram
      no_resources
    if d.1 ≠ 0 then (d.1, d.2.1, { dram := d.2.2, sram := no_resources })
    else
      let s := aipu_mm_init_mem_region d.2.1 .AIPU_MEM_REGION_SRAM_ID
        env.AIPU_CONFIG_USE_DRAM_DEFAULT_SIZE env.AIPU_CONFIG_DRAM_DEFAULT_SIZE env.sram
        no_resources
      if s.1 ≠ 0 then
        let u := aipu_mm_deinit_mem_region s.2.1 .AIPU_MEM_REGION_DRAM_ID d.2.2
        (s.1, u.1, { dram := u.2, sram := s.2.2 })
      else (s.1, s.2.1, { dram := d.2.2, sram := s.2.2 })

/-- Services of one region that all succeed; `dma_alloc_attrs` answers the
bus address `0x80000000`. -/
def services_ok : region_services :=
  { child := 0x5000, dma_parms := 0x6000, device_add := 0, memremap := 0x1000,
    of_reserved_mem_device_init_by_idx := 0, dma_set_coherent_mask := 0,
    dma_alloc_va := 0x2000, dma_alloc_iova := 0x80000000, bitmap_ok := true, pages_ok := true }

/-- A `memory-region` node that is not a shared DMA pool: native reserved
memory `[start, last]`. -/
def node_native (start last : Nat) : of_memory_region :=
  { shared_dma_pool := false, reusable := false, no_map := false, resource := some (start, last) }

/-- A `memory-region` node of a shared DMA pool marked `no-map`: DMA reserved
memory `[start, last]`. -/
def node_dma (start last : Nat) : of_memory_region :=
  { shared_dma_pool := true, reusable := false, no_map := true, resource := some (start, last) }

/-- A `memory-region` node of a shared DMA pool marked `reusable`: CMA
reserved memory `[start, last]` when `CONFIG_CMA` is enabled. -/
def node_cma (start last : Nat) : of_memory_region :=
  { shared_dma_pool := true, reusable := true, no_map := false, resource := some (start, last) }

/-- The board of `env_board` with a device tree whose SRAM node lies inside
the DRAM node: 2 pages of native reserved SRAM at `0x40002000`, the last two
pages of the DRAM range. -/
def env_overlap : init_env :=
  { head_ok := true, host_aipu_offset := none, iommu_group := false, CONFIG_CMA := true,
    AIPU_CONFIG_USE_DRAM_DEFAULT_SIZE := 0, AIPU_CONFIG_DRAM_DEFAULT_SIZE := 0x4000000,
    memory_region_dram := some (node_native 0x40000000 0x40003fff),
    memory_region_sram := some (node_native 0x40002000 0x40003fff),
    dram := services_ok, sram := services_ok }

/-- A board without IOMMU whose device tree declares 4 pages of native
reserved DRAM at `0x40000000` and 2 pages of native reserved SRAM at
`0x100000`; every service succeeds. -/
def env_board : init_env :=
  { head_ok := true, host_aipu_offset := none, iommu_group := false, CONFIG_CMA := true,
    AIPU_CONFIG_USE_DRAM_DEFAULT_SIZE := 0, AIPU_CONFIG_DRAM_DEFAULT_SIZE := 0x4000000,
    memory_region_dram := some (node_native 0x40000000 0x40003fff),
    memory_region_sram := some (node_native 0x100000 0x101fff),
    dram := services_ok, sram := services_ok }

/-- Every service of the region succeeds. -/
def services_succeed (srv : region_services) : Prop :=
  aipu_mm_create_child_sramdev srv ≠ 0 ∧ srv.memremap ≠ 0 ∧
  srv.of_reserved_mem_device_init_by_idx = 0 ∧ srv.dma_set_coherent_mask = 0 ∧
  srv.dma_alloc_va ≠ 0 ∧ srv.bitmap_ok = true ∧ srv.pages_ok = true

instance (srv : region_services) : Decidable (services_succeed srv) := by
  unfold services_succeed; infer_instance

/-- Base address that the device tree declares for a region, `0` when the
node is absent or unreadable. -/
def declared_base (np : Option of_memory_region) : Nat :=
  match np with
  | some n => (n.resource.map (fun r => r.1)).getD 0
  | none => 0

/-- Byte length that the device tree declares for a region
(`end - start + 1` as a `u64`), `0` when the node is absent or unreadable. -/
def declared_bytes (np : Option of_memory_region) : Nat :=
  match np with
  | some n => (n.resource.map (fun r => (r.2 + (U64_MOD - r.1 % U64_MOD) + 1) % U64_MOD)).getD 0
  | none => 0

/-- No IOMMU is usable for the manager: there is none, or it is bypassed
because DRAM is native reserved or DMA reserved. -/
def iommu_unusable (mm : aipu_memory_manager) : Prop :=
  mm.has_iommu = false ∨
  mm.reg_dram.type = .AIPU_MEM_TYPE_DEV_RESERVED ∨ mm.reg_dram.type = .AIPU_MEM_TYPE_DMA_RESERVED

instance (mm : aipu_memory_manager) : Decidable (iommu_unusable mm) := by
  unfold iommu_unusable; infer_instance

/-- The ledger `res` is consistent with the region `reg` while it is being
set up: the page array is not yet allocated, only the SRAM region has a
child device, a mapping or a DMA buffer is held only together with its
pointer in `base_va`, and a reserved pool only by a DMA or CMA reserved
region. -/
def ledger_sound (id : aipu_mem_region_id) (reg : aipu_mem_region) (res : region_resources) :
    Prop :=
  res.page_array = false ∧ (res.child_dev = true → id = .AIPU_MEM_REGION_SRAM_ID) ∧
  (res.mapping = true → reg.type = .AIPU_MEM_TYPE_DEV_RESERVED ∧ reg.base_va ≠ 0) ∧
  (res.dma_buffer = true → reg.type ≠ .AIPU_MEM_TYPE_DEV_RESERVED ∧ reg.base_va ≠ 0) ∧
  (res.reserved_mem = true →
    reg.type = .AIPU_MEM_TYPE_DMA_RESERVED ∨ reg.type = .AIPU_MEM_TYPE_CMA_RESERVED)

/-- The ledger of a region whose set-up has gone through: the child device
for SRAM, the mapping of a native reserved region or else the DMA buffer,
the reserved pool of a DMA or CMA reserved region, and the page array. -/
def ledger_full (id : aipu_mem_region_id) (type : aipu_mem_type) : region_resources :=
  { child_dev := decide (id = .AIPU_MEM_REGION_SRAM_ID),
    mapping := decide (type = .AIPU_MEM_TYPE_DEV_RESERVED),
    reserved_mem :=
      decide (type = .AIPU_MEM_TYPE_DMA_RESERVED ∨ type = .AIPU_MEM_TYPE_CMA_RESERVED),
    dma_buffer := decide (type ≠ .AIPU_MEM_TYPE_DEV_RESERVED),
    page_array := true }

/-! ## Lock discipline

A second reading of the operations: for each one, the list of what its
statements touch, in program order on the path taken, with the calls of
`mutex_lock` and `mutex_unlock` on `mm->lock` in their places. -/

/-- What a statement touches: the mutex, the layout of a region
(`base_iova`, `bytes`, `count`, `base_pfn`, `type`), a region bitmap, a page
entry, the SRAM gate (`sram_disable` and the disable list), or the mapper of
the memory subsystem (`remap_pfn_range`, `dma_mmap_attrs`). -/
inductive mm_access where
  | mutex_lock
  | mutex_unlock
  | layout
  | bitmap
  | pages
  | gate
  | mapper
  deriving DecidableEq, Repr

/-- The accesses that the claim puts under the mutex: bitmaps, page entries
and the SRAM gate. -/
def guarded : mm_access → Bool
  | .bitmap => true
  | .pages => true
  | .gate => true
  | _ => false

/-- Walk a list of accesses with the state of the mutex: the mutex is taken
only when free and dropped only when held, a guarded access is made only
while it is held, and it is free at the end. -/
def lock_disciplined_from : Bool → List mm_access → Bool
  | held, [] => !held
  | held, .mutex_lock :: es => !held && lock_disciplined_from true es
  | held, .mutex_unlock :: es => held && lock_disciplined_from false es
  | held, .layout :: es => lock_disciplined_from held es
  | held, .mapper :: es => lock_disciplined_from held es
  | held, .bitmap :: es => held && lock_disciplined_from held es
  | held, .pages :: es => held && lock_disciplined_from held es
  | held, .gate :: es => held && lock_disciplined_from held es

/-- The discipline of the claim for one call, entered with the mutex free. -/
def lock_disciplined (es : List mm_access) : Bool := lock_disciplined_from false es

/-- No access of the list is a call of `mutex_lock` or `mutex_unlock`. -/
def lock_free (es : List mm_access) : Bool :=
  es.all (fun e => e != .mutex_lock && e != .mutex_unlock)

/-- Accesses of `aipu_mm_alloc_in_region_no_lock`: the bitmap search, then
on success the bits, the page entry and the base address. -/
def aipu_mm_alloc_in_region_no_lock_accesses (buf_req : aipu_buf_request)
    (reg : aipu_mem_region) (filp : Nat) (tid : Int) : List mm_access :=
  if filp = 0 then []
  else if (aipu_mm_alloc_in_region_no_lock buf_req reg filp tid).1 ≠ 0 then
    [.layout, .bitmap, .layout]
  else [.layout, .bitmap, .layout, .bitmap, .pages, .pages, .pages, .layout]

/-- Accesses of `aipu_mm_alloc`: the argument checks and the `WARN_ON` on the
region lengths come before `mutex_lock`; the gate test and the placements
lie between `mutex_lock` and `mutex_unlock`. -/
def aipu_mm_alloc_accesses (mm : aipu_memory_manager) (buf_req : aipu_buf_request)
    (filp : Nat) (tid : Int) : List mm_access :=
  if filp = 0 then []
  else if buf_req.bytes = 0 ∨ is_power_of_2 buf_req.align_in_page = false then []
  else
    [.layout, .mutex_lock, .layout] ++
    (if mm.reg_sram.bytes ≠ 0 then [.gate] else []) ++
    (if AIPU_CONFIG_ENABLE_SRAM = 1 ∧ mm.reg_sram.bytes ≠ 0 ∧ mm.sram_disable = 0 ∧
        mm.sram_dft_dtype = buf_req.data_type then
      let s := aipu_mm_alloc_in_region_no_lock buf_req mm.reg_sram filp tid
      aipu_mm_alloc_in_region_no_lock_accesses buf_req mm.reg_sram filp tid ++
      (if (s.1 ≠ 0 ∧ AIPU_CONFIG_ENABLE_FALL_BACK_TO_DDR = 0) ∨ s.1 = 0 then []
       else aipu_mm_alloc_in_region_no_lock_accesses s.2.1 mm.reg_dram filp tid)
     else aipu_mm_alloc_in_region_no_lock_accesses buf_req mm.reg_dram filp tid) ++
    [.mutex_unlock]

/-- Accesses of `aipu_mm_free_in_region_no_lock`. -/
def aipu_mm_free_in_region_no_lock_accesses (buf : aipu_buf_desc) (reg : aipu_mem_region)
    (filp : Nat) : List mm_access :=
  if filp = 0 then []
  else if (buf.pa - reg.base_iova) >>> PAGE_SHIFT ≥ reg.count then [.layout]
  else if (reg.page ((buf.pa - reg.base_iova) >>> PAGE_SHIFT)).filp ≠ filp ∨
      (reg.page ((buf.pa - reg.base_iova) >>> PAGE_SHIFT)).contiguous_alloc_len = 0 then
    [.layout, .pages]
  else [.layout, .pages, .bitmap, .pages]

/-- Accesses of `aipu_mm_free`: `aipu_mm_find_region` reads the layout
before `mutex_lock`. -/
def aipu_mm_free_accesses (mm : aipu_memory_manager) (buf : aipu_buf_desc) (filp : Nat) :
    List mm_access :=
  if filp = 0 then []
  else
    match aipu_mm_find_region mm buf.pa with
    | none => [.layout]
    | some id =>
      [.layout, .mutex_lock] ++ aipu_mm_free_in_region_no_lock_accesses buf (mm.reg id) filp ++
      [.mutex_unlock]

/-- Accesses of the loop of `aipu_mm_free_filp_in_region` over the indices
`is`: the bound test and the owner test of every round, and the `memset` and
`clear_bit` of the rounds that find the owner. -/
def aipu_mm_free_filp_loop_accesses (filp : Nat) : aipu_mem_region → List Nat → List mm_access
  | _, [] => []
  | reg, i :: is =>
    ([.layout, .pages] ++ (if (reg.page i).filp = filp then [.pages, .bitmap] else [])) ++
    aipu_mm_free_filp_loop_accesses filp (aipu_mm_free_filp_step filp reg i) is

/-- Accesses of `aipu_mm_free_filp_in_region`. -/
def aipu_mm_free_filp_in_region_accesses (reg : aipu_mem_region) (filp : Nat) :
    List mm_access :=
  if filp = 0 then []
  else
    [.mutex_lock] ++ aipu_mm_free_filp_loop_accesses filp reg (List.range reg.count) ++
    [.layout, .mutex_unlock]

/-- Accesses of `aipu_mm_free_buffers`: DRAM, then SRAM. -/
def aipu_mm_free_buffers_accesses (mm : aipu_memory_manager) (filp : Nat) : List mm_access :=
  aipu_mm_free_filp_in_region_accesses mm.reg_dram filp ++
  aipu_mm_free_filp_in_region_accesses
    { mm with reg_dram := aipu_mm_free_filp_in_region mm.reg_dram filp }.reg_sram filp

/-- Accesses of `aipu_mm_disable_sram_allocation`. -/
def aipu_mm_disable_sram_allocation_accesses (mm : aipu_memory_manager) (filp : Nat)
    (kzalloc_ok : Bool) : List mm_access :=
  if mm.reg_sram.bytes = 0 then [.layout]
  else if bitmap_empty mm.reg_sram.bitmap mm.reg_sram.count = false then
    [.layout, .mutex_lock, .layout, .bitmap, .mutex_unlock]
  else
    match sram_disable_list_inc filp mm.sram_disable_head with
    | some _ => [.layout, .mutex_lock, .layout, .bitmap, .gate, .gate, .mutex_unlock]
    | none =>
      if kzalloc_ok = false then [.layout, .mutex_lock, .layout, .bitmap, .gate, .mutex_unlock]
      else [.layout, .mutex_lock, .layout, .bitmap, .gate, .gate, .gate, .mutex_unlock]

/-- Accesses of `aipu_mm_enable_sram_allocation`. -/
def aipu_mm_enable_sram_allocation_accesses (mm : aipu_memory_manager) : List mm_access :=
  if mm.reg_sram.bytes = 0 then [.layout]
  else if mm.sram_disable = 0 then [.layout, .mutex_lock, .gate, .mutex_unlock]
  else [.layout, .mutex_lock, .gate, .gate, .gate, .mutex_unlock]

/-- Accesses of `aipu_mm_find_page`. -/
def aipu_mm_find_page_accesses (reg : aipu_mem_region) (filp : Nat) (iova : Nat) :
    List mm_access :=
  if filp = 0 ∨ iova % PAGE_SIZE ≠ 0 then []
  else if (iova - reg.base_iova) >>> PAGE_SHIFT ≥ reg.count then [.layout]
  else [.layout, .pages]

/-- Accesses of `aipu_mm_mmap_buf`: the region lookup, the test of `map_num`
and owner in `aipu_mm_find_page`, the region type, the run length for
`dma_mmap_attrs`, the mapper, and `first_page->map_num++` when the mapper
returned `0`. The function calls neither `mutex_lock` nor `mutex_unlock`. -/
def aipu_mm_mmap_buf_accesses (mm : aipu_memory_manager) (vma : vm_area_struct) (filp : Nat)
    (ext_ret : Int) : List mm_access :=
  match aipu_mm_find_region mm (vma_offset vma) with
  | none => [.layout]
  | some id =>
    match aipu_mm_find_page (mm.reg id) filp (vma_offset vma) with
    | none => [.layout] ++ aipu_mm_find_page_accesses (mm.reg id) filp (vma_offset vma)
    | some _ =>
      [.layout] ++ aipu_mm_find_page_accesses (mm.reg id) filp (vma_offset vma) ++ [.layout] ++
      (if (mm.reg id).type = .AIPU_MEM_TYPE_DEV_RESERVED then [.mapper]
       else [.layout, .pages, .mapper]) ++
      (if ext_ret = 0 then [.pages] else [])

/-- The first part of `aipu_mm_mmap_buf`, up to `aipu_mm_find_page`: the
region and the index of `first_page`, or `none` when the call returns
`-EINVAL`. -/
def aipu_mm_mmap_buf_lookup (mm : aipu_memory_manager) (vma : vm_area_struct) (filp : Nat) :
    Option (aipu_mem_region_id × Nat) :=
  match aipu_mm_find_region mm (vma_offset vma) with
  | none => none
  | some id => (aipu_mm_find_page (mm.reg id) filp (vma_offset vma)).map (fun n => (id, n))

/-- The last part of `aipu_mm_mmap_buf`, after the mapper has returned
`ext_ret`: `if (!ret) first_page->map_num++`, on the state the manager is in
at that moment. -/
def aipu_mm_mmap_buf_commit (mm : aipu_memory_manager) (first_page : aipu_mem_region_id × Nat)
    (ext_ret : Int) : Int × aipu_memory_manager :=
  if ext_ret = 0 then
    (ext_ret, mm.set_reg first_page.1 (region_mapped (mm.reg first_page.1) first_page.2))
  else (ext_ret, mm)

/-- Modelled from the spec: the width of `align_in_page`. The request
structure is declared in `armchina_aipu.h`, which is not among the source
files; the field is taken to be a 32-bit word, as `aipu_mm_alloc` prints it
with `%d`. The expression is the condition of the `WARN_ON` that closes the
DRAM branch of `aipu_mm_alloc`,
`buf_req->desc.pa % (buf_req->align_in_page << PAGE_SHIFT)`: the shift is
taken modulo `2 ^ 32` before it is widened for the division of the `u64`
address. A zero divisor leaves the dividend, as the division of arm64
does. -/
def aipu_mm_alloc_warn_on (buf_req : aipu_buf_request) : Bool :=
  decide (buf_req.desc.pa % ((buf_req.align_in_page <<< PAGE_SHIFT) % 2 ^ 32) ≠ 0)

/-- A 4-page DRAM region at bus address `0x100000000` (page frame
`0x100000`), freshly initialised. -/
def dram4_high : aipu_mem_region :=
  { base_iova := 0x100000000, base_pa := 0x100000000, base_va := 0x1000, bytes := 0x4000,
    base_pfn := 0x100000, type := .AIPU_MEM_TYPE_DEV_RESERVED,
    pages := List.replicate 4 zero_page, bitmap := List.replicate 4 false, count := 4,
    attrs := 0 }

/-- Sum of the per-caller counts of the disable list. -/
def gate_sum (l : List aipu_sram_disable_per_fd) : Int := (l.map (fun e => e.cnt)).sum

/-! ## Theorems -/

/-! ### Integer helpers -/

theorem fls_aux_pow_sub_one (k : Nat) : ∀ fuel, k ≤ fuel → fls_aux fuel (2 ^ k - 1) = k := by
  induction k with
  | zero => intro fuel _; cases fuel <;> simp [fls_aux]
  | succ k ih =>
    intro fuel h
    cases fuel with
    | zero => omega
    | succ fuel =>
      have hpos : 0 < 2 ^ k := Nat.two_pow_pos k
      have h1 : 2 ^ (k + 1) - 1 ≠ 0 := by rw [pow_succ]; omega
      have h2 : (2 ^ (k + 1) - 1) / 2 = 2 ^ k - 1 := by rw [pow_succ]; omega
      simp only [fls_aux, h1, if_false, h2]
      rw [ih fuel (by omega)]

theorem order_base_2_pow (k : Nat) (hk : k ≤ 64) : order_base_2 (2 ^ k) = k := by
  unfold order_base_2 ilog2 fls
  cases k with
  | zero => simp
  | succ k =>
    have hpos : 0 < 2 ^ k := Nat.two_pow_pos k
    have : 2 ^ (k + 1) > 1 := by rw [pow_succ]; omega
    rw [if_pos this, fls_aux_pow_sub_one (k + 1) 64 hk]
    omega

theorem is_power_of_2_pow (k : Nat) : is_power_of_2 (2 ^ k) = true := by
  unfold is_power_of_2
  have hpos : 0 < 2 ^ k := Nat.two_pow_pos k
  simp [Nat.and_pow_two_sub_one_eq_mod, Nat.pos_iff_ne_zero.mp hpos]

theorem land_pred_eq_zero : ∀ n : Nat, n ≠ 0 → n &&& (n - 1) = 0 → ∃ k, n = 2 ^ k := by
  intro n
  induction n using Nat.strong_induction_on with
  | _ n ih =>
    intro hn h
    have hd : n / 2 &&& (n - 1) / 2 = 0 := by
      rw [← Nat.and_div_two, h]
    rcases Nat.even_or_odd' n with ⟨m, rfl | rfl⟩
    · have hm : m ≠ 0 := by omega
      have e1 : 2 * m / 2 = m := by omega
      have e2 : (2 * m - 1) / 2 = m - 1 := by omega
      rw [e1, e2] at hd
      obtain ⟨k, hk⟩ := ih m (by omega) hm hd
      exact ⟨k + 1, by rw [hk, pow_succ]; ring⟩
    · have e1 : (2 * m + 1) / 2 = m := by omega
      have e2 : (2 * m + 1 - 1) / 2 = m := by omega
      rw [e1, e2, Nat.and_self] at hd
      exact ⟨0, by simp [hd]⟩

theorem is_power_of_2_iff (n : Nat) : is_power_of_2 n = true ↔ ∃ k, n = 2 ^ k := by
  constructor
  · intro h
    unfold is_power_of_2 at h
    simp only [Bool.and_eq_true, bne_iff_ne, ne_eq, beq_iff_eq] at h
    exact land_pred_eq_zero n h.1 h.2
  · rintro ⟨k, rfl⟩
    exact is_power_of_2_pow k

theorem ALIGN_MASK_pow (x k : Nat) :
    ALIGN_MASK x (2 ^ k - 1) = (x + (2 ^ k - 1)) / 2 ^ k * 2 ^ k := by
  unfold ALIGN_MASK
  rw [Nat.and_pow_two_sub_one_eq_mod]
  have := Nat.div_add_mod (x + (2 ^ k - 1)) (2 ^ k)
  have h2 : 2 ^ k * ((x + (2 ^ k - 1)) / 2 ^ k) = (x + (2 ^ k - 1)) / 2 ^ k * 2 ^ k :=
    Nat.mul_comm _ _
  omega

/-- The page count computed by the allocator: the rounded length, reduced
modulo `2 ^ 64`, divided by the page size. -/
theorem alloc_nr_eq (x : Nat) :
    ALIGN x PAGE_SIZE >>> PAGE_SHIFT = ((x + 4095) % U64_MOD) / 4096 := by
  unfold ALIGN PAGE_SIZE PAGE_SHIFT
  simp only [Nat.shiftRight_eq_div_pow]
  have e : (4096 : Nat) - 1 = 2 ^ 12 - 1 := by norm_num
  rw [e, Nat.and_pow_two_sub_one_eq_mod]
  norm_num
  omega

/-- Without wrap-around the allocator's page count is the specification's
`ceil(byte_length / page_size)`. -/
theorem alloc_nr_no_wrap (x : Nat) (h : no_wrap x) :
    ALIGN x PAGE_SIZE >>> PAGE_SHIFT = page_run x := by
  rw [alloc_nr_eq]
  unfold no_wrap PAGE_SIZE at h
  unfold page_run PAGE_SIZE
  rw [Nat.mod_eq_of_lt (by simpa using h)]

/-- A request of fewer than `2 ^ 32` pages does not wrap 64 bits. -/
theorem run_fits_no_wrap (x : Nat) (h : run_fits x) : no_wrap x := by
  unfold run_fits U32_MOD PAGE_SIZE at h
  unfold no_wrap U64_MOD PAGE_SIZE
  omega

/-- For a request of fewer than `2 ^ 32` pages the allocator's page count is
the specification's `ceil(byte_length / page_size)`. -/
theorem alloc_nr_fits (x : Nat) (h : run_fits x) :
    ALIGN x PAGE_SIZE >>> PAGE_SHIFT = page_run x :=
  alloc_nr_no_wrap x (run_fits_no_wrap x h)

/-- For a request of fewer than `2 ^ 32` pages the page count passes an
`unsigned int` parameter unchanged. -/
theorem page_run_mod (x : Nat) (h : run_fits x) : page_run x % U32_MOD = page_run x := by
  unfold run_fits U32_MOD PAGE_SIZE at h
  unfold page_run U32_MOD PAGE_SIZE
  apply Nat.mod_eq_of_lt
  omega

theorem page_run_pos (x : Nat) (h : 0 < x) : 0 < page_run x := by
  unfold page_run PAGE_SIZE
  omega

theorem align_core (A b i0 idx : Nat) (hA : 0 < A)
    (hidx : idx = (i0 + b % A + (A - 1)) / A * A - b % A) :
    i0 ≤ idx ∧ (b + idx) % A = 0 ∧ ∀ j, i0 ≤ j → (b + j) % A = 0 → idx ≤ j := by
  have hb := Nat.div_add_mod b A
  have hx := Nat.div_add_mod (i0 + b % A + (A - 1)) A
  have hxm := Nat.mod_lt (i0 + b % A + (A - 1)) hA
  generalize b % A = o at *
  generalize (i0 + o + (A - 1)) / A = q at *
  generalize (i0 + o + (A - 1)) % A = r at *
  generalize b / A = p at *
  have hqc : A * q = q * A := Nat.mul_comm _ _
  refine ⟨by omega, ?_, ?_⟩
  · have e : b + idx = (p + q) * A := by
      rw [Nat.add_mul]
      have : A * p = p * A := Nat.mul_comm _ _
      omega
    rw [e]
    exact Nat.mul_mod_left _ _
  · intro j hj hjm
    by_contra hcon
    have e : b + j = A * p + (o + j) := by omega
    rw [e, Nat.mul_add_mod] at hjm
    obtain ⟨c, hc⟩ := Nat.dvd_of_mod_eq_zero hjm
    have h3 : c < q := by
      by_contra hcq
      have : q * A ≤ c * A := Nat.mul_le_mul_right _ (by omega)
      have : c * A = A * c := Nat.mul_comm _ _
      omega
    have h4 : (c + 1) * A ≤ q * A := Nat.mul_le_mul_right _ (by omega)
    have h5 : (c + 1) * A = A * c + A := by ring
    omega

/-- Rounding a bitmap index up to the alignment: the result is the least
index at or above `i0` whose page frame number is a multiple of `2 ^ k`. -/
theorem align_up_spec (base_pfn k i0 index : Nat)
    (hidx : index = ALIGN_MASK (i0 + (base_pfn &&& (2 ^ k - 1))) (2 ^ k - 1) -
      (base_pfn &&& (2 ^ k - 1))) :
    i0 ≤ index ∧ (base_pfn + index) % 2 ^ k = 0 ∧
      ∀ j, i0 ≤ j → (base_pfn + j) % 2 ^ k = 0 → index ≤ j := by
  apply align_core (2 ^ k) base_pfn i0 index (Nat.two_pow_pos k)
  rw [hidx, ALIGN_MASK_pow, Nat.and_pow_two_sub_one_eq_mod]

/-! ### Bitmap library -/

theorem length_bitmap_fill (v : Bool) :
    ∀ (map : List Bool) (s n : Nat), (bitmap_fill v map s n).length = map.length := by
  intro map
  induction map with
  | nil => intro s n; simp [bitmap_fill]
  | cons b bs ih =>
    intro s n
    cases s with
    | zero => cases n <;> simp [bitmap_fill, ih]
    | succ s => simp [bitmap_fill, ih]

theorem test_bit_nil (i : Nat) : test_bit [] i = false := by
  simp [test_bit]

theorem test_bit_cons_zero (b : Bool) (bs : List Bool) : test_bit (b :: bs) 0 = b := by
  simp [test_bit]

theorem test_bit_cons_succ (b : Bool) (bs : List Bool) (i : Nat) :
    test_bit (b :: bs) (i + 1) = test_bit bs i := by
  simp [test_bit]

theorem test_bit_of_length_le (map : List Bool) (i : Nat) (h : map.length ≤ i) :
    test_bit map i = false := by
  unfold test_bit
  simp [List.getD, List.getElem?_eq_none h]

/-- Bits of a bitmap after `bitmap_set` / `bitmap_clear`. -/
theorem test_bit_bitmap_fill (v : Bool) :
    ∀ (map : List Bool) (s n i : Nat),
      test_bit (bitmap_fill v map s n) i =
        if s ≤ i ∧ i < s + n ∧ i < map.length then v else test_bit map i := by
  intro map
  induction map with
  | nil => intro s n i; simp [bitmap_fill, test_bit_nil]
  | cons b bs ih =>
    intro s n i
    cases s with
    | zero =>
      cases n with
      | zero => simp [bitmap_fill]
      | succ n =>
        cases i with
        | zero => simp [bitmap_fill, test_bit_cons_zero]
        | succ i =>
          simp only [bitmap_fill, test_bit_cons_succ, ih, List.length_cons]
          congr 1
          apply propext
          constructor <;> intro h <;> omega
    | succ s =>
      cases i with
      | zero => simp [bitmap_fill, test_bit_cons_zero]
      | succ i =>
        simp only [bitmap_fill, test_bit_cons_succ, ih, List.length_cons]
        congr 1
        apply propext
        constructor <;> intro h <;> omega

theorem test_bit_clear_bit (map : List Bool) (n i : Nat) :
    test_bit (clear_bit n map) i = if i = n ∧ i < map.length then false else test_bit map i := by
  unfold test_bit clear_bit
  by_cases h : n = i
  · subst h
    by_cases hl : n < map.length
    · simp [List.getD, hl]
    · have e1 : (map.set n false)[n]? = none :=
        List.getElem?_eq_none (by simpa using Nat.le_of_not_lt hl)
      simp [List.getD, hl, List.getElem?_eq_none (Nat.le_of_not_lt hl), e1]
  · have h2 : ¬ (i = n) := fun e => h e.symm
    simp [List.getD, List.getElem?_set_ne h, h2]

theorem length_clear_bit (map : List Bool) (n : Nat) : (clear_bit n map).length = map.length := by
  simp [clear_bit]

/-- What the scan loop returns. -/
theorem find_next_aux_spec (v : Bool) (map : List Bool) (size : Nat) :
    ∀ (n i : Nat),
      (find_next_aux v map size n i = size ∧ ∀ j, i ≤ j → j < i + n → test_bit map j ≠ v) ∨
      (i ≤ find_next_aux v map size n i ∧ find_next_aux v map size n i < i + n ∧
        test_bit map (find_next_aux v map size n i) = v ∧
        ∀ j, i ≤ j → j < find_next_aux v map size n i → test_bit map j ≠ v) := by
  intro n
  induction n with
  | zero =>
    intro i
    left
    exact ⟨rfl, fun j h1 h2 => by omega⟩
  | succ n ih =>
    intro i
    unfold find_next_aux
    by_cases h : test_bit map i = v
    · rw [if_pos h]
      right
      exact ⟨le_refl _, by omega, h, fun j h1 h2 => by omega⟩
    · rw [if_neg h]
      rcases ih (i + 1) with ⟨h1, h2⟩ | ⟨h1, h2, h3, h4⟩
      · left
        refine ⟨h1, fun j hj1 hj2 => ?_⟩
        by_cases e : j = i
        · subst e; exact h
        · exact h2 j (by omega) (by omega)
      · right
        refine ⟨by omega, by omega, h3, fun j hj1 hj2 => ?_⟩
        by_cases e : j = i
        · subst e; exact h
        · exact h4 j (by omega) hj2

/-- The kernel contract of `find_next_zero_bit` for `start ≤ size`. -/
theorem find_next_zero_bit_spec (map : List Bool) (size start : Nat) (h : start ≤ size) :
    start ≤ find_next_zero_bit map size start ∧ find_next_zero_bit map size start ≤ size ∧
    (∀ j, start ≤ j → j < find_next_zero_bit map size start → test_bit map j = true) ∧
    (find_next_zero_bit map size start < size →
      test_bit map (find_next_zero_bit map size start) = false) := by
  unfold find_next_zero_bit
  rcases find_next_aux_spec false map size (size - start) start with ⟨h1, h2⟩ | ⟨h1, h2, h3, h4⟩
  · rw [h1]
    refine ⟨h, le_refl _, fun j hj1 hj2 => ?_, fun hlt => by omega⟩
    have := h2 j hj1 (by omega)
    simpa using this
  · refine ⟨h1, by omega, fun j hj1 hj2 => ?_, fun _ => h3⟩
    have := h4 j hj1 hj2
    simpa using this

/-- The kernel contract of `find_next_bit` for `start ≤ size`. -/
theorem find_next_bit_spec (map : List Bool) (size start : Nat) (h : start ≤ size) :
    (find_next_bit map size start < size →
      start ≤ find_next_bit map size start ∧
      test_bit map (find_next_bit map size start) = true) ∧
    (¬ find_next_bit map size start < size →
      ∀ j, start ≤ j → j < size → test_bit map j = false) := by
  unfold find_next_bit
  rcases find_next_aux_spec true map size (size - start) start with ⟨h1, h2⟩ | ⟨h1, h2, h3, h4⟩
  · rw [h1]
    refine ⟨fun hlt => by omega, fun _ j hj1 hj2 => ?_⟩
    have := h2 j hj1 (by omega)
    simpa using this
  · exact ⟨fun _ => ⟨h1, h3⟩, fun hn => by omega⟩

theorem bitmap_empty_iff (map : List Bool) (nbits : Nat) :
    bitmap_empty map nbits = true ↔ ∀ j, j < nbits → test_bit map j = false := by
  unfold bitmap_empty
  have hs := find_next_bit_spec map nbits 0 (Nat.zero_le _)
  constructor
  · intro h j hj
    have h' : find_next_bit map nbits 0 = nbits := by simpa using h
    exact hs.2 (by omega) j (Nat.zero_le _) hj
  · intro h
    by_cases hlt : find_next_bit map nbits 0 < nbits
    · have := (hs.1 hlt).2
      rw [h _ hlt] at this
      exact absurd this (by simp)
    · have hle : find_next_bit map nbits 0 ≤ nbits := by
        unfold find_next_bit
        rcases find_next_aux_spec true map nbits (nbits - 0) 0 with ⟨h1, _⟩ | ⟨_, h2, _, _⟩
        · omega
        · omega
      have : find_next_bit map nbits 0 = nbits := by omega
      simp [this]

/-- The search loop returns the lowest free aligned window, or an index at
or past `size` when there is none. The bound on the rounds is never hit. -/
theorem find_area_loop_spec (reg : aipu_mem_region) (nr k : Nat) (hnr : 0 < nr) :
    ∀ (fuel start : Nat), start ≤ reg.count → reg.count < start + fuel →
      (∀ j, j < start → ¬ fits reg nr (2 ^ k) j) →
      (bitmap_find_next_zero_area_off_loop reg.bitmap reg.count nr (2 ^ k - 1)
          (reg.base_pfn &&& (2 ^ k - 1)) fuel start < reg.count ∧
        fits reg nr (2 ^ k)
          (bitmap_find_next_zero_area_off_loop reg.bitmap reg.count nr (2 ^ k - 1)
            (reg.base_pfn &&& (2 ^ k - 1)) fuel start) ∧
        ∀ j, j < bitmap_find_next_zero_area_off_loop reg.bitmap reg.count nr (2 ^ k - 1)
            (reg.base_pfn &&& (2 ^ k - 1)) fuel start → ¬ fits reg nr (2 ^ k) j) ∨
      (reg.count ≤ bitmap_find_next_zero_area_off_loop reg.bitmap reg.count nr (2 ^ k - 1)
          (reg.base_pfn &&& (2 ^ k - 1)) fuel start ∧
        ∀ j, ¬ fits reg nr (2 ^ k) j) := by
  intro fuel
  induction fuel with
  | zero => intro start h1 h2; omega
  | succ fuel ih =>
    intro start hs hf hlow
    unfold bitmap_find_next_zero_area_off_loop
    dsimp only
    obtain ⟨z1, z2, z3, _⟩ := find_next_zero_bit_spec reg.bitmap reg.count start hs
    generalize find_next_zero_bit reg.bitmap reg.count start = index0 at z1 z2 z3 ⊢
    obtain ⟨a1, a2, a3⟩ := align_up_spec reg.base_pfn k index0 _ rfl
    generalize ALIGN_MASK (index0 + (reg.base_pfn &&& (2 ^ k - 1))) (2 ^ k - 1) -
      (reg.base_pfn &&& (2 ^ k - 1)) = index at a1 a2 a3 ⊢
    have hbelow : ∀ j, j < index → ¬ fits reg nr (2 ^ k) j := by
      intro j hj hfit
      by_cases c1 : j < start
      · exact hlow j c1 hfit
      · by_cases c2 : j < index0
        · have := hfit.2.1 j (le_refl _) (by omega)
          rw [z3 j (by omega) c2] at this
          exact absurd this (by simp)
        · have := a3 j (by omega) hfit.2.2
          omega
    by_cases hend : index + nr > reg.count
    · rw [if_pos hend]
      right
      refine ⟨by omega, fun j hfit => ?_⟩
      by_cases c : j < index
      · exact hbelow j c hfit
      · have := hfit.1
        omega
    · rw [if_neg hend]
      obtain ⟨b1, b2⟩ := find_next_bit_spec reg.bitmap (index + nr) index (by omega)
      by_cases hi : find_next_bit reg.bitmap (index + nr) index < index + nr
      · rw [if_pos hi]
        obtain ⟨c1, c2⟩ := b1 hi
        generalize find_next_bit reg.bitmap (index + nr) index = i at hi c1 c2 ⊢
        apply ih (i + 1) (by omega) (by omega)
        intro j hj hfit
        by_cases c : j < index
        · exact hbelow j c hfit
        · have := hfit.2.1 i (by omega) (by omega)
          rw [c2] at this
          exact absurd this (by simp)
      · rw [if_neg hi]
        left
        refine ⟨by omega, ⟨by omega, fun j hj1 hj2 => b2 hi j hj1 hj2, a2⟩, hbelow⟩

/-- Contract of `bitmap_find_next_zero_area_off` as the allocator calls it
(start `0`, mask `2 ^ k - 1`, offset `base_pfn & mask`, at least one page). -/
theorem find_area_spec (reg : aipu_mem_region) (nr k : Nat) (hnr : 0 < nr) :
    (bitmap_find_next_zero_area_off reg.bitmap reg.count 0 nr (2 ^ k - 1)
          (reg.base_pfn &&& (2 ^ k - 1)) < reg.count ∧
        fits reg nr (2 ^ k)
          (bitmap_find_next_zero_area_off reg.bitmap reg.count 0 nr (2 ^ k - 1)
            (reg.base_pfn &&& (2 ^ k - 1))) ∧
        ∀ j, j < bitmap_find_next_zero_area_off reg.bitmap reg.count 0 nr (2 ^ k - 1)
            (reg.base_pfn &&& (2 ^ k - 1)) → ¬ fits reg nr (2 ^ k) j) ∨
      (reg.count ≤ bitmap_find_next_zero_area_off reg.bitmap reg.count 0 nr (2 ^ k - 1)
          (reg.base_pfn &&& (2 ^ k - 1)) ∧
        ∀ j, ¬ fits reg nr (2 ^ k) j) := by
  unfold bitmap_find_next_zero_area_off
  exact find_area_loop_spec reg nr k hnr (reg.count + 1) 0 (Nat.zero_le _) (by omega)
    (fun j hj => by omega)

/-! ### Placement in one region -/

/-- Index returned by the bitmap search of `aipu_mm_alloc_in_region_no_lock`
for a request of alignment `2 ^ k`. -/
theorem alloc_in_region_unfold (buf_req : aipu_buf_request) (reg : aipu_mem_region)
    (filp : Nat) (tid : Int) (k : Nat) (hk : k ≤ 64) (hfilp : filp ≠ 0)
    (halign : buf_req.align_in_page = 2 ^ k) :
    aipu_mm_alloc_in_region_no_lock buf_req reg filp tid =
      if bitmap_find_next_zero_area_off reg.bitmap reg.count 0
          ((ALIGN buf_req.bytes PAGE_SIZE >>> PAGE_SHIFT) % U32_MOD) (2 ^ k - 1)
          (reg.base_pfn &&& (2 ^ k - 1)) ≥ reg.count then (-ENOMEM, buf_req, reg)
      else
        (0,
         { buf_req with desc :=
            { pa := reg.base_iova + (bitmap_find_next_zero_area_off reg.bitmap reg.count 0
                ((ALIGN buf_req.bytes PAGE_SIZE >>> PAGE_SHIFT) % U32_MOD) (2 ^ k - 1)
                (reg.base_pfn &&& (2 ^ k - 1))) * PAGE_SIZE,
              dev_offset := reg.base_iova + (bitmap_find_next_zero_area_off reg.bitmap reg.count 0
                ((ALIGN buf_req.bytes PAGE_SIZE >>> PAGE_SHIFT) % U32_MOD) (2 ^ k - 1)
                (reg.base_pfn &&& (2 ^ k - 1))) * PAGE_SIZE,
              bytes := (ALIGN buf_req.bytes PAGE_SIZE >>> PAGE_SHIFT) * PAGE_SIZE } },
         { reg with
             bitmap := bitmap_set reg.bitmap (bitmap_find_next_zero_area_off reg.bitmap reg.count 0
                ((ALIGN buf_req.bytes PAGE_SIZE >>> PAGE_SHIFT) % U32_MOD) (2 ^ k - 1)
                (reg.base_pfn &&& (2 ^ k - 1)))
                ((ALIGN buf_req.bytes PAGE_SIZE >>> PAGE_SHIFT) % U32_MOD)
             pages := reg.pages.set (bitmap_find_next_zero_area_off reg.bitmap reg.count 0
                ((ALIGN buf_req.bytes PAGE_SIZE >>> PAGE_SHIFT) % U32_MOD) (2 ^ k - 1)
                (reg.base_pfn &&& (2 ^ k - 1)))
               { reg.page (bitmap_find_next_zero_area_off reg.bitmap reg.count 0
                  ((ALIGN buf_req.bytes PAGE_SIZE >>> PAGE_SHIFT) % U32_MOD) (2 ^ k - 1)
                  (reg.base_pfn &&& (2 ^ k - 1))) with
                 contiguous_alloc_len := ALIGN buf_req.bytes PAGE_SIZE >>> PAGE_SHIFT,
                 filp := filp, tid := tid } }) := by
  unfold aipu_mm_alloc_in_region_no_lock
  have e : (2 : Nat) ^ PAGE_SHIFT = PAGE_SIZE := by norm_num [PAGE_SHIFT, PAGE_SIZE]
  rw [if_neg hfilp, halign, order_base_2_pow k hk]
  simp only [Nat.shiftLeft_eq, Nat.one_mul, e]

theorem alloc_in_region_filp_zero (buf_req : aipu_buf_request) (reg : aipu_mem_region)
    (tid : Int) : aipu_mm_alloc_in_region_no_lock buf_req reg 0 tid = (-EINVAL, buf_req, reg) := by
  unfold aipu_mm_alloc_in_region_no_lock
  simp

/-- A success of `aipu_mm_alloc_in_region_no_lock` comes from a caller with a
file pointer. -/
theorem alloc_in_region_ok_filp (buf_req : aipu_buf_request) (reg : aipu_mem_region)
    (filp : Nat) (tid : Int)
    (hok : (aipu_mm_alloc_in_region_no_lock buf_req reg filp tid).1 = 0) : filp ≠ 0 := by
  intro h
  subst h
  rw [alloc_in_region_filp_zero] at hok
  simp [EINVAL] at hok

/-- First-fit placement below `2 ^ 32` pages: when
`aipu_mm_alloc_in_region_no_lock` succeeds for a request of non-zero byte
length that rounds up to fewer than `2 ^ 32` pages and of power-of-two
alignment, the run is placed at the lowest index `i` whose window
`[i, i + page_run)` is free in the bitmap with
`(base_pfn + i) mod alignment = 0`, where `page_run = ceil(bytes / PAGE_SIZE)`,
and the returned device address is `base_iova + i * PAGE_SIZE`. -/
theorem first_fit_placement (buf_req : aipu_buf_request) (reg : aipu_mem_region)
    (filp : Nat) (tid : Int)
    (hbytes : 0 < buf_req.bytes) (hwrap : run_fits buf_req.bytes)
    (hpow : ∃ k, buf_req.align_in_page = 2 ^ k) (h32 : buf_req.align_in_page < 2 ^ 32)
    (hok : (aipu_mm_alloc_in_region_no_lock buf_req reg filp tid).1 = 0) :
    ∃ i, fits reg (page_run buf_req.bytes) buf_req.align_in_page i ∧
      (∀ j, j < i → ¬ fits reg (page_run buf_req.bytes) buf_req.align_in_page j) ∧
      (aipu_mm_alloc_in_region_no_lock buf_req reg filp tid).2.1.desc.pa =
        reg.base_iova + i * PAGE_SIZE ∧
      (aipu_mm_alloc_in_region_no_lock buf_req reg filp tid).2.2.bitmap =
        bitmap_set reg.bitmap i (page_run buf_req.bytes) := by
  obtain ⟨k, hk⟩ := hpow
  have hk64 : k ≤ 64 := by
    by_contra hc
    have : 2 ^ 32 ≤ 2 ^ k := Nat.pow_le_pow_right (by norm_num) (by omega)
    omega
  have hfilp := alloc_in_region_ok_filp buf_req reg filp tid hok
  rw [alloc_in_region_unfold buf_req reg filp tid k hk64 hfilp hk] at hok ⊢
  rw [alloc_nr_fits _ hwrap, page_run_mod _ hwrap] at hok ⊢
  rw [hk]
  rcases find_area_spec reg (page_run buf_req.bytes) k (page_run_pos _ hbytes) with
    ⟨h1, h2, h3⟩ | ⟨h1, _⟩
  · rw [if_neg (by omega)]
    exact ⟨_, h2, h3, rfl, rfl⟩
  · rw [if_pos h1] at hok
    simp [ENOMEM] at hok

/-- Worked example of the specification for first-fit placement: in a fresh
4-page DRAM region a request of 8192 bytes with alignment 1 is placed on
pages `[0, 1]` at the base address, and a following request of 4096 bytes on
page `[2]`. -/
theorem first_fit_placement_witness :
    (∃ i, fits dram4 (page_run 8192) 1 i ∧
      (∀ j, j < i → ¬ fits dram4 (page_run 8192) 1 j) ∧
      (aipu_mm_alloc_in_region_no_lock (mk_req 8192 1) dram4 7 100).2.1.desc.pa =
        dram4.base_iova + i * PAGE_SIZE ∧
      (aipu_mm_alloc_in_region_no_lock (mk_req 8192 1) dram4 7 100).2.2.bitmap =
        bitmap_set dram4.bitmap i (page_run 8192)) ∧
    (aipu_mm_alloc_in_region_no_lock (mk_req 8192 1) dram4 7 100).2.1.desc.pa = 0x40000000 ∧
    (aipu_mm_alloc_in_region_no_lock (mk_req 8192 1) dram4 7 100).2.2.bitmap =
      [true, true, false, false] ∧
    (aipu_mm_alloc_in_region_no_lock (mk_req 4096 1)
      (aipu_mm_alloc_in_region_no_lock (mk_req 8192 1) dram4 7 100).2.2 7 100).2.1.desc.pa =
      0x40002000 ∧
    (aipu_mm_alloc_in_region_no_lock (mk_req 4096 1)
      (aipu_mm_alloc_in_region_no_lock (mk_req 8192 1) dram4 7 100).2.2 7 100).2.2.bitmap =
      [true, true, true, false] :=
  ⟨first_fit_placement (mk_req 8192 1) dram4 7 100 (by decide) (by decide) ⟨0, rfl⟩
    (by decide) (by decide), by decide, by decide, by decide, by decide⟩

/-- C3, failing input. A request of `2 ^ 44` bytes with alignment 1 rounds up
to `2 ^ 32` pages without wrapping 64 bits. No window of that many pages lies
in the 4-page region, yet `aipu_mm_alloc_in_region_no_lock` succeeds: the
bitmap search takes the page count as an `unsigned int`, that is `0`, and
returns index 0. The call returns the base address, sets no bit, and records
a run of `2 ^ 32` pages for the caller at page 0; index 0 is not the start of
a free window of `page_run` pages. -/
theorem placement_truncates_page_count :
    0 < (mk_req (2 ^ 44) 1).bytes ∧ no_wrap (mk_req (2 ^ 44) 1).bytes ∧
    is_power_of_2 (mk_req (2 ^ 44) 1).align_in_page = true ∧
    page_run (2 ^ 44) = 2 ^ 32 ∧ dram4.count = 4 ∧
    (∀ i, ¬ fits dram4 (page_run (2 ^ 44)) 1 i) ∧
    (aipu_mm_alloc_in_region_no_lock (mk_req (2 ^ 44) 1) dram4 7 100).1 = 0 ∧
    (aipu_mm_alloc_in_region_no_lock (mk_req (2 ^ 44) 1) dram4 7 100).2.1.desc.pa =
      0x40000000 ∧
    (aipu_mm_alloc_in_region_no_lock (mk_req (2 ^ 44) 1) dram4 7 100).2.2.bitmap =
      [false, false, false, false] ∧
    ((aipu_mm_alloc_in_region_no_lock (mk_req (2 ^ 44) 1) dram4 7 100).2.2.page 0).filp = 7 ∧
    ((aipu_mm_alloc_in_region_no_lock (mk_req (2 ^ 44) 1) dram4 7 100).2.2.page
      0).contiguous_alloc_len = 2 ^ 32 := by
  refine ⟨by decide, by decide, by decide, by decide, by decide, ?_, by decide, by decide,
    by decide, by decide, by decide⟩
  intro i h
  have h1 := h.1
  have e : page_run (2 ^ 44) = 2 ^ 32 := by decide
  have c : dram4.count = 4 := rfl
  rw [e, c] at h1
  omega

/-- A failing placement returns the request and the region as they were. -/
theorem alloc_in_region_fail (buf_req : aipu_buf_request) (reg : aipu_mem_region)
    (filp : Nat) (tid : Int)
    (h : (aipu_mm_alloc_in_region_no_lock buf_req reg filp tid).1 ≠ 0) :
    (aipu_mm_alloc_in_region_no_lock buf_req reg filp tid).2 = (buf_req, reg) := by
  unfold aipu_mm_alloc_in_region_no_lock at h ⊢
  by_cases hf : filp = 0
  · simp [hf]
  · simp only [if_neg hf] at h ⊢
    split
    · rfl
    · rename_i hlt
      simp only [if_neg hlt] at h
      exact absurd rfl h

/-- Status of a placement for a valid request: `-ENOMEM` exactly when the
region has no free aligned run of `page_run` pages, success otherwise. -/
theorem alloc_in_region_status (buf_req : aipu_buf_request) (reg : aipu_mem_region)
    (filp : Nat) (tid : Int) (hfilp : filp ≠ 0)
    (hbytes : 0 < buf_req.bytes) (hwrap : run_fits buf_req.bytes)
    (hpow : ∃ k, buf_req.align_in_page = 2 ^ k) (h32 : buf_req.align_in_page < 2 ^ 32) :
    ((aipu_mm_alloc_in_region_no_lock buf_req reg filp tid).1 = -ENOMEM ∧
        ∀ i, ¬ fits reg (page_run buf_req.bytes) buf_req.align_in_page i) ∨
    ((aipu_mm_alloc_in_region_no_lock buf_req reg filp tid).1 = 0 ∧
        ∃ i, fits reg (page_run buf_req.bytes) buf_req.align_in_page i) := by
  obtain ⟨k, hk⟩ := hpow
  have hk64 : k ≤ 64 := by
    by_contra hc
    have : 2 ^ 32 ≤ 2 ^ k := Nat.pow_le_pow_right (by norm_num) (by omega)
    omega
  rw [alloc_in_region_unfold buf_req reg filp tid k hk64 hfilp hk]
  rw [alloc_nr_fits _ hwrap, page_run_mod _ hwrap, hk]
  rcases find_area_spec reg (page_run buf_req.bytes) k (page_run_pos _ hbytes) with
    ⟨h1, h2, _⟩ | ⟨h1, h2⟩
  · right
    rw [if_neg (by omega)]
    exact ⟨rfl, _, h2⟩
  · left
    rw [if_pos h1]
    exact ⟨rfl, h2⟩

/-! ### `aipu_mm_alloc` -/

/-- C8. Argument validation: a request of zero bytes, or whose alignment is
not a power of two (zero included), makes `aipu_mm_alloc` return `-EINVAL`
with the request, its result descriptor and the whole manager (every bitmap
and page entry) unchanged. -/
theorem alloc_invalid_argument (mm : aipu_memory_manager) (buf_req : aipu_buf_request)
    (filp : Nat) (tid : Int)
    (h : buf_req.bytes = 0 ∨ ¬ ∃ k, buf_req.align_in_page = 2 ^ k) :
    aipu_mm_alloc mm buf_req filp tid = (-EINVAL, buf_req, mm) := by
  unfold aipu_mm_alloc
  by_cases hf : filp = 0
  · rw [if_pos hf]
  · rw [if_neg hf, if_pos]
    rcases h with h | h
    · exact Or.inl h
    · right
      cases hp : is_power_of_2 buf_req.align_in_page
      · rfl
      · exact absurd ((is_power_of_2_iff _).mp hp) h

/-- C8, examples: zero bytes, alignment 3 and alignment 0 are all rejected on
a fresh 4-page manager, which stays as it was. -/
theorem alloc_invalid_argument_witness :
    aipu_mm_alloc (mm_of_dram dram4) (mk_req 0 1) 7 100 =
      (-EINVAL, mk_req 0 1, mm_of_dram dram4) ∧
    aipu_mm_alloc (mm_of_dram dram4) (mk_req 4096 3) 7 100 =
      (-EINVAL, mk_req 4096 3, mm_of_dram dram4) ∧
    aipu_mm_alloc (mm_of_dram dram4) (mk_req 4096 0) 7 100 =
      (-EINVAL, mk_req 4096 0, mm_of_dram dram4) :=
  ⟨alloc_invalid_argument (mm_of_dram dram4) (mk_req 0 1) 7 100 (Or.inl rfl),
   alloc_invalid_argument (mm_of_dram dram4) (mk_req 4096 3) 7 100
     (Or.inr (fun h => absurd ((is_power_of_2_iff 3).mpr h) (by decide))),
   alloc_invalid_argument (mm_of_dram dram4) (mk_req 4096 0) 7 100
     (Or.inr (fun h => absurd ((is_power_of_2_iff 0).mpr h) (by decide)))⟩

/-- A failing `aipu_mm_alloc` returns the request and the manager as they
were, whatever the request. -/
theorem alloc_fail_unchanged (mm : aipu_memory_manager) (buf_req : aipu_buf_request)
    (filp : Nat) (tid : Int) (h : (aipu_mm_alloc mm buf_req filp tid).1 ≠ 0) :
    (aipu_mm_alloc mm buf_req filp tid).2 = (buf_req, mm) := by
  unfold aipu_mm_alloc at h ⊢
  split
  · rfl
  · split
    · rfl
    · split
      · rename_i h1 h2 h3
        simp only [if_neg h1, if_neg h2, if_pos h3] at h
        by_cases hs : (aipu_mm_alloc_in_region_no_lock buf_req mm.reg_sram filp tid).1 = 0
        · simp only [hs, or_true, if_true] at h
          exact absurd rfl h
        · have hs2 := alloc_in_region_fail _ _ _ _ hs
          have hfb : ¬ (AIPU_CONFIG_ENABLE_FALL_BACK_TO_DDR = 0) := by decide
          simp only [hs, hfb, and_false, or_false, if_false, hs2] at h ⊢
          have hd2 := alloc_in_region_fail _ _ _ _ h
          rw [hd2]
      · rename_i h1 h2 h3
        simp only [if_neg h1, if_neg h2, if_neg h3] at h
        have hd2 := alloc_in_region_fail _ _ _ _ h
        dsimp only
        rw [hd2]

/-- Status of `aipu_mm_alloc` for a valid request by a real caller. -/
theorem alloc_status (mm : aipu_memory_manager) (buf_req : aipu_buf_request)
    (filp : Nat) (tid : Int) (hfilp : filp ≠ 0)
    (hbytes : 0 < buf_req.bytes) (hwrap : run_fits buf_req.bytes)
    (hpow : ∃ k, buf_req.align_in_page = 2 ^ k) (h32 : buf_req.align_in_page < 2 ^ 32) :
    (aipu_mm_alloc mm buf_req filp tid).1 = -ENOMEM ↔
      (∀ i, ¬ fits mm.reg_dram (page_run buf_req.bytes) buf_req.align_in_page i) ∧
      (sram_eligible mm buf_req →
        ∀ i, ¬ fits mm.reg_sram (page_run buf_req.bytes) buf_req.align_in_page i) := by
  have hne : (0 : Int) ≠ -ENOMEM := by decide
  have hv : ¬ (buf_req.bytes = 0 ∨ is_power_of_2 buf_req.align_in_page = false) := by
    rw [(is_power_of_2_iff _).mpr hpow]
    simp
    omega
  have hfb : ¬ (AIPU_CONFIG_ENABLE_FALL_BACK_TO_DDR = 0) := by decide
  have hcfg : AIPU_CONFIG_ENABLE_SRAM = 1 := rfl
  unfold aipu_mm_alloc
  rw [if_neg hfilp, if_neg hv]
  by_cases he : sram_eligible mm buf_req
  · have he' : AIPU_CONFIG_ENABLE_SRAM = 1 ∧ mm.reg_sram.bytes ≠ 0 ∧ mm.sram_disable = 0 ∧
        mm.sram_dft_dtype = buf_req.data_type := ⟨hcfg, he⟩
    rw [if_pos he']
    rcases alloc_in_region_status buf_req mm.reg_sram filp tid hfilp hbytes hwrap hpow h32 with
      ⟨s1, s2⟩ | ⟨s1, i, s2⟩
    · have hs : (aipu_mm_alloc_in_region_no_lock buf_req mm.reg_sram filp tid).1 ≠ 0 := by
        rw [s1]; decide
      have hs2 := alloc_in_region_fail _ _ _ _ hs
      simp only [hs, hfb, and_false, or_false, if_false, hs2]
      rcases alloc_in_region_status buf_req mm.reg_dram filp tid hfilp hbytes hwrap hpow h32 with
        ⟨d1, d2⟩ | ⟨d1, j, d2⟩
      · simp only [d1, true_iff]
        exact ⟨d2, fun _ => s2⟩
      · simp only [d1]
        constructor
        · intro h; exact absurd h hne
        · intro h; exact absurd d2 (h.1 j)
    · simp only [s1, or_true, if_true]
      constructor
      · intro h; exact absurd h hne
      · intro h; exact absurd s2 (h.2 he i)
  · have he' : ¬ (AIPU_CONFIG_ENABLE_SRAM = 1 ∧ mm.reg_sram.bytes ≠ 0 ∧ mm.sram_disable = 0 ∧
        mm.sram_dft_dtype = buf_req.data_type) := fun h => he h.2
    rw [if_neg he']
    dsimp only
    rcases alloc_in_region_status buf_req mm.reg_dram filp tid hfilp hbytes hwrap hpow h32 with
      ⟨d1, d2⟩ | ⟨d1, j, d2⟩
    · simp only [d1, true_iff]
      exact ⟨d2, fun h => absurd h he⟩
    · simp only [d1]
      constructor
      · intro h; exact absurd h hne
      · intro h; exact absurd d2 (h.1 j)

/-- No partial success below `2 ^ 32` pages: for a request of non-zero byte
length that rounds up to fewer than `2 ^ 32` pages and of power-of-two
alignment, by a caller with a file pointer, `aipu_mm_alloc` returns `-ENOMEM`
exactly when no eligible region (DRAM, and SRAM when present, enabled and of
the matching data type) has a free, aligned run of `page_run` pages; and every
failing `aipu_mm_alloc`, whatever the request, leaves the request and the
whole manager unchanged. -/
theorem alloc_no_partial_success (mm : aipu_memory_manager) (buf_req : aipu_buf_request)
    (filp : Nat) (tid : Int) :
    (filp ≠ 0 → 0 < buf_req.bytes → run_fits buf_req.bytes →
      (∃ k, buf_req.align_in_page = 2 ^ k) → buf_req.align_in_page < 2 ^ 32 →
      ((aipu_mm_alloc mm buf_req filp tid).1 = -ENOMEM ↔
        (∀ i, ¬ fits mm.reg_dram (page_run buf_req.bytes) buf_req.align_in_page i) ∧
        (sram_eligible mm buf_req →
          ∀ i, ¬ fits mm.reg_sram (page_run buf_req.bytes) buf_req.align_in_page i))) ∧
    ((aipu_mm_alloc mm buf_req filp tid).1 ≠ 0 →
      (aipu_mm_alloc mm buf_req filp tid).2 = (buf_req, mm)) :=
  ⟨alloc_status mm buf_req filp tid, alloc_fail_unchanged mm buf_req filp tid⟩

/-- Worked example of the specification: after 8192 and 4096 bytes have
been placed in a 4-page DRAM region, a request of 8192 bytes fails with
`-ENOMEM`, no free run of two pages exists, and the manager is unchanged. -/
theorem alloc_no_partial_success_witness :
    ((aipu_mm_alloc (mm_run (mm_of_dram dram4)
          [.alloc (mk_req 8192 1) 7 100, .alloc (mk_req 4096 1) 7 100])
        (mk_req 8192 1) 7 100).1 = -ENOMEM ↔
      (∀ i, ¬ fits (mm_run (mm_of_dram dram4)
          [.alloc (mk_req 8192 1) 7 100, .alloc (mk_req 4096 1) 7 100]).reg_dram
          (page_run 8192) 1 i) ∧
      (sram_eligible (mm_run (mm_of_dram dram4)
          [.alloc (mk_req 8192 1) 7 100, .alloc (mk_req 4096 1) 7 100]) (mk_req 8192 1) →
        ∀ i, ¬ fits (mm_run (mm_of_dram dram4)
          [.alloc (mk_req 8192 1) 7 100, .alloc (mk_req 4096 1) 7 100]).reg_sram
          (page_run 8192) 1 i)) ∧
    (aipu_mm_alloc (mm_run (mm_of_dram dram4)
          [.alloc (mk_req 8192 1) 7 100, .alloc (mk_req 4096 1) 7 100])
        (mk_req 8192 1) 7 100).1 = -ENOMEM ∧
    (aipu_mm_alloc (mm_run (mm_of_dram dram4)
          [.alloc (mk_req 8192 1) 7 100, .alloc (mk_req 4096 1) 7 100])
        (mk_req 8192 1) 7 100).2 =
      (mk_req 8192 1, mm_run (mm_of_dram dram4)
          [.alloc (mk_req 8192 1) 7 100, .alloc (mk_req 4096 1) 7 100]) :=
  ⟨(alloc_no_partial_success (mm_run (mm_of_dram dram4)
        [.alloc (mk_req 8192 1) 7 100, .alloc (mk_req 4096 1) 7 100])
      (mk_req 8192 1) 7 100).1 (by decide) (by decide) (by decide) ⟨0, rfl⟩ (by decide),
   by decide,
   (alloc_no_partial_success (mm_run (mm_of_dram dram4)
        [.alloc (mk_req 8192 1) 7 100, .alloc (mk_req 4096 1) 7 100])
      (mk_req 8192 1) 7 100).2 (by decide)⟩

/-- C4, failing input. A request of `2 ^ 44 + 4096` bytes with alignment 1
passes the argument check and rounds up to `2 ^ 32 + 1` pages without
wrapping 64 bits. The fresh manager has one region, of 4 pages, so no
eligible region has a free run of that many pages; yet `aipu_mm_alloc` does
not return `-ENOMEM` but succeeds: the bitmap library takes the page count as
an `unsigned int`, that is `1`, and the call takes page 0 alone. -/
theorem alloc_succeeds_without_run :
    0 < (mk_req (2 ^ 44 + 4096) 1).bytes ∧ no_wrap (mk_req (2 ^ 44 + 4096) 1).bytes ∧
    is_power_of_2 (mk_req (2 ^ 44 + 4096) 1).align_in_page = true ∧
    page_run (2 ^ 44 + 4096) = 2 ^ 32 + 1 ∧ mm_fresh (mm_of_dram dram4) ∧
    (∀ i, ¬ fits (mm_of_dram dram4).reg_dram (page_run (2 ^ 44 + 4096)) 1 i) ∧
    ¬ sram_eligible (mm_of_dram dram4) (mk_req (2 ^ 44 + 4096) 1) ∧
    (aipu_mm_alloc (mm_of_dram dram4) (mk_req (2 ^ 44 + 4096) 1) 7 100).1 = 0 ∧
    (aipu_mm_alloc (mm_of_dram dram4) (mk_req (2 ^ 44 + 4096) 1) 7 100).1 ≠ -ENOMEM ∧
    (aipu_mm_alloc (mm_of_dram dram4) (mk_req (2 ^ 44 + 4096) 1) 7 100).2.1.desc.pa =
      0x40000000 ∧
    (aipu_mm_alloc (mm_of_dram dram4) (mk_req (2 ^ 44 + 4096) 1) 7 100).2.2.reg_dram.bitmap =
      [true, false, false, false] := by
  refine ⟨by decide, by decide, by decide, by decide, by decide, ?_, by decide, by decide,
    by decide, by decide, by decide⟩
  intro i h
  have h1 := h.1
  have e : page_run (2 ^ 44 + 4096) = 2 ^ 32 + 1 := by decide
  have c : (mm_of_dram dram4).reg_dram.count = 4 := rfl
  rw [e, c] at h1
  omega

/-! ### Release of one run -/

theorem page_set_eq (reg : aipu_mem_region) (i j : Nat) (p : aipu_virt_page) :
    (reg.pages.set i p).getD j zero_page =
      if j = i ∧ i < reg.pages.length then p else reg.page j := by
  unfold aipu_mem_region.page
  by_cases h : i = j
  · subst h
    by_cases hl : i < reg.pages.length
    · simp [List.getD, hl]
    · have e1 : (reg.pages.set i p)[i]? = none :=
        List.getElem?_eq_none (by simpa using Nat.le_of_not_lt hl)
      simp [List.getD, hl, e1, List.getElem?_eq_none (Nat.le_of_not_lt hl)]
  · have h2 : ¬ (j = i) := fun e => h e.symm
    simp [List.getD, List.getElem?_set_ne h, h2]

theorem set_reg_reg (mm : aipu_memory_manager) (id : aipu_mem_region_id) :
    mm.set_reg id (mm.reg id) = mm := by
  cases id <;> rfl

theorem reg_set_reg (mm : aipu_memory_manager) (id : aipu_mem_region_id)
    (reg : aipu_mem_region) : (mm.set_reg id reg).reg id = reg := by
  cases id <;> rfl

theorem find_region_some (mm : aipu_memory_manager) (iova : Nat) (id : aipu_mem_region_id)
    (h : aipu_mm_find_region mm iova = some id) : in_region (mm.reg id) iova := by
  unfold aipu_mm_find_region at h
  unfold in_region
  split at h
  · rename_i h1
    cases h
    exact h1
  · split at h
    · rename_i h1
      cases h
      exact h1
    · cases h

theorem find_region_of_in_region (mm : aipu_memory_manager) (iova : Nat)
    (id : aipu_mem_region_id) (hd : regions_disjoint mm) (h : in_region (mm.reg id) iova) :
    aipu_mm_find_region mm iova = some id := by
  unfold aipu_mm_find_region
  unfold in_region at h
  unfold regions_disjoint at hd
  cases id
  · have h' : iova ≥ mm.reg_dram.base_iova ∧ iova < mm.reg_dram.base_iova + mm.reg_dram.bytes := h
    rw [if_pos h']
  · have h' : iova ≥ mm.reg_sram.base_iova ∧ iova < mm.reg_sram.base_iova + mm.reg_sram.bytes := h
    rw [if_neg (by omega), if_pos h']

/-- Status and effect of `aipu_mm_free_in_region_no_lock`. -/
theorem free_in_region_eq (buf : aipu_buf_desc) (reg : aipu_mem_region) (filp : Nat)
    (hfilp : filp ≠ 0) :
    aipu_mm_free_in_region_no_lock buf reg filp =
      if (buf.pa - reg.base_iova) / PAGE_SIZE < reg.count ∧
          (reg.page ((buf.pa - reg.base_iova) / PAGE_SIZE)).filp = filp ∧
          0 < (reg.page ((buf.pa - reg.base_iova) / PAGE_SIZE)).contiguous_alloc_len then
        (0, { reg with
                bitmap := bitmap_clear reg.bitmap ((buf.pa - reg.base_iova) / PAGE_SIZE)
                  ((reg.page ((buf.pa - reg.base_iova) / PAGE_SIZE)).contiguous_alloc_len %
                    U32_MOD)
                pages := reg.pages.set ((buf.pa - reg.base_iova) / PAGE_SIZE) zero_page })
      else (-EINVAL, reg) := by
  unfold aipu_mm_free_in_region_no_lock
  have e : ∀ x : Nat, x >>> PAGE_SHIFT = x / PAGE_SIZE := by
    intro x
    simp [Nat.shiftRight_eq_div_pow, PAGE_SHIFT, PAGE_SIZE]
  rw [if_neg hfilp]
  simp only [e]
  by_cases h1 : (buf.pa - reg.base_iova) / PAGE_SIZE < reg.count
  · rw [if_neg (by omega)]
    by_cases h2 : (reg.page ((buf.pa - reg.base_iova) / PAGE_SIZE)).filp = filp
    · by_cases h3 : (reg.page ((buf.pa - reg.base_iova) / PAGE_SIZE)).contiguous_alloc_len = 0
      · rw [if_pos (Or.inr h3), if_neg (by omega)]
      · rw [if_neg (by simp [h2, h3]), if_pos ⟨h1, h2, by omega⟩]
    · rw [if_pos (Or.inl h2), if_neg (fun h => h2 h.2.1)]
  · rw [if_pos (by omega), if_neg (fun h => h1 h.1)]

theorem find_region_set_reg (mm : aipu_memory_manager) (id : aipu_mem_region_id)
    (reg : aipu_mem_region) (iova : Nat) (h1 : reg.base_iova = (mm.reg id).base_iova)
    (h2 : reg.bytes = (mm.reg id).bytes) :
    aipu_mm_find_region (mm.set_reg id reg) iova = aipu_mm_find_region mm iova := by
  cases id
  · have e1 : reg.base_iova = mm.reg_dram.base_iova := h1
    have e2 : reg.bytes = mm.reg_dram.bytes := h2
    simp [aipu_mm_find_region, aipu_memory_manager.set_reg, e1, e2]
  · have e1 : reg.base_iova = mm.reg_sram.base_iova := h1
    have e2 : reg.bytes = mm.reg_sram.bytes := h2
    simp [aipu_mm_find_region, aipu_memory_manager.set_reg, e1, e2]

/-- `aipu_mm_free` on the run that `buf` and `filp` designate. -/
theorem free_of_owns_run (mm : aipu_memory_manager) (buf : aipu_buf_desc) (filp : Nat)
    (hfilp : filp ≠ 0) (id : aipu_mem_region_id)
    (hfind : aipu_mm_find_region mm buf.pa = some id)
    (h : owns_run (mm.reg id) buf.pa filp) :
    aipu_mm_free mm buf filp =
      (0, mm.set_reg id (region_released (mm.reg id) (page_index (mm.reg id) buf.pa))) := by
  unfold aipu_mm_free
  rw [if_neg hfilp, hfind]
  dsimp only
  rw [free_in_region_eq _ _ _ hfilp, if_pos ⟨h.2.1, h.2.2.1, h.2.2.2⟩]
  rfl

/-- `aipu_mm_free` when the resolved region holds no run of `filp` at the
address. -/
theorem free_of_not_owns_run (mm : aipu_memory_manager) (buf : aipu_buf_desc) (filp : Nat)
    (hfilp : filp ≠ 0) (id : aipu_mem_region_id)
    (hfind : aipu_mm_find_region mm buf.pa = some id)
    (h : ¬ owns_run (mm.reg id) buf.pa filp) :
    aipu_mm_free mm buf filp = (-EINVAL, mm) := by
  unfold aipu_mm_free
  rw [if_neg hfilp, hfind]
  dsimp only
  have hin := find_region_some mm buf.pa id hfind
  rw [free_in_region_eq _ _ _ hfilp, if_neg (fun hc => h ⟨hin, hc⟩)]
  dsimp only
  rw [set_reg_reg]

theorem free_of_no_region (mm : aipu_memory_manager) (buf : aipu_buf_desc) (filp : Nat)
    (hfind : aipu_mm_find_region mm buf.pa = none) :
    aipu_mm_free mm buf filp = (-EINVAL, mm) := by
  unfold aipu_mm_free
  rw [hfind]
  simp

theorem free_filp_zero (mm : aipu_memory_manager) (buf : aipu_buf_desc) :
    aipu_mm_free mm buf 0 = (-EINVAL, mm) := by
  unfold aipu_mm_free
  simp

/-- A failing `aipu_mm_free` returns `-EINVAL` and the manager as it was. -/
theorem free_fail_eq (mm : aipu_memory_manager) (buf : aipu_buf_desc) (filp : Nat)
    (h : (aipu_mm_free mm buf filp).1 ≠ 0) : aipu_mm_free mm buf filp = (-EINVAL, mm) := by
  by_cases hfilp : filp = 0
  · subst hfilp; exact free_filp_zero mm buf
  · cases hfind : aipu_mm_find_region mm buf.pa with
    | none => exact free_of_no_region mm buf filp hfind
    | some id =>
      by_cases ho : owns_run (mm.reg id) buf.pa filp
      · rw [free_of_owns_run mm buf filp hfilp id hfind ho] at h
        exact absurd rfl h
      · exact free_of_not_owns_run mm buf filp hfilp id hfind ho

theorem test_bit_region_released (reg : aipu_mem_region) (idx i : Nat) :
    test_bit (region_released reg idx).bitmap i =
      if idx ≤ i ∧ i < idx + (reg.page idx).contiguous_alloc_len % U32_MOD then false
      else test_bit reg.bitmap i := by
  unfold region_released bitmap_clear
  dsimp only
  rw [test_bit_bitmap_fill]
  by_cases hl : i < reg.bitmap.length
  · simp [hl]
  · rw [if_neg (fun h => hl h.2.2), test_bit_of_length_le _ _ (Nat.le_of_not_lt hl)]
    simp

theorem page_region_released (reg : aipu_mem_region) (idx j : Nat) :
    (region_released reg idx).page j = if j = idx then zero_page else reg.page j := by
  have h := page_set_eq reg idx j zero_page
  unfold region_released aipu_mem_region.page at *
  dsimp only
  rw [h]
  by_cases e : j = idx
  · subst e
    by_cases hl : j < reg.pages.length
    · simp [hl]
    · simp [hl, List.getD, List.getElem?_eq_none (Nat.le_of_not_lt hl)]
  · simp [e]

/-- C9 as amended. For a caller with a file pointer, on a manager whose two
regions occupy disjoint address ranges and whose page entry at the index of
the address records a run length below `2 ^ 32`, `aipu_mm_free` succeeds
exactly when the address lies in the range of some region, its page index is
below that region's page count, and that page is owned by the caller with a
non-zero run length; every other call returns `-EINVAL`. On success exactly
the bits `[index, index + contiguous_alloc_len)` are cleared, the head entry
is zeroed, nothing else changes, and a second free of the same descriptor
fails. -/
theorem free_owner_of_live_run (mm : aipu_memory_manager) (buf : aipu_buf_desc) (filp : Nat)
    (hfilp : filp ≠ 0) (hd : regions_disjoint mm)
    (hlen : ∀ id,
      ((mm.reg id).page (page_index (mm.reg id) buf.pa)).contiguous_alloc_len < U32_MOD) :
    ((aipu_mm_free mm buf filp).1 = 0 ↔ ∃ id, owns_run (mm.reg id) buf.pa filp) ∧
    ((aipu_mm_free mm buf filp).1 ≠ 0 → (aipu_mm_free mm buf filp).1 = -EINVAL) ∧
    (∀ id, owns_run (mm.reg id) buf.pa filp →
      (aipu_mm_free mm buf filp).2 =
        mm.set_reg id (region_released (mm.reg id) (page_index (mm.reg id) buf.pa)) ∧
      (∀ i, test_bit ((aipu_mm_free mm buf filp).2.reg id).bitmap i =
        if page_index (mm.reg id) buf.pa ≤ i ∧
            i < page_index (mm.reg id) buf.pa +
              ((mm.reg id).page (page_index (mm.reg id) buf.pa)).contiguous_alloc_len
        then false else test_bit (mm.reg id).bitmap i) ∧
      (∀ j, ((aipu_mm_free mm buf filp).2.reg id).page j =
        if j = page_index (mm.reg id) buf.pa then zero_page else (mm.reg id).page j) ∧
      (aipu_mm_free (aipu_mm_free mm buf filp).2 buf filp).1 = -EINVAL) := by
  refine ⟨⟨fun h => ?_, fun ⟨id, h⟩ => ?_⟩, fun h => ?_, fun id h => ?_⟩
  · cases hfind : aipu_mm_find_region mm buf.pa with
    | none =>
      rw [free_of_no_region mm buf filp hfind] at h
      simp [EINVAL] at h
    | some id =>
      by_cases ho : owns_run (mm.reg id) buf.pa filp
      · exact ⟨id, ho⟩
      · rw [free_of_not_owns_run mm buf filp hfilp id hfind ho] at h
        simp [EINVAL] at h
  · rw [free_of_owns_run mm buf filp hfilp id (find_region_of_in_region mm _ id hd h.1) h]
  · rw [free_fail_eq mm buf filp h]
  · have hfind := find_region_of_in_region mm _ id hd h.1
    rw [free_of_owns_run mm buf filp hfilp id hfind h]
    dsimp only
    rw [reg_set_reg]
    refine ⟨rfl, fun i => ?_, fun j => page_region_released _ _ j, ?_⟩
    · rw [test_bit_region_released, Nat.mod_eq_of_lt (hlen id)]
    have hfind2 : aipu_mm_find_region
        (mm.set_reg id (region_released (mm.reg id) (page_index (mm.reg id) buf.pa))) buf.pa =
        some id := by
      rw [find_region_set_reg mm id
        (region_released (mm.reg id) (page_index (mm.reg id) buf.pa)) buf.pa rfl rfl, hfind]
    rw [free_of_not_owns_run _ buf filp hfilp id hfind2]
    rw [reg_set_reg]
    intro hc
    have h3 := hc.2.2.1
    have e : (buf.pa - (region_released (mm.reg id) (page_index (mm.reg id) buf.pa)).base_iova) /
        PAGE_SIZE = page_index (mm.reg id) buf.pa := rfl
    rw [e, page_region_released, if_pos rfl] at h3
    exact hfilp h3.symm

/-- C9, counterexample to the claim as stated. `aipu_init_mm` accepts a
device tree whose SRAM range lies inside the DRAM range and returns `0`. A
request of 4096 bytes of the eligible class by caller 7 is then placed at
SRAM page 0, address `0x40002000`: the address lies in the SRAM range, its
page index is below the SRAM page count, and that page is owned by caller 7
with run length 1. Yet `aipu_mm_free` of the returned descriptor by caller 7
returns `-EINVAL`: `aipu_mm_find_region` resolves the address to DRAM, the
first region whose range holds it, where page 2 has no owner. -/
theorem free_owner_refused_on_overlap :
    (aipu_init_mm 1 env_overlap).1 = 0 ∧
    ¬ regions_disjoint (aipu_init_mm 1 env_overlap).2.1 ∧
    (aipu_mm_alloc (aipu_init_mm 1 env_overlap).2.1 (mk_req 4096 1) 7 100).1 = 0 ∧
    (aipu_mm_alloc (aipu_init_mm 1 env_overlap).2.1 (mk_req 4096 1) 7 100).2.1.desc.pa =
      0x40002000 ∧
    owns_run
      ((aipu_mm_alloc (aipu_init_mm 1 env_overlap).2.1 (mk_req 4096 1) 7 100).2.2.reg
        .AIPU_MEM_REGION_SRAM_ID)
      (aipu_mm_alloc (aipu_init_mm 1 env_overlap).2.1 (mk_req 4096 1) 7 100).2.1.desc.pa 7 ∧
    (((aipu_mm_alloc (aipu_init_mm 1 env_overlap).2.1 (mk_req 4096 1) 7 100).2.2.reg
        .AIPU_MEM_REGION_SRAM_ID).page 0).contiguous_alloc_len = 1 ∧
    (aipu_mm_free (aipu_mm_alloc (aipu_init_mm 1 env_overlap).2.1 (mk_req 4096 1) 7 100).2.2
      (aipu_mm_alloc (aipu_init_mm 1 env_overlap).2.1 (mk_req 4096 1) 7 100).2.1.desc 7).1 =
      -EINVAL := by
  decide

/-- C10. Failed free is atomic: whenever `aipu_mm_free` returns an error, the
manager (the bitmaps and page arrays of all regions, and the gate) is
unchanged. -/
theorem free_fail_unchanged (mm : aipu_memory_manager) (buf : aipu_buf_desc) (filp : Nat)
    (h : (aipu_mm_free mm buf filp).1 ≠ 0) : (aipu_mm_free mm buf filp).2 = mm := by
  rw [free_fail_eq mm buf filp h]

/-- C9, example: caller 7 frees its run at the base address of the 4-page
region; the call succeeds, pages `[0, 1]` are clear again, and the same
descriptor cannot be freed twice. -/
theorem free_owner_of_live_run_witness :
    (((aipu_mm_free mm_scenario_a (desc_at 0x40000000) 7).1 = 0 ↔
        ∃ id, owns_run (mm_scenario_a.reg id) (desc_at 0x40000000).pa 7) ∧
      ((aipu_mm_free mm_scenario_a (desc_at 0x40000000) 7).1 ≠ 0 →
        (aipu_mm_free mm_scenario_a (desc_at 0x40000000) 7).1 = -EINVAL) ∧
      (∀ id, owns_run (mm_scenario_a.reg id) (desc_at 0x40000000).pa 7 →
        (aipu_mm_free mm_scenario_a (desc_at 0x40000000) 7).2 =
          mm_scenario_a.set_reg id (region_released (mm_scenario_a.reg id)
            (page_index (mm_scenario_a.reg id) (desc_at 0x40000000).pa)) ∧
        (∀ i, test_bit ((aipu_mm_free mm_scenario_a (desc_at 0x40000000) 7).2.reg id).bitmap i =
          if page_index (mm_scenario_a.reg id) (desc_at 0x40000000).pa ≤ i ∧
              i < page_index (mm_scenario_a.reg id) (desc_at 0x40000000).pa +
                ((mm_scenario_a.reg id).page
                  (page_index (mm_scenario_a.reg id) (desc_at 0x40000000).pa)).contiguous_alloc_len
          then false else test_bit (mm_scenario_a.reg id).bitmap i) ∧
        (∀ j, ((aipu_mm_free mm_scenario_a (desc_at 0x40000000) 7).2.reg id).page j =
          if j = page_index (mm_scenario_a.reg id) (desc_at 0x40000000).pa then zero_page
          else (mm_scenario_a.reg id).page j) ∧
        (aipu_mm_free (aipu_mm_free mm_scenario_a (desc_at 0x40000000) 7).2
          (desc_at 0x40000000) 7).1 = -EINVAL)) ∧
    (aipu_mm_free mm_scenario_a (desc_at 0x40000000) 7).1 = 0 ∧
    (aipu_mm_free mm_scenario_a (desc_at 0x40000000) 7).2.reg_dram.bitmap =
      [false, false, true, false] ∧
    (aipu_mm_free (aipu_mm_free mm_scenario_a (desc_at 0x40000000) 7).2
      (desc_at 0x40000000) 7).1 = -EINVAL :=
  ⟨free_owner_of_live_run mm_scenario_a (desc_at 0x40000000) 7 (by decide) (by decide)
      (fun id => by cases id <;> decide),
   by decide, by decide, by decide⟩

/-- C10, scenario C of the specification: the run at the base address is
owned by caller 7; caller 9 presenting the same descriptor gets `-EINVAL`
and the manager is unchanged. -/
theorem free_fail_unchanged_witness :
    (aipu_mm_free mm_scenario_a (desc_at 0x40000000) 9).1 = -EINVAL ∧
    (aipu_mm_free mm_scenario_a (desc_at 0x40000000) 9).2 = mm_scenario_a :=
  ⟨by decide, free_fail_unchanged mm_scenario_a (desc_at 0x40000000) 9 (by decide)⟩

/-! ### Requests whose rounded length wraps -/

/-- C7, failing input. A request of `2 ^ 64 - 1` bytes asks for `2 ^ 52`
pages, more than the 4 pages of the region, yet placement succeeds: the
rounded length wraps to `0`, the search is run for zero pages, and the head
entry of page 0 is written. -/
theorem oversized_request_wraps :
    page_run (2 ^ 64 - 1) = 2 ^ 52 ∧ dram4.count = 4 ∧
    (aipu_mm_alloc_in_region_no_lock (mk_req (2 ^ 64 - 1) 1) dram4 7 100).1 = 0 ∧
    (aipu_mm_alloc_in_region_no_lock (mk_req (2 ^ 64 - 1) 1) dram4 7 100).2.2 ≠ dram4 ∧
    ((aipu_mm_alloc_in_region_no_lock (mk_req (2 ^ 64 - 1) 1) dram4 7 100).2.2.page 0).filp = 7 := by
  decide

/-- C6, failing input. For the same request `aipu_mm_alloc` succeeds and
writes a reserved length of `0` to the descriptor: not
`ceil(bytes / PAGE_SIZE) * PAGE_SIZE`, not non-zero and not at least the
requested length. -/
theorem reserved_length_wraps :
    (aipu_mm_alloc (mm_of_dram dram4) (mk_req (2 ^ 64 - 1) 1) 7 100).1 = 0 ∧
    (aipu_mm_alloc (mm_of_dram dram4) (mk_req (2 ^ 64 - 1) 1) 7 100).2.1.desc.bytes = 0 ∧
    page_run (2 ^ 64 - 1) * PAGE_SIZE = 2 ^ 64 ∧
    ¬ (2 ^ 64 - 1 ≤
      (aipu_mm_alloc (mm_of_dram dram4) (mk_req (2 ^ 64 - 1) 1) 7 100).2.1.desc.bytes) := by
  decide

/-- C5, failing input. Caller 7 issues the wrapping request, which records
it as owner of page 0 without taking the page, and maps that address; caller
9 then asks for one page. The allocation succeeds on page 0, whose entry now
has owner 9, run length 1 and the stale `map_num = 1`. -/
theorem alloc_inherits_map_num :
    mm_fresh (mm_of_dram dram4) ∧
    (aipu_mm_alloc (mm_run (mm_of_dram dram4)
        [.alloc (mk_req (2 ^ 64 - 1) 1) 7 100,
         .mmap_buf { vm_pgoff := 0x40000, vm_start := 0, vm_end := 4096 } 7 0])
      (mk_req 4096 1) 9 200).1 = 0 ∧
    (aipu_mm_alloc (mm_run (mm_of_dram dram4)
        [.alloc (mk_req (2 ^ 64 - 1) 1) 7 100,
         .mmap_buf { vm_pgoff := 0x40000, vm_start := 0, vm_end := 4096 } 7 0])
      (mk_req 4096 1) 9 200).2.1.desc.pa = 0x40000000 ∧
    (aipu_mm_alloc (mm_run (mm_of_dram dram4)
        [.alloc (mk_req (2 ^ 64 - 1) 1) 7 100,
         .mmap_buf { vm_pgoff := 0x40000, vm_start := 0, vm_end := 4096 } 7 0])
      (mk_req 4096 1) 9 200).2.2.reg_dram.page 0 =
      { tid := 200, filp := 9, map_num := 1, contiguous_alloc_len := 1 } := by
  decide

/-! ### Bulk release -/

/-- C2, failing input. Caller 7 is given pages `[0, 1]` of a fresh 4-page
region and then leaves (`aipu_mm_free_buffers`). Only the bit of the head
page is cleared: bit 1 stays set although no page entry records a run any
more, so the bitmap and the page array are no longer consistent. -/
theorem bulk_free_breaks_consistency :
    mm_fresh (mm_of_dram dram4) ∧
    (mm_run (mm_of_dram dram4)
      [.alloc (mk_req 8192 1) 7 100, .free_buffers 7]).reg_dram.bitmap =
      [false, true, false, false] ∧
    (mm_run (mm_of_dram dram4)
      [.alloc (mk_req 8192 1) 7 100, .free_buffers 7]).reg_dram.pages =
      [zero_page, zero_page, zero_page, zero_page] ∧
    ¬ bitmap_page_consistent (mm_run (mm_of_dram dram4)
      [.alloc (mk_req 8192 1) 7 100, .free_buffers 7]).reg_dram := by
  decide

/-! ### The region invariant -/

theorem page_of_length_le (reg : aipu_mem_region) (h : Nat) (hl : reg.pages.length ≤ h) :
    reg.page h = zero_page := by
  unfold aipu_mem_region.page
  simp [List.getD, List.getElem?_eq_none hl]

theorem test_bit_replicate_false (n i : Nat) : test_bit (List.replicate n false) i = false := by
  unfold test_bit
  by_cases h : i < n
  · simp [List.getD, List.getElem?_replicate, h]
  · simp [List.getD, List.getElem?_replicate, h]

theorem page_replicate_zero (reg : aipu_mem_region) (n h : Nat)
    (e : reg.pages = List.replicate n zero_page) : reg.page h = zero_page := by
  unfold aipu_mem_region.page
  rw [e]
  by_cases hh : h < n
  · simp [List.getD, List.getElem?_replicate, hh]
  · simp [List.getD, List.getElem?_replicate, hh]

/-- A freshly initialised region satisfies the invariant. -/
theorem region_inv_fresh (reg : aipu_mem_region) (h : region_fresh reg) : region_inv reg := by
  obtain ⟨_, hb, hp, _⟩ := h
  have hz : ∀ h, reg.page h = zero_page := fun h => page_replicate_zero reg _ h hp
  refine ⟨⟨by rw [hb]; simp, by rw [hp]; simp⟩, ?_, ?_, ?_⟩
  · intro h hf
    rw [hz h] at hf
    exact absurd rfl hf
  · intro h hl
    rw [hz h] at hl
    exact absurd hl (by decide)
  · intro h1 _ _ hl
    rw [hz h1] at hl
    exact absurd hl (by decide)

theorem page_region_placed (reg : aipu_mem_region) (i nr filp : Nat) (tid : Int) (j : Nat)
    (hi : i < reg.pages.length) :
    (region_placed reg i nr filp tid).page j =
      if j = i then
        { reg.page i with contiguous_alloc_len := nr, filp := filp, tid := tid }
      else reg.page j := by
  have h := page_set_eq reg i j
    { reg.page i with contiguous_alloc_len := nr, filp := filp, tid := tid }
  unfold region_placed aipu_mem_region.page at *
  dsimp only
  rw [h]
  by_cases e : j = i
  · simp [e, hi]
  · simp [e]

theorem test_bit_region_placed (reg : aipu_mem_region) (i nr filp : Nat) (tid : Int) (j : Nat)
    (hl : i + nr ≤ reg.bitmap.length) :
    test_bit (region_placed reg i nr filp tid).bitmap j =
      if i ≤ j ∧ j < i + nr then true else test_bit reg.bitmap j := by
  unfold region_placed bitmap_set
  dsimp only
  rw [test_bit_bitmap_fill]
  by_cases c : i ≤ j ∧ j < i + nr
  · rw [if_pos ⟨c.1, c.2, by omega⟩, if_pos c]
  · rw [if_neg (fun h => c ⟨h.1, h.2.1⟩), if_neg c]

/-- Placing a run on a free window keeps the invariant. -/
theorem region_inv_placed (reg : aipu_mem_region) (i nr align filp : Nat) (tid : Int)
    (hinv : region_inv reg) (hfit : fits reg nr align i) (hnr : 0 < nr) :
    region_inv (region_placed reg i nr filp tid) := by
  obtain ⟨⟨hbl, hpl⟩, hb, hc, hd⟩ := hinv
  obtain ⟨hf1, hf2, _⟩ := hfit
  have hi : i < reg.pages.length := by omega
  have hil : i + nr ≤ reg.bitmap.length := by omega
  have hpage := fun j => page_region_placed reg i nr filp tid j hi
  have hbit := fun j => test_bit_region_placed reg i nr filp tid j hil
  have hnot : ∀ h, h ≠ i → 0 < (reg.page h).contiguous_alloc_len →
      i + nr ≤ h ∨ h + (reg.page h).contiguous_alloc_len ≤ i := by
    intro h _ hl
    by_contra hcon
    obtain ⟨_, hset⟩ := hc h hl
    by_cases c : i ≤ h
    · have := hset h (le_refl _) (by omega)
      rw [hf2 h c (by omega)] at this
      exact absurd this (by simp)
    · have := hset i (by omega) (by omega)
      rw [hf2 i (le_refl _) (by omega)] at this
      exact absurd this (by simp)
  refine ⟨⟨?_, ?_⟩, ?_, ?_, ?_⟩
  · show (bitmap_set reg.bitmap i nr).length = reg.count
    unfold bitmap_set
    rw [length_bitmap_fill, hbl]
  · show (reg.pages.set i _).length = reg.count
    rw [List.length_set, hpl]
  · intro h hf
    rw [hpage h] at hf ⊢
    by_cases e : h = i
    · rw [if_pos e]; exact hnr
    · rw [if_neg e] at hf ⊢; exact hb h hf
  · intro h hl
    rw [hpage h] at hl ⊢
    by_cases e : h = i
    · subst e
      rw [if_pos rfl]
      refine ⟨hf1, fun j hj1 hj2 => ?_⟩
      rw [hbit j, if_pos ⟨hj1, hj2⟩]
    · rw [if_neg e] at hl ⊢
      obtain ⟨h1, h2⟩ := hc h hl
      refine ⟨h1, fun j hj1 hj2 => ?_⟩
      rw [hbit j]
      by_cases c : i ≤ j ∧ j < i + nr
      · rw [if_pos c]
      · rw [if_neg c]; exact h2 j hj1 hj2
  · intro h1 h2 hne hl1 hl2
    rw [hpage h1] at hl1 ⊢
    rw [hpage h2] at hl2 ⊢
    by_cases e1 : h1 = i
    · have e2 : h2 ≠ i := fun e => hne (e1.trans e.symm)
      rw [if_pos e1]
      rw [if_neg e2] at hl2 ⊢
      rw [e1]
      exact hnot h2 e2 hl2
    · rw [if_neg e1] at hl1 ⊢
      by_cases e2 : h2 = i
      · rw [if_pos e2]
        rw [e2]
        exact (hnot h1 e1 hl1).symm
      · rw [if_neg e2] at hl2 ⊢
        exact hd h1 h2 hne hl1 hl2

/-- Releasing a live run keeps the invariant. -/
theorem region_inv_released (reg : aipu_mem_region) (idx : Nat) (hinv : region_inv reg) :
    region_inv (region_released reg idx) := by
  obtain ⟨⟨hbl, hpl⟩, hb, hc, hd⟩ := hinv
  have hpage := page_region_released reg idx
  have hbit := test_bit_region_released reg idx
  have hz : zero_page.contiguous_alloc_len = 0 := rfl
  refine ⟨⟨?_, ?_⟩, ?_, ?_, ?_⟩
  · show (bitmap_clear reg.bitmap idx _).length = reg.count
    unfold bitmap_clear
    rw [length_bitmap_fill, hbl]
  · show (reg.pages.set idx _).length = reg.count
    rw [List.length_set, hpl]
  · intro h hf
    rw [hpage h] at hf ⊢
    by_cases e : h = idx
    · rw [if_pos e] at hf; exact absurd rfl hf
    · rw [if_neg e] at hf ⊢; exact hb h hf
  · intro h hl
    rw [hpage h] at hl ⊢
    by_cases e : h = idx
    · rw [if_pos e, hz] at hl; omega
    · rw [if_neg e] at hl ⊢
      obtain ⟨h1, h2⟩ := hc h hl
      refine ⟨h1, fun j hj1 hj2 => ?_⟩
      rw [hbit j]
      by_cases c : idx ≤ j ∧ j < idx + (reg.page idx).contiguous_alloc_len
      · have hlidx : 0 < (reg.page idx).contiguous_alloc_len := by omega
        have := hd h idx e hl hlidx
        omega
      · have hm := Nat.mod_le (reg.page idx).contiguous_alloc_len U32_MOD
        rw [if_neg (fun hc2 => c ⟨hc2.1, by omega⟩)]; exact h2 j hj1 hj2
  · intro h1 h2 hne hl1 hl2
    rw [hpage h1] at hl1 ⊢
    rw [hpage h2] at hl2 ⊢
    by_cases e1 : h1 = idx
    · rw [if_pos e1, hz] at hl1; omega
    · by_cases e2 : h2 = idx
      · rw [if_pos e2, hz] at hl2; omega
      · rw [if_neg e1] at hl1 ⊢
        rw [if_neg e2] at hl2 ⊢
        exact hd h1 h2 hne hl1 hl2

/-! ### Bulk release and the invariant -/

theorem test_bit_clear_bit_eq (map : List Bool) (n i : Nat) :
    test_bit (clear_bit n map) i = if i = n then false else test_bit map i := by
  rw [test_bit_clear_bit]
  by_cases e : i = n
  · by_cases hl : i < map.length
    · rw [if_pos ⟨e, hl⟩, if_pos e]
    · rw [if_neg (fun h => hl h.2), if_pos e]
      exact test_bit_of_length_le _ _ (Nat.le_of_not_lt hl)
  · rw [if_neg (fun h => e h.1), if_neg e]

theorem page_set_zero (reg : aipu_mem_region) (i j : Nat) :
    (reg.pages.set i zero_page).getD j zero_page =
      if j = i then zero_page else reg.page j := by
  rw [page_set_eq]
  by_cases e : j = i
  · by_cases hl : i < reg.pages.length
    · rw [if_pos ⟨e, hl⟩, if_pos e]
    · rw [if_neg (fun h => hl h.2), if_pos e, e]
      exact page_of_length_le _ _ (Nat.le_of_not_lt hl)
  · rw [if_neg (fun h => e h.1), if_neg e]

/-- State of the region after the first `n` rounds of the loop of
`aipu_mm_free_filp_in_region`: each page below `n` recorded for `filp` has
its entry zeroed and its own bit cleared; nothing else is touched. -/
theorem free_filp_fold (filp : Nat) (reg : aipu_mem_region) :
    ∀ n : Nat,
      (List.range n).foldl (aipu_mm_free_filp_step filp) reg =
        { reg with
            pages := ((List.range n).foldl (aipu_mm_free_filp_step filp) reg).pages
            bitmap := ((List.range n).foldl (aipu_mm_free_filp_step filp) reg).bitmap } ∧
      ((List.range n).foldl (aipu_mm_free_filp_step filp) reg).bitmap.length =
        reg.bitmap.length ∧
      ((List.range n).foldl (aipu_mm_free_filp_step filp) reg).pages.length =
        reg.pages.length ∧
      (∀ h, ((List.range n).foldl (aipu_mm_free_filp_step filp) reg).page h =
        if h < n ∧ (reg.page h).filp = filp then zero_page else reg.page h) ∧
      (∀ j, test_bit ((List.range n).foldl (aipu_mm_free_filp_step filp) reg).bitmap j =
        if j < n ∧ (reg.page j).filp = filp then false else test_bit reg.bitmap j) := by
  intro n
  induction n with
  | zero => simp
  | succ n ih =>
    rw [List.range_succ, List.foldl_append]
    simp only [List.foldl_cons, List.foldl_nil]
    obtain ⟨h1, h2, h3, h4, h5⟩ := ih
    generalize (List.range n).foldl (aipu_mm_free_filp_step filp) reg = R at h1 h2 h3 h4 h5 ⊢
    have hpn : (R.page n).filp = (reg.page n).filp := by
      rw [h4 n, if_neg (fun h => by omega)]
    unfold aipu_mm_free_filp_step
    by_cases c : (reg.page n).filp = filp
    · rw [if_pos (hpn.trans c)]
      refine ⟨?_, ?_, ?_, ?_, ?_⟩
      · dsimp only
        rw [h1]
      · dsimp only
        rw [length_clear_bit, h2]
      · dsimp only
        rw [List.length_set, h3]
      · intro h
        show (R.pages.set n zero_page).getD h zero_page = _
        rw [page_set_zero, h4 h]
        by_cases e : h = n
        · subst e
          rw [if_pos rfl, if_pos ⟨by omega, c⟩]
        · rw [if_neg e]
          by_cases c2 : h < n ∧ (reg.page h).filp = filp
          · rw [if_pos c2, if_pos ⟨by omega, c2.2⟩]
          · rw [if_neg c2, if_neg (fun hh => c2 ⟨by omega, hh.2⟩)]
      · intro j
        show test_bit (clear_bit n R.bitmap) j = _
        rw [test_bit_clear_bit_eq, h5 j]
        by_cases e : j = n
        · subst e
          rw [if_pos rfl, if_pos ⟨by omega, c⟩]
        · rw [if_neg e]
          by_cases c2 : j < n ∧ (reg.page j).filp = filp
          · rw [if_pos c2, if_pos ⟨by omega, c2.2⟩]
          · rw [if_neg c2, if_neg (fun hh => c2 ⟨by omega, hh.2⟩)]
    · rw [if_neg (fun h => c (hpn.symm.trans h))]
      refine ⟨h1, h2, h3, ?_, ?_⟩
      · intro h
        rw [h4 h]
        by_cases c2 : h < n ∧ (reg.page h).filp = filp
        · rw [if_pos c2, if_pos ⟨by omega, c2.2⟩]
        · rw [if_neg c2, if_neg]
          rintro ⟨hh1, hh2⟩
          by_cases e : h = n
          · subst e; exact c hh2
          · exact c2 ⟨by omega, hh2⟩
      · intro j
        rw [h5 j]
        by_cases c2 : j < n ∧ (reg.page j).filp = filp
        · rw [if_pos c2, if_pos ⟨by omega, c2.2⟩]
        · rw [if_neg c2, if_neg]
          rintro ⟨hh1, hh2⟩
          by_cases e : j = n
          · subst e; exact c hh2
          · exact c2 ⟨by omega, hh2⟩

/-- Effect of `aipu_mm_free_filp_in_region` on a region whose page array has
`count` entries: the entries recorded for `filp` are zeroed and the bit of
each such page (the head bit only) is cleared. -/
theorem free_filp_in_region_spec (reg : aipu_mem_region) (filp : Nat) (hfilp : filp ≠ 0)
    (hpl : reg.pages.length = reg.count) :
    aipu_mm_free_filp_in_region reg filp =
        { reg with
            pages := (aipu_mm_free_filp_in_region reg filp).pages
            bitmap := (aipu_mm_free_filp_in_region reg filp).bitmap } ∧
      (aipu_mm_free_filp_in_region reg filp).bitmap.length = reg.bitmap.length ∧
      (aipu_mm_free_filp_in_region reg filp).pages.length = reg.pages.length ∧
      (∀ h, (aipu_mm_free_filp_in_region reg filp).page h =
        if (reg.page h).filp = filp then zero_page else reg.page h) ∧
      (∀ j, test_bit (aipu_mm_free_filp_in_region reg filp).bitmap j =
        if (reg.page j).filp = filp then false else test_bit reg.bitmap j) := by
  unfold aipu_mm_free_filp_in_region
  rw [if_neg hfilp]
  obtain ⟨h1, h2, h3, h4, h5⟩ := free_filp_fold filp reg reg.count
  have hout : ∀ h, ¬ h < reg.count → (reg.page h).filp ≠ filp := by
    intro h hh
    rw [page_of_length_le reg h (by omega)]
    exact fun e => hfilp e.symm
  refine ⟨h1, h2, h3, fun h => ?_, fun j => ?_⟩
  · rw [h4 h]
    by_cases c : (reg.page h).filp = filp
    · have : h < reg.count := by
        by_contra hh
        exact hout h hh c
      rw [if_pos ⟨this, c⟩, if_pos c]
    · rw [if_neg (fun hh => c hh.2), if_neg c]
  · rw [h5 j]
    by_cases c : (reg.page j).filp = filp
    · have : j < reg.count := by
        by_contra hh
        exact hout j hh c
      rw [if_pos ⟨this, c⟩, if_pos c]
    · rw [if_neg (fun hh => c hh.2), if_neg c]

theorem free_filp_in_region_zero (reg : aipu_mem_region) :
    aipu_mm_free_filp_in_region reg 0 = reg := by
  unfold aipu_mm_free_filp_in_region
  simp

/-- Bulk release keeps the invariant: it only touches heads of live runs,
and the bit it clears belongs to the run it removes. -/
theorem region_inv_free_filp (reg : aipu_mem_region) (filp : Nat) (hinv : region_inv reg) :
    region_inv (aipu_mm_free_filp_in_region reg filp) := by
  by_cases hfilp : filp = 0
  · subst hfilp
    rw [free_filp_in_region_zero]
    exact hinv
  · obtain ⟨⟨hbl, hpl⟩, hb, hc, hd⟩ := hinv
    obtain ⟨h1, h2, h3, hpage, hbit⟩ := free_filp_in_region_spec reg filp hfilp hpl
    have hcount : (aipu_mm_free_filp_in_region reg filp).count = reg.count := by
      rw [h1]
    have hz : zero_page.contiguous_alloc_len = 0 := rfl
    have hzf : zero_page.filp = 0 := rfl
    refine ⟨⟨by rw [h2, hbl, hcount], by rw [h3, hpl, hcount]⟩, ?_, ?_, ?_⟩
    · intro h hf
      rw [hpage h] at hf ⊢
      by_cases c : (reg.page h).filp = filp
      · rw [if_pos c, hzf] at hf; exact absurd rfl hf
      · rw [if_neg c] at hf ⊢; exact hb h hf
    · intro h hl
      rw [hpage h] at hl ⊢
      by_cases c : (reg.page h).filp = filp
      · rw [if_pos c, hz] at hl; omega
      · rw [if_neg c] at hl ⊢
        rw [hcount]
        obtain ⟨a1, a2⟩ := hc h hl
        refine ⟨a1, fun j hj1 hj2 => ?_⟩
        rw [hbit j]
        by_cases cj : (reg.page j).filp = filp
        · have hjl : 0 < (reg.page j).contiguous_alloc_len :=
            hb j (by rw [cj]; exact hfilp)
          by_cases e : j = h
          · subst e; exact absurd cj c
          · have := hd j h e hjl hl
            omega
        · rw [if_neg cj]; exact a2 j hj1 hj2
    · intro x y hne hl1 hl2
      rw [hpage x] at hl1 ⊢
      rw [hpage y] at hl2 ⊢
      by_cases c1 : (reg.page x).filp = filp
      · rw [if_pos c1, hz] at hl1; omega
      · by_cases c2 : (reg.page y).filp = filp
        · rw [if_pos c2, hz] at hl2; omega
        · rw [if_neg c1] at hl1 ⊢
          rw [if_neg c2] at hl2 ⊢
          exact hd x y hne hl1 hl2

/-! ### Steps of the manager -/

/-- The two outcomes of a placement for a valid request: `-ENOMEM` with
nothing changed, or a run placed on a free aligned window. -/
theorem alloc_in_region_cases (buf_req : aipu_buf_request) (reg : aipu_mem_region)
    (filp : Nat) (tid : Int) (hfilp : filp ≠ 0)
    (hbytes : 0 < buf_req.bytes) (hwrap : run_fits buf_req.bytes)
    (hpow : ∃ k, buf_req.align_in_page = 2 ^ k) (h32 : buf_req.align_in_page < 2 ^ 32) :
    aipu_mm_alloc_in_region_no_lock buf_req reg filp tid = (-ENOMEM, buf_req, reg) ∨
    ∃ i, fits reg (page_run buf_req.bytes) buf_req.align_in_page i ∧
      aipu_mm_alloc_in_region_no_lock buf_req reg filp tid =
        (0,
         { buf_req with desc :=
            { pa := reg.base_iova + i * PAGE_SIZE, dev_offset := reg.base_iova + i * PAGE_SIZE,
              bytes := page_run buf_req.bytes * PAGE_SIZE } },
         region_placed reg i (page_run buf_req.bytes) filp tid) := by
  obtain ⟨k, hk⟩ := hpow
  have hk64 : k ≤ 64 := by
    by_contra hc
    have : 2 ^ 32 ≤ 2 ^ k := Nat.pow_le_pow_right (by norm_num) (by omega)
    omega
  rw [alloc_in_region_unfold buf_req reg filp tid k hk64 hfilp hk]
  rw [alloc_nr_fits _ hwrap, page_run_mod _ hwrap, hk]
  rcases find_area_spec reg (page_run buf_req.bytes) k (page_run_pos _ hbytes) with
    ⟨h1, h2, _⟩ | ⟨h1, _⟩
  · right
    rw [if_neg (by omega)]
    exact ⟨_, h2, rfl⟩
  · left
    rw [if_pos h1]

/-- The two outcomes of `aipu_mm_alloc` for a request in range: an error
with nothing changed, or one run placed on a free aligned window of one
region, whose address and length are returned. -/
theorem alloc_cases (mm : aipu_memory_manager) (buf_req : aipu_buf_request)
    (filp : Nat) (tid : Int)
    (hwrap : run_fits buf_req.bytes) (h32 : buf_req.align_in_page < 2 ^ 32) :
    ((aipu_mm_alloc mm buf_req filp tid).1 ≠ 0 ∧
      (aipu_mm_alloc mm buf_req filp tid).2 = (buf_req, mm)) ∨
    ∃ id i, (aipu_mm_alloc mm buf_req filp tid).1 = 0 ∧ filp ≠ 0 ∧
      0 < page_run buf_req.bytes ∧
      fits (mm.reg id) (page_run buf_req.bytes) buf_req.align_in_page i ∧
      (aipu_mm_alloc mm buf_req filp tid).2.2 =
        mm.set_reg id (region_placed (mm.reg id) i (page_run buf_req.bytes) filp tid) ∧
      (aipu_mm_alloc mm buf_req filp tid).2.1.desc.pa = (mm.reg id).base_iova + i * PAGE_SIZE ∧
      (aipu_mm_alloc mm buf_req filp tid).2.1.desc.bytes = page_run buf_req.bytes * PAGE_SIZE := by
  by_cases h0 : (aipu_mm_alloc mm buf_req filp tid).1 = 0
  swap
  · exact Or.inl ⟨h0, alloc_fail_unchanged mm buf_req filp tid h0⟩
  right
  have hne : (-ENOMEM : Int) ≠ 0 := by decide
  have hne2 : (-EINVAL : Int) ≠ 0 := by decide
  have hfb : ¬ (AIPU_CONFIG_ENABLE_FALL_BACK_TO_DDR = 0) := by decide
  unfold aipu_mm_alloc at h0 ⊢
  by_cases hfilp : filp = 0
  · rw [if_pos hfilp] at h0; exact absurd h0 hne2
  rw [if_neg hfilp] at h0 ⊢
  by_cases hv : buf_req.bytes = 0 ∨ is_power_of_2 buf_req.align_in_page = false
  · rw [if_pos hv] at h0; exact absurd h0 hne2
  rw [if_neg hv] at h0 ⊢
  have hbytes : 0 < buf_req.bytes := by
    rcases Nat.eq_zero_or_pos buf_req.bytes with h | h
    · exact absurd (Or.inl h) hv
    · exact h
  have hpow : ∃ k, buf_req.align_in_page = 2 ^ k := by
    apply (is_power_of_2_iff _).mp
    cases hp : is_power_of_2 buf_req.align_in_page
    · exact absurd (Or.inr hp) hv
    · rfl
  have hpr := page_run_pos _ hbytes
  by_cases he : AIPU_CONFIG_ENABLE_SRAM = 1 ∧ mm.reg_sram.bytes ≠ 0 ∧ mm.sram_disable = 0 ∧
      mm.sram_dft_dtype = buf_req.data_type
  · rw [if_pos he] at h0 ⊢
    rcases alloc_in_region_cases buf_req mm.reg_sram filp tid hfilp hbytes hwrap hpow h32 with
      hs | ⟨i, hfit, hs⟩
    · simp only [hs, hne, hfb, and_false, or_false, if_false] at h0 ⊢
      rcases alloc_in_region_cases buf_req mm.reg_dram filp tid hfilp hbytes hwrap hpow h32 with
        hdr | ⟨i, hfit, hdr⟩
      · rw [hdr] at h0; exact absurd h0 hne
      · rw [hdr]
        exact ⟨.AIPU_MEM_REGION_DRAM_ID, i, rfl, hfilp, hpr, hfit, rfl, rfl, rfl⟩
    · simp only [hs, or_true, if_true]
      refine ⟨.AIPU_MEM_REGION_SRAM_ID, i, ?_, hfilp, hpr, hfit, ?_, ?_, ?_⟩ <;>
        first | rfl | trivial
  · rw [if_neg he] at h0 ⊢
    dsimp only at h0 ⊢
    rcases alloc_in_region_cases buf_req mm.reg_dram filp tid hfilp hbytes hwrap hpow h32 with
      hdr | ⟨i, hfit, hdr⟩
    · rw [hdr] at h0; exact absurd h0 hne
    · rw [hdr]
      exact ⟨.AIPU_MEM_REGION_DRAM_ID, i, rfl, hfilp, hpr, hfit, rfl, rfl, rfl⟩

theorem reg_set_reg_ne (mm : aipu_memory_manager) (id id' : aipu_mem_region_id)
    (reg : aipu_mem_region) (h : id' ≠ id) : (mm.set_reg id reg).reg id' = mm.reg id' := by
  cases id <;> cases id' <;> first | rfl | exact absurd rfl h

/-- The two outcomes of `aipu_mm_free`. -/
theorem free_cases (mm : aipu_memory_manager) (buf : aipu_buf_desc) (filp : Nat) :
    aipu_mm_free mm buf filp = (-EINVAL, mm) ∨
    ∃ id, filp ≠ 0 ∧ aipu_mm_find_region mm buf.pa = some id ∧
      owns_run (mm.reg id) buf.pa filp ∧
      aipu_mm_free mm buf filp =
        (0, mm.set_reg id (region_released (mm.reg id) (page_index (mm.reg id) buf.pa))) := by
  by_cases hfilp : filp = 0
  · subst hfilp; exact Or.inl (free_filp_zero mm buf)
  · cases hfind : aipu_mm_find_region mm buf.pa with
    | none => exact Or.inl (free_of_no_region mm buf filp hfind)
    | some id =>
      by_cases ho : owns_run (mm.reg id) buf.pa filp
      · exact Or.inr ⟨id, hfilp, rfl, ho, free_of_owns_run mm buf filp hfilp id hfind ho⟩
      · exact Or.inl (free_of_not_owns_run mm buf filp hfilp id hfind ho)

/-- The two outcomes of `aipu_mm_mmap_buf` on the manager. -/
theorem mmap_cases (mm : aipu_memory_manager) (vma : vm_area_struct) (filp : Nat)
    (ext_ret : Int) :
    (aipu_mm_mmap_buf mm vma filp ext_ret).2 = mm ∨
    ∃ id n, (aipu_mm_mmap_buf mm vma filp ext_ret).2 =
      mm.set_reg id (region_mapped (mm.reg id) n) := by
  unfold aipu_mm_mmap_buf
  dsimp only
  split
  · exact Or.inl rfl
  · rename_i id _
    split
    · exact Or.inl rfl
    · rename_i n _
      split
      · exact Or.inr ⟨id, n, rfl⟩
      · exact Or.inl rfl

theorem disable_reg (mm : aipu_memory_manager) (filp : Nat) (k : Bool)
    (id : aipu_mem_region_id) :
    (aipu_mm_disable_sram_allocation mm filp k).2.reg id = mm.reg id := by
  unfold aipu_mm_disable_sram_allocation
  split
  · rfl
  · split
    · rfl
    · split
      · cases id <;> rfl
      · split
        · rfl
        · cases id <;> rfl

theorem enable_reg (mm : aipu_memory_manager) (filp : Nat) (id : aipu_mem_region_id) :
    (aipu_mm_enable_sram_allocation mm filp).2.reg id = mm.reg id := by
  unfold aipu_mm_enable_sram_allocation
  split
  · rfl
  · split
    · rfl
    · cases id <;> rfl

theorem free_buffers_reg (mm : aipu_memory_manager) (filp : Nat) (id : aipu_mem_region_id) :
    (aipu_mm_free_buffers mm filp).reg id = aipu_mm_free_filp_in_region (mm.reg id) filp := by
  cases id <;> rfl

/-- What one call in range can do to one region: leave it alone, place a
run on a free window, release the run of the caller named by the address,
bulk release for a caller, or count one more export. -/
theorem step_reg_cases (s : aipu_memory_manager) (op : mm_op) (id : aipu_mem_region_id)
    (hr : op_in_range op) :
    (mm_step s op).reg id = s.reg id ∨
    (∃ i nr align filp tid, 0 < nr ∧ filp ≠ 0 ∧ fits (s.reg id) nr align i ∧
      (mm_step s op).reg id = region_placed (s.reg id) i nr filp tid) ∨
    (∃ buf filp, op = .free buf filp ∧ aipu_mm_find_region s buf.pa = some id ∧
      owns_run (s.reg id) buf.pa filp ∧
      (mm_step s op).reg id = region_released (s.reg id) (page_index (s.reg id) buf.pa)) ∨
    (∃ filp, op = .free_buffers filp ∧
      (mm_step s op).reg id = aipu_mm_free_filp_in_region (s.reg id) filp) ∨
    (∃ n, (mm_step s op).reg id = region_mapped (s.reg id) n) := by
  cases op with
  | alloc buf_req filp tid =>
    simp only [mm_step]
    rcases alloc_cases s buf_req filp tid hr.1 hr.2 with ⟨_, h⟩ | ⟨id', i, _, hf, hpr, hfit, h, _⟩
    · left
      rw [h]
    · by_cases e : id = id'
      · subst e
        right; left
        refine ⟨i, _, _, filp, tid, hpr, hf, hfit, ?_⟩
        rw [h, reg_set_reg]
      · left
        rw [h, reg_set_reg_ne _ _ _ _ e]
  | free buf filp =>
    simp only [mm_step]
    rcases free_cases s buf filp with h | ⟨id', _, hfind, ho, h⟩
    · left
      rw [h]
    · by_cases e : id = id'
      · subst e
        right; right; left
        refine ⟨buf, filp, rfl, hfind, ho, ?_⟩
        rw [h]
        exact reg_set_reg _ _ _
      · left
        rw [h]
        exact reg_set_reg_ne _ _ _ _ e
  | free_buffers filp =>
    right; right; right; left
    exact ⟨filp, rfl, free_buffers_reg s filp id⟩
  | mmap_buf vma filp ext_ret =>
    simp only [mm_step]
    rcases mmap_cases s vma filp ext_ret with h | ⟨id', n, h⟩
    · left
      rw [h]
    · by_cases e : id = id'
      · subst e
        right; right; right; right
        exact ⟨n, by rw [h, reg_set_reg]⟩
      · left
        rw [h, reg_set_reg_ne _ _ _ _ e]
  | disable_sram filp k => exact Or.inl (disable_reg s filp k id)
  | enable_sram filp => exact Or.inl (enable_reg s filp id)

theorem page_region_mapped (reg : aipu_mem_region) (n h : Nat) :
    ((region_mapped reg n).page h).filp = (reg.page h).filp ∧
    ((region_mapped reg n).page h).contiguous_alloc_len = (reg.page h).contiguous_alloc_len := by
  have e := page_set_eq reg n h { reg.page n with map_num := (reg.page n).map_num + 1 }
  have e2 : (region_mapped reg n).page h =
      if h = n ∧ n < reg.pages.length then
        { reg.page n with map_num := (reg.page n).map_num + 1 } else reg.page h := e
  rw [e2]
  by_cases c : h = n ∧ n < reg.pages.length
  · rw [if_pos c, c.1]
    exact ⟨rfl, rfl⟩
  · rw [if_neg c]
    exact ⟨rfl, rfl⟩

/-- Counting an export keeps the invariant. -/
theorem region_inv_mapped (reg : aipu_mem_region) (n : Nat) (hinv : region_inv reg) :
    region_inv (region_mapped reg n) := by
  obtain ⟨⟨hbl, hpl⟩, hb, hc, hd⟩ := hinv
  have hp := page_region_mapped reg n
  refine ⟨⟨hbl, ?_⟩, ?_, ?_, ?_⟩
  · show (reg.pages.set n _).length = reg.count
    rw [List.length_set, hpl]
  · intro h hf
    rw [(hp h).1] at hf
    rw [(hp h).2]
    exact hb h hf
  · intro h hl
    rw [(hp h).2] at hl ⊢
    exact hc h hl
  · intro h1 h2 hne hl1 hl2
    rw [(hp h1).2] at hl1 ⊢
    rw [(hp h2).2] at hl2 ⊢
    exact hd h1 h2 hne hl1 hl2

/-- Every call in range keeps the invariant of every region. -/
theorem mm_inv_step (s : aipu_memory_manager) (op : mm_op) (hinv : mm_inv s)
    (hr : op_in_range op) : mm_inv (mm_step s op) := by
  intro id
  rcases step_reg_cases s op id hr with h | ⟨i, nr, align, filp, tid, hnr, _, hfit, h⟩ |
    ⟨buf, filp, _, _, _, h⟩ | ⟨filp, _, h⟩ | ⟨n, h⟩
  · rw [h]; exact hinv id
  · rw [h]; exact region_inv_placed _ i nr align filp tid (hinv id) hfit hnr
  · rw [h]; exact region_inv_released _ _ (hinv id)
  · rw [h]; exact region_inv_free_filp _ filp (hinv id)
  · rw [h]; exact region_inv_mapped _ n (hinv id)

theorem mm_inv_run (ops : List mm_op) :
    ∀ s : aipu_memory_manager, mm_inv s → (∀ op, op ∈ ops → op_in_range op) →
      mm_inv (mm_run s ops) := by
  induction ops with
  | nil => intro s h _; exact h
  | cons op ops ih =>
    intro s h hr
    exact ih (mm_step s op) (mm_inv_step s op h (hr op (List.mem_cons_self _ _)))
      (fun o ho => hr o (List.mem_cons_of_mem _ ho))

theorem mm_inv_fresh (mm : aipu_memory_manager) (h : mm_fresh mm) : mm_inv mm := by
  intro id
  cases id
  · exact region_inv_fresh _ h.1
  · exact region_inv_fresh _ h.2.1

/-- Every call in range keeps base address, byte length and page count of
every region. -/
theorem same_layout_step (s : aipu_memory_manager) (op : mm_op) (hinv : mm_inv s)
    (hr : op_in_range op) : same_layout (mm_step s op) s := by
  intro id
  rcases step_reg_cases s op id hr with h | ⟨i, nr, align, filp, tid, _, _, _, h⟩ |
    ⟨buf, filp, _, _, _, h⟩ | ⟨filp, _, h⟩ | ⟨n, h⟩
  · rw [h]; exact ⟨rfl, rfl, rfl⟩
  · rw [h]; exact ⟨rfl, rfl, rfl⟩
  · rw [h]; exact ⟨rfl, rfl, rfl⟩
  · rw [h]
    by_cases hf : filp = 0
    · subst hf
      rw [free_filp_in_region_zero]
      exact ⟨rfl, rfl, rfl⟩
    · have e := (free_filp_in_region_spec (s.reg id) filp hf (hinv id).1.2).1
      rw [e]
      exact ⟨rfl, rfl, rfl⟩
  · rw [h]; exact ⟨rfl, rfl, rfl⟩

/-! ### Exclusive ownership -/

theorem find_region_same_layout (a b : aipu_memory_manager) (h : same_layout a b) (x : Nat) :
    aipu_mm_find_region a x = aipu_mm_find_region b x := by
  have hd := h .AIPU_MEM_REGION_DRAM_ID
  have hs := h .AIPU_MEM_REGION_SRAM_ID
  have d1 : a.reg_dram.base_iova = b.reg_dram.base_iova := hd.1
  have d2 : a.reg_dram.bytes = b.reg_dram.bytes := hd.2.1
  have s1 : a.reg_sram.base_iova = b.reg_sram.base_iova := hs.1
  have s2 : a.reg_sram.bytes = b.reg_sram.bytes := hs.2.1
  unfold aipu_mm_find_region
  rw [d1, d2, s1, s2]

theorem same_layout_refl (a : aipu_memory_manager) : same_layout a a :=
  fun _ => ⟨rfl, rfl, rfl⟩

theorem same_layout_trans (a b c : aipu_memory_manager) (h1 : same_layout a b)
    (h2 : same_layout b c) : same_layout a c :=
  fun id => ⟨(h1 id).1.trans (h2 id).1, (h1 id).2.1.trans (h2 id).2.1,
    (h1 id).2.2.trans (h2 id).2.2⟩

/-- A live head keeps its owner and run length across every call in range
that does not release it. -/
theorem head_kept (s s0 : aipu_memory_manager) (op : mm_op) (id : aipu_mem_region_id)
    (i f n : Nat) (hinv : mm_inv s) (hr : op_in_range op) (hlay : same_layout s s0)
    (hn : 0 < n)
    (hhead : ((s.reg id).page i).filp = f ∧ ((s.reg id).page i).contiguous_alloc_len = n)
    (hkeep : ¬ releases s0 id i f op) :
    (((mm_step s op).reg id).page i).filp = f ∧
    (((mm_step s op).reg id).page i).contiguous_alloc_len = n := by
  obtain ⟨⟨hbl, hpl⟩, hb, hc, hd⟩ := hinv id
  have hlive : 0 < ((s.reg id).page i).contiguous_alloc_len := by rw [hhead.2]; exact hn
  rcases step_reg_cases s op id hr with h | ⟨j, nr, align, filp, tid, hnr, _, hfit, h⟩ |
    ⟨buf, filp, hop, hfind, ho, h⟩ | ⟨filp, hop, h⟩ | ⟨m, h⟩
  · rw [h]; exact hhead
  · rw [h, page_region_placed _ _ _ _ _ _ (by have := hfit.1; omega)]
    have hji : i ≠ j := by
      intro e
      subst e
      have h1 := (hc i hlive).2 i (le_refl _) (by omega)
      rw [hfit.2.1 i (le_refl _) (by omega)] at h1
      exact absurd h1 (by simp)
    rw [if_neg hji]
    exact hhead
  · rw [h, page_region_released]
    have hne : i ≠ page_index (s.reg id) buf.pa := by
      intro e
      apply hkeep
      rw [hop]
      refine ⟨?_, ?_, ?_⟩
      · have := ho.2.2.1
        rw [← hhead.1, e]
        exact this.symm
      · rw [← find_region_same_layout s s0 hlay]
        exact hfind
      · unfold page_index
        rw [← (hlay id).1]
        exact e.symm
    rw [if_neg hne]
    exact hhead
  · have hff : filp ≠ f := by
      intro e
      apply hkeep
      rw [hop]
      exact e
    rw [h]
    by_cases hz : filp = 0
    · subst hz
      rw [free_filp_in_region_zero]
      exact hhead
    · rw [(free_filp_in_region_spec (s.reg id) filp hz hpl).2.2.2.1 i,
        if_neg (by rw [hhead.1]; exact fun e => hff e.symm)]
      exact hhead
  · rw [h, (page_region_mapped _ m i).1, (page_region_mapped _ m i).2]
    exact hhead

/-- A live head survives every sequence of calls in range none of which
releases it; invariant and layout are kept along the way. -/
theorem head_kept_run (s0 : aipu_memory_manager) (id : aipu_mem_region_id) (i f n : Nat)
    (hn : 0 < n) (ops : List mm_op) :
    ∀ s : aipu_memory_manager, mm_inv s → same_layout s s0 →
      (((s.reg id).page i).filp = f ∧ ((s.reg id).page i).contiguous_alloc_len = n) →
      (∀ op, op ∈ ops → op_in_range op) →
      (∀ op, op ∈ ops → ¬ releases s0 id i f op) →
      mm_inv (mm_run s ops) ∧ same_layout (mm_run s ops) s0 ∧
      (((mm_run s ops).reg id).page i).filp = f ∧
      (((mm_run s ops).reg id).page i).contiguous_alloc_len = n := by
  induction ops with
  | nil => intro s h1 h2 h3 _ _; exact ⟨h1, h2, h3⟩
  | cons op ops ih =>
    intro s h1 h2 h3 hr hk
    have hr0 := hr op (List.mem_cons_self _ _)
    exact ih (mm_step s op) (mm_inv_step s op h1 hr0)
      (same_layout_trans _ _ _ (same_layout_step s op h1 hr0) h2)
      (head_kept s s0 op id i f n h1 hr0 h2 hn h3 (hk op (List.mem_cons_self _ _)))
      (fun o ho => hr o (List.mem_cons_of_mem _ ho))
      (fun o ho => hk o (List.mem_cons_of_mem _ ho))

theorem same_layout_run (ops : List mm_op) :
    ∀ s : aipu_memory_manager, mm_inv s → (∀ op, op ∈ ops → op_in_range op) →
      same_layout (mm_run s ops) s := by
  induction ops with
  | nil => intro s _ _; exact same_layout_refl s
  | cons op ops ih =>
    intro s h hr
    have hr0 := hr op (List.mem_cons_self _ _)
    exact same_layout_trans _ _ _
      (ih (mm_step s op) (mm_inv_step s op h hr0) (fun o ho => hr o (List.mem_cons_of_mem _ ho)))
      (same_layout_step s op h hr0)

/-- A successful allocation in range that changed region `id` placed its
run there, on a free window, and returned that window. -/
theorem alloc_placed_in (s : aipu_memory_manager) (buf_req : aipu_buf_request) (filp : Nat)
    (tid : Int) (id : aipu_mem_region_id) (hr : op_in_range (.alloc buf_req filp tid))
    (hok : (aipu_mm_alloc s buf_req filp tid).1 = 0)
    (hin : (aipu_mm_alloc s buf_req filp tid).2.2.reg id ≠ s.reg id) :
    ∃ i, 0 < page_run buf_req.bytes ∧
      fits (s.reg id) (page_run buf_req.bytes) buf_req.align_in_page i ∧
      (aipu_mm_alloc s buf_req filp tid).2.2.reg id =
        region_placed (s.reg id) i (page_run buf_req.bytes) filp tid ∧
      (aipu_mm_alloc s buf_req filp tid).2.1.desc.pa = (s.reg id).base_iova + i * PAGE_SIZE ∧
      (aipu_mm_alloc s buf_req filp tid).2.1.desc.bytes = page_run buf_req.bytes * PAGE_SIZE := by
  rcases alloc_cases s buf_req filp tid hr.1 hr.2 with ⟨h, _⟩ | ⟨id', i, _, _, hpr, hfit, h, hpa, hby⟩
  · exact absurd hok h
  · by_cases e : id = id'
    · subst e
      exact ⟨i, hpr, hfit, by rw [h, reg_set_reg], hpa, hby⟩
    · rw [h, reg_set_reg_ne _ _ _ _ e] at hin
      exact absurd rfl hin

/-- C1 as amended. Start from a freshly initialised manager and run any
calls whose inputs are in range (the byte length of every allocation rounds
up to fewer than `2 ^ 32` pages). If an allocation for `f1` succeeds in region `id`, and none of the
following calls releases that run (neither an `aipu_mm_free` by `f1` that
resolves to its head page nor an `aipu_mm_free_buffers` by `f1`), then a
later successful allocation in the same region returns a range of addresses
disjoint from the first. -/
theorem exclusive_ownership (mm0 : aipu_memory_manager) (hfresh : mm_fresh mm0)
    (ops1 ops2 : List mm_op) (req1 req2 : aipu_buf_request) (f1 f2 : Nat) (t1 t2 : Int)
    (id : aipu_mem_region_id)
    (hops1 : ∀ op, op ∈ ops1 → op_in_range op)
    (hops2 : ∀ op, op ∈ ops2 → op_in_range op)
    (hreq1 : op_in_range (.alloc req1 f1 t1)) (hreq2 : op_in_range (.alloc req2 f2 t2))
    (hok1 : (aipu_mm_alloc (mm_run mm0 ops1) req1 f1 t1).1 = 0)
    (hin1 : (aipu_mm_alloc (mm_run mm0 ops1) req1 f1 t1).2.2.reg id ≠ (mm_run mm0 ops1).reg id)
    (hkeep : ∀ op, op ∈ ops2 → ¬ releases mm0 id
      (page_index (mm0.reg id) (aipu_mm_alloc (mm_run mm0 ops1) req1 f1 t1).2.1.desc.pa) f1 op)
    (hok2 : (aipu_mm_alloc (mm_run (aipu_mm_alloc (mm_run mm0 ops1) req1 f1 t1).2.2 ops2)
      req2 f2 t2).1 = 0)
    (hin2 : (aipu_mm_alloc (mm_run (aipu_mm_alloc (mm_run mm0 ops1) req1 f1 t1).2.2 ops2)
        req2 f2 t2).2.2.reg id ≠
      (mm_run (aipu_mm_alloc (mm_run mm0 ops1) req1 f1 t1).2.2 ops2).reg id) :
    (aipu_mm_alloc (mm_run mm0 ops1) req1 f1 t1).2.1.desc.pa +
        (aipu_mm_alloc (mm_run mm0 ops1) req1 f1 t1).2.1.desc.bytes ≤
      (aipu_mm_alloc (mm_run (aipu_mm_alloc (mm_run mm0 ops1) req1 f1 t1).2.2 ops2)
        req2 f2 t2).2.1.desc.pa ∨
    (aipu_mm_alloc (mm_run (aipu_mm_alloc (mm_run mm0 ops1) req1 f1 t1).2.2 ops2)
        req2 f2 t2).2.1.desc.pa +
        (aipu_mm_alloc (mm_run (aipu_mm_alloc (mm_run mm0 ops1) req1 f1 t1).2.2 ops2)
          req2 f2 t2).2.1.desc.bytes ≤
      (aipu_mm_alloc (mm_run mm0 ops1) req1 f1 t1).2.1.desc.pa := by
  have hinv0 := mm_inv_fresh mm0 hfresh
  have hinv1 := mm_inv_run ops1 mm0 hinv0 hops1
  have hlay1 := same_layout_run ops1 mm0 hinv0 hops1
  generalize mm_run mm0 ops1 = s1 at *
  obtain ⟨i1, hn1, hfit1, hreg1, hpa1, hby1⟩ :=
    alloc_placed_in s1 req1 f1 t1 id hreq1 hok1 hin1
  have hinv1' : mm_inv (aipu_mm_alloc s1 req1 f1 t1).2.2 :=
    mm_inv_step s1 (.alloc req1 f1 t1) hinv1 hreq1
  have hlay1' : same_layout (aipu_mm_alloc s1 req1 f1 t1).2.2 mm0 :=
    same_layout_trans _ _ _ (same_layout_step s1 (.alloc req1 f1 t1) hinv1 hreq1) hlay1
  have hbase : (s1.reg id).base_iova = (mm0.reg id).base_iova := (hlay1 id).1
  have hidx : page_index (mm0.reg id) (aipu_mm_alloc s1 req1 f1 t1).2.1.desc.pa = i1 := by
    unfold page_index
    rw [hpa1, hbase]
    unfold PAGE_SIZE
    omega
  rw [hidx] at hkeep
  have hlen1 : i1 < (s1.reg id).pages.length := by
    have := hfit1.1
    have := (hinv1 id).1.2
    omega
  have hhead : (((aipu_mm_alloc s1 req1 f1 t1).2.2.reg id).page i1).filp = f1 ∧
      (((aipu_mm_alloc s1 req1 f1 t1).2.2.reg id).page i1).contiguous_alloc_len =
        page_run req1.bytes := by
    rw [hreg1, page_region_placed _ _ _ _ _ _ hlen1, if_pos rfl]
    exact ⟨rfl, rfl⟩
  obtain ⟨hinv2, hlay2, hhead2⟩ :=
    head_kept_run mm0 id i1 f1 (page_run req1.bytes) hn1 ops2
      (aipu_mm_alloc s1 req1 f1 t1).2.2 hinv1' hlay1' hhead hops2 hkeep
  generalize mm_run (aipu_mm_alloc s1 req1 f1 t1).2.2 ops2 = s2 at *
  obtain ⟨i2, hn2, hfit2, _, hpa2, hby2⟩ :=
    alloc_placed_in s2 req2 f2 t2 id hreq2 hok2 hin2
  have hbase2 : (s2.reg id).base_iova = (mm0.reg id).base_iova := (hlay2 id).1
  have hset := ((hinv2 id).2.2.1 i1 (by rw [hhead2.2]; exact hn1)).2
  rw [hhead2.2] at hset
  have hdis : i1 + page_run req1.bytes ≤ i2 ∨ i2 + page_run req2.bytes ≤ i1 := by
    by_contra hcon
    by_cases c : i1 ≤ i2
    · have h1 := hset i2 c (by omega)
      rw [hfit2.2.1 i2 (le_refl _) (by omega)] at h1
      exact absurd h1 (by simp)
    · have h1 := hset i1 (le_refl _) (by omega)
      rw [hfit2.2.1 i1 (by omega) (by omega)] at h1
      exact absurd h1 (by simp)
  rw [hpa1, hby1, hpa2, hby2, hbase, hbase2]
  unfold PAGE_SIZE
  rcases hdis with h | h
  · left; omega
  · right; omega

/-- C1, example of the amended statement: in a fresh 4-page region caller 7
is given pages `[0, 1]`; caller 9 then takes and frees page `[2]`; a later
request of caller 9 gets page `[2]` again, disjoint from caller 7's run. -/
theorem exclusive_ownership_witness :
    ((aipu_mm_alloc (mm_run (mm_of_dram dram4) []) (mk_req 8192 1) 7 100).2.1.desc.pa +
        (aipu_mm_alloc (mm_run (mm_of_dram dram4) []) (mk_req 8192 1) 7 100).2.1.desc.bytes ≤
      (aipu_mm_alloc (mm_run (aipu_mm_alloc (mm_run (mm_of_dram dram4) [])
          (mk_req 8192 1) 7 100).2.2
          [.alloc (mk_req 4096 1) 9 200, .free (desc_at 0x40002000) 9])
        (mk_req 4096 1) 9 200).2.1.desc.pa ∨
    (aipu_mm_alloc (mm_run (aipu_mm_alloc (mm_run (mm_of_dram dram4) [])
          (mk_req 8192 1) 7 100).2.2
          [.alloc (mk_req 4096 1) 9 200, .free (desc_at 0x40002000) 9])
        (mk_req 4096 1) 9 200).2.1.desc.pa +
        (aipu_mm_alloc (mm_run (aipu_mm_alloc (mm_run (mm_of_dram dram4) [])
            (mk_req 8192 1) 7 100).2.2
            [.alloc (mk_req 4096 1) 9 200, .free (desc_at 0x40002000) 9])
          (mk_req 4096 1) 9 200).2.1.desc.bytes ≤
      (aipu_mm_alloc (mm_run (mm_of_dram dram4) []) (mk_req 8192 1) 7 100).2.1.desc.pa) ∧
    (aipu_mm_alloc (mm_run (mm_of_dram dram4) []) (mk_req 8192 1) 7 100).2.1.desc =
      { pa := 0x40000000, dev_offset := 0x40000000, bytes := 8192 } ∧
    (aipu_mm_alloc (mm_run (aipu_mm_alloc (mm_run (mm_of_dram dram4) [])
          (mk_req 8192 1) 7 100).2.2
          [.alloc (mk_req 4096 1) 9 200, .free (desc_at 0x40002000) 9])
        (mk_req 4096 1) 9 200).2.1.desc =
      { pa := 0x40002000, dev_offset := 0x40002000, bytes := 4096 } :=
  ⟨exclusive_ownership (mm_of_dram dram4) (by decide) []
      [.alloc (mk_req 4096 1) 9 200, .free (desc_at 0x40002000) 9]
      (mk_req 8192 1) (mk_req 4096 1) 7 9 100 200 .AIPU_MEM_REGION_DRAM_ID
      (by decide) (by decide) (by decide) (by decide) (by decide) (by decide) (by decide)
      (by decide) (by decide),
   by decide, by decide⟩

/-- C1, counterexample to the claim as stated, in two traces.
(a) In a fresh 4-page region caller 7 is given page `[0]`, leaves through
`aipu_mm_free_buffers`, and caller 9 is then given page `[0]`: the two
returned ranges coincide although no `aipu_mm_free` was called.
(b) In a fresh 4-page region at page frame 1, caller 8 is given pages
`[1, 2]` (alignment 2); caller 7 issues a request of `2 ^ 64 - 1` bytes,
which succeeds with length 0 and overwrites the head entry of page 1; caller
7 leaves, which clears bit 1; caller 9 is then given page `[1]`, inside the
run that caller 8 still holds and that nothing released. -/
theorem exclusive_ownership_counterexample :
    (mm_fresh (mm_of_dram dram4) ∧
      aipu_mm_alloc (mm_of_dram dram4) (mk_req 4096 1) 7 100 =
        (0, { mk_req 4096 1 with
                desc := { pa := 0x40000000, dev_offset := 0x40000000, bytes := 4096 } },
          mm_run (mm_of_dram dram4) [.alloc (mk_req 4096 1) 7 100]) ∧
      (aipu_mm_alloc (mm_run (mm_of_dram dram4)
          [.alloc (mk_req 4096 1) 7 100, .free_buffers 7]) (mk_req 4096 1) 9 200).1 = 0 ∧
      (aipu_mm_alloc (mm_run (mm_of_dram dram4)
          [.alloc (mk_req 4096 1) 7 100, .free_buffers 7]) (mk_req 4096 1) 9 200).2.1.desc =
        { pa := 0x40000000, dev_offset := 0x40000000, bytes := 4096 }) ∧
    (mm_fresh (mm_of_dram dram4_odd) ∧
      (aipu_mm_alloc (mm_of_dram dram4_odd) (mk_req 8192 2) 8 100).1 = 0 ∧
      (aipu_mm_alloc (mm_of_dram dram4_odd) (mk_req 8192 2) 8 100).2.1.desc =
        { pa := 0x2000, dev_offset := 0x2000, bytes := 8192 } ∧
      (aipu_mm_alloc (mm_run (mm_of_dram dram4_odd) [.alloc (mk_req 8192 2) 8 100])
        (mk_req (2 ^ 64 - 1) 2) 7 100).1 = 0 ∧
      (aipu_mm_alloc (mm_run (mm_of_dram dram4_odd)
          [.alloc (mk_req 8192 2) 8 100, .alloc (mk_req (2 ^ 64 - 1) 2) 7 100,
           .free_buffers 7]) (mk_req 4096 2) 9 200).1 = 0 ∧
      (aipu_mm_alloc (mm_run (mm_of_dram dram4_odd)
          [.alloc (mk_req 8192 2) 8 100, .alloc (mk_req (2 ^ 64 - 1) 2) 7 100,
           .free_buffers 7]) (mk_req 4096 2) 9 200).2.1.desc =
        { pa := 0x2000, dev_offset := 0x2000, bytes := 4096 }) := by
  decide

/-! ### Round trip and bulk release at their failing inputs -/

/-- C11, failing input. On a fresh 4-page region the request of
`2 ^ 64 - 1` bytes succeeds and returns the base address with length 0;
`aipu_mm_free` on the returned descriptor by the same caller fails with
`-EINVAL`, and page 0 keeps the owner and thread id that the allocation
wrote, so the page array is not back to its state before the allocation. -/
theorem round_trip_fails_on_wrap :
    mm_fresh (mm_of_dram dram4) ∧
    (aipu_mm_alloc (mm_of_dram dram4) (mk_req (2 ^ 64 - 1) 1) 7 100).1 = 0 ∧
    (aipu_mm_alloc (mm_of_dram dram4) (mk_req (2 ^ 64 - 1) 1) 7 100).2.1.desc =
      { pa := 0x40000000, dev_offset := 0x40000000, bytes := 0 } ∧
    (aipu_mm_free (aipu_mm_alloc (mm_of_dram dram4) (mk_req (2 ^ 64 - 1) 1) 7 100).2.2
      (aipu_mm_alloc (mm_of_dram dram4) (mk_req (2 ^ 64 - 1) 1) 7 100).2.1.desc 7).1 =
      -EINVAL ∧
    (aipu_mm_free (aipu_mm_alloc (mm_of_dram dram4) (mk_req (2 ^ 64 - 1) 1) 7 100).2.2
      (aipu_mm_alloc (mm_of_dram dram4) (mk_req (2 ^ 64 - 1) 1) 7 100).2.1.desc
      7).2.reg_dram.page 0 =
      { tid := 100, filp := 7, map_num := 0, contiguous_alloc_len := 0 } ∧
    (mm_of_dram dram4).reg_dram.page 0 = zero_page := by
  decide

/-- C12, failing input. Caller 7 holds the run `[0, 1]` of a 4-page region.
After `aipu_mm_free_buffers` for caller 7 the head entry is zero but bit 1 of
the run is still set, and a request for the whole region (4 pages) fails with
`-ENOMEM` although no caller owns a page. -/
theorem bulk_free_leaves_tail_bits :
    ((mm_run (mm_of_dram dram4) [.alloc (mk_req 8192 1) 7 100]).reg_dram.page 0).filp = 7 ∧
    ((mm_run (mm_of_dram dram4)
      [.alloc (mk_req 8192 1) 7 100]).reg_dram.page 0).contiguous_alloc_len = 2 ∧
    (aipu_mm_free_buffers (mm_run (mm_of_dram dram4) [.alloc (mk_req 8192 1) 7 100])
      7).reg_dram.page 0 = zero_page ∧
    test_bit (aipu_mm_free_buffers (mm_run (mm_of_dram dram4) [.alloc (mk_req 8192 1) 7 100])
      7).reg_dram.bitmap 1 = true ∧
    (aipu_mm_alloc (aipu_mm_free_buffers (mm_run (mm_of_dram dram4)
      [.alloc (mk_req 8192 1) 7 100]) 7) (mk_req 16384 1) 9 200).1 = -ENOMEM := by
  decide

/-- C19, failing input. On a fresh 4-page region caller 7 issues the request
of `2 ^ 64 - 1` bytes and then maps the returned address. The export
succeeds and raises `map_num` of page 0 to 1, although that page heads no
run (`contiguous_alloc_len = 0`) and no bit of the region is set. -/
theorem export_without_run :
    mm_fresh (mm_of_dram dram4) ∧
    (aipu_mm_mmap_buf (mm_run (mm_of_dram dram4) [.alloc (mk_req (2 ^ 64 - 1) 1) 7 100])
      { vm_pgoff := 0x40000, vm_start := 0, vm_end := 4096 } 7 0).1 = 0 ∧
    ((mm_run (mm_of_dram dram4)
      [.alloc (mk_req (2 ^ 64 - 1) 1) 7 100]).reg_dram.page 0).contiguous_alloc_len = 0 ∧
    (mm_run (mm_of_dram dram4) [.alloc (mk_req (2 ^ 64 - 1) 1) 7 100]).reg_dram.bitmap =
      [false, false, false, false] ∧
    ((aipu_mm_mmap_buf (mm_run (mm_of_dram dram4) [.alloc (mk_req (2 ^ 64 - 1) 1) 7 100])
      { vm_pgoff := 0x40000, vm_start := 0, vm_end := 4096 } 7 0).2.reg_dram.page 0) =
      { tid := 100, filp := 7, map_num := 1, contiguous_alloc_len := 0 } := by
  decide

/-! ### SRAM gate -/

theorem per_fd_cnt_of_no_entry (filp : Nat) (l : List aipu_sram_disable_per_fd)
    (h : ¬ has_entry filp l) : per_fd_cnt filp l = 0 := by
  induction l with
  | nil => rfl
  | cons e es ih =>
    unfold per_fd_cnt
    have he : ¬ e.filp = filp := fun c => h ⟨e, List.mem_cons_self _ _, c⟩
    rw [if_neg he]
    exact ih (fun ⟨x, hx, hc⟩ => h ⟨x, List.mem_cons_of_mem _ hx, hc⟩)

/-- The list walk of disable finds an entry exactly when the list has one. -/
theorem list_inc_none_iff (filp : Nat) (l : List aipu_sram_disable_per_fd) :
    sram_disable_list_inc filp l = none ↔ ¬ has_entry filp l := by
  induction l with
  | nil =>
    constructor
    · intro _ ⟨e, he, _⟩
      cases he
    · intro _; rfl
  | cons e es ih =>
    unfold sram_disable_list_inc
    by_cases he : e.filp = filp
    · rw [if_pos he]
      constructor
      · intro h; cases h
      · intro h; exact absurd ⟨e, List.mem_cons_self _ _, he⟩ h
    · rw [if_neg he]
      constructor
      · intro h ⟨x, hx, hc⟩
        have hn : sram_disable_list_inc filp es = none := by
          cases hs : sram_disable_list_inc filp es with
          | none => rfl
          | some v => rw [hs] at h; cases h
        rcases List.mem_cons.mp hx with rfl | hx'
        · exact he hc
        · exact (ih.mp hn) ⟨x, hx', hc⟩
      · intro h
        have hn := ih.mpr (fun ⟨x, hx, hc⟩ => h ⟨x, List.mem_cons_of_mem _ hx, hc⟩)
        rw [hn]
        rfl

/-- Counts after the list walk of disable found the caller's entry: the
caller's count is one higher, every other caller's count is as before. -/
theorem list_inc_some_cnt (filp : Nat) :
    ∀ (l l1 : List aipu_sram_disable_per_fd), sram_disable_list_inc filp l = some l1 →
      per_fd_cnt filp l1 = per_fd_cnt filp l + 1 ∧
      ∀ g, g ≠ filp → per_fd_cnt g l1 = per_fd_cnt g l := by
  intro l
  induction l with
  | nil => intro l1 h; cases h
  | cons e es ih =>
    intro l1 h
    unfold sram_disable_list_inc at h
    by_cases he : e.filp = filp
    · rw [if_pos he] at h
      cases h
      refine ⟨?_, fun g hg => ?_⟩
      · simp [per_fd_cnt, he]
      · have : ¬ e.filp = g := fun c => hg (c.symm.trans he)
        simp [per_fd_cnt, this]
    · rw [if_neg he] at h
      cases hs : sram_disable_list_inc filp es with
      | none => rw [hs] at h; cases h
      | some v =>
        rw [hs] at h
        cases h
        obtain ⟨h1, h2⟩ := ih v hs
        refine ⟨?_, fun g hg => ?_⟩
        · simp [per_fd_cnt, he, h1]
        · by_cases c : e.filp = g
          · simp [per_fd_cnt, c]
          · simp [per_fd_cnt, c, h2 g hg]

/-- Counts after the list walk of enable: the caller's count goes down by one
when it is non-zero, every other caller's count is as before. -/
theorem list_dec_cnt (filp : Nat) (l : List aipu_sram_disable_per_fd) :
    per_fd_cnt filp (sram_disable_list_dec filp l) =
        (if per_fd_cnt filp l ≠ 0 then per_fd_cnt filp l - 1 else per_fd_cnt filp l) ∧
      ∀ g, g ≠ filp → per_fd_cnt g (sram_disable_list_dec filp l) = per_fd_cnt g l := by
  induction l with
  | nil => exact ⟨by simp [sram_disable_list_dec, per_fd_cnt], fun g _ => rfl⟩
  | cons e es ih =>
    unfold sram_disable_list_dec
    by_cases he : e.filp = filp
    · rw [if_pos he]
      refine ⟨?_, fun g hg => ?_⟩
      · by_cases hc : e.cnt ≠ 0
        · rw [if_pos hc]
          simp [per_fd_cnt, he, hc]
        · rw [if_neg hc]
          simp [per_fd_cnt, he, hc]
      · have hne : ¬ e.filp = g := fun c => hg (c.symm.trans he)
        by_cases hc : e.cnt ≠ 0
        · rw [if_pos hc]
          simp [per_fd_cnt, hne]
        · rw [if_neg hc]
    · rw [if_neg he]
      obtain ⟨h1, h2⟩ := ih
      refine ⟨?_, fun g hg => ?_⟩
      · simp only [per_fd_cnt, he, if_false]
        exact h1
      · by_cases c : e.filp = g
        · simp [per_fd_cnt, c]
        · simp only [per_fd_cnt, c, if_false]
          exact h2 g hg

/-- `bitmap_empty` fails exactly when some bit below `nbits` is set. -/
theorem bitmap_empty_false_iff (map : List Bool) (nbits : Nat) :
    bitmap_empty map nbits = false ↔ ∃ j, j < nbits ∧ test_bit map j = true := by
  constructor
  · intro h
    by_contra hc
    have hall : ∀ j, j < nbits → test_bit map j = false := by
      intro j hj
      cases hb : test_bit map j
      · rfl
      · exact absurd ⟨j, hj, hb⟩ hc
    rw [(bitmap_empty_iff map nbits).mpr hall] at h
    cases h
  · rintro ⟨j, hj, hb⟩
    cases he : bitmap_empty map nbits
    · rfl
    · rw [(bitmap_empty_iff map nbits).mp he j hj] at hb
      cases hb

/-- C15 as amended. `aipu_mm_disable_sram_allocation` returns `-EPERM` when
SRAM is absent; with SRAM present it returns `-EPERM` exactly when the SRAM
bitmap has a set bit; every failing call changes nothing. With SRAM present
and its bitmap clear, the call fails with `-ENOMEM` when the caller has no
list entry and the entry cannot be allocated, and otherwise succeeds: the
global counter and the caller's own count go up by exactly one (a first
disable puts the entry `{cnt := 1}` at the head of the list), the counts of
all other callers and both regions are unchanged. -/
theorem disable_outcome (mm : aipu_memory_manager) (filp : Nat) (kzalloc_ok : Bool) :
    (mm.reg_sram.bytes = 0 →
      aipu_mm_disable_sram_allocation mm filp kzalloc_ok = (-EPERM, mm)) ∧
    (mm.reg_sram.bytes ≠ 0 →
      ((aipu_mm_disable_sram_allocation mm filp kzalloc_ok).1 = -EPERM ↔
        ∃ j, j < mm.reg_sram.count ∧ test_bit mm.reg_sram.bitmap j = true)) ∧
    ((aipu_mm_disable_sram_allocation mm filp kzalloc_ok).1 ≠ 0 →
      (aipu_mm_disable_sram_allocation mm filp kzalloc_ok).2 = mm) ∧
    (mm.reg_sram.bytes ≠ 0 →
      (∀ j, j < mm.reg_sram.count → test_bit mm.reg_sram.bitmap j = false) →
      ¬ has_entry filp mm.sram_disable_head → kzalloc_ok = false →
      aipu_mm_disable_sram_allocation mm filp kzalloc_ok = (-ENOMEM, mm)) ∧
    (mm.reg_sram.bytes ≠ 0 →
      (∀ j, j < mm.reg_sram.count → test_bit mm.reg_sram.bitmap j = false) →
      (has_entry filp mm.sram_disable_head ∨ kzalloc_ok = true) →
      (aipu_mm_disable_sram_allocation mm filp kzalloc_ok).1 = 0 ∧
      (aipu_mm_disable_sram_allocation mm filp kzalloc_ok).2.sram_disable =
        mm.sram_disable + 1 ∧
      per_fd_cnt filp (aipu_mm_disable_sram_allocation mm filp kzalloc_ok).2.sram_disable_head =
        per_fd_cnt filp mm.sram_disable_head + 1 ∧
      (∀ g, g ≠ filp →
        per_fd_cnt g (aipu_mm_disable_sram_allocation mm filp kzalloc_ok).2.sram_disable_head =
          per_fd_cnt g mm.sram_disable_head) ∧
      (¬ has_entry filp mm.sram_disable_head →
        (aipu_mm_disable_sram_allocation mm filp kzalloc_ok).2.sram_disable_head =
          { cnt := 1, filp := filp } :: mm.sram_disable_head) ∧
      (aipu_mm_disable_sram_allocation mm filp kzalloc_ok).2.reg_dram = mm.reg_dram ∧
      (aipu_mm_disable_sram_allocation mm filp kzalloc_ok).2.reg_sram = mm.reg_sram) := by
  have hne3 : (-ENOMEM : Int) ≠ -EPERM := by decide
  have hne4 : (0 : Int) ≠ -EPERM := by decide
  by_cases hb : mm.reg_sram.bytes = 0
  · have hres : aipu_mm_disable_sram_allocation mm filp kzalloc_ok = (-EPERM, mm) := by
      unfold aipu_mm_disable_sram_allocation
      rw [if_pos hb]
    rw [hres]
    exact ⟨fun _ => rfl, fun h => absurd hb h, fun _ => rfl, fun h => absurd hb h,
      fun h => absurd hb h⟩
  by_cases he : bitmap_empty mm.reg_sram.bitmap mm.reg_sram.count = false
  · have hex := (bitmap_empty_false_iff _ _).mp he
    have hres : aipu_mm_disable_sram_allocation mm filp kzalloc_ok = (-EPERM, mm) := by
      unfold aipu_mm_disable_sram_allocation
      rw [if_neg hb, if_pos he]
    rw [hres]
    refine ⟨fun h => absurd h hb, fun _ => ⟨fun _ => hex, fun _ => rfl⟩, fun _ => rfl, ?_, ?_⟩
    · intro _ hall
      obtain ⟨j, hj, hs⟩ := hex
      rw [hall j hj] at hs
      cases hs
    · intro _ hall
      obtain ⟨j, hj, hs⟩ := hex
      rw [hall j hj] at hs
      cases hs
  have hnex : ¬ ∃ j, j < mm.reg_sram.count ∧ test_bit mm.reg_sram.bitmap j = true :=
    fun h => he ((bitmap_empty_false_iff _ _).mpr h)
  cases hl : sram_disable_list_inc filp mm.sram_disable_head with
  | some l =>
    have hhas : has_entry filp mm.sram_disable_head := by
      by_contra hc
      rw [(list_inc_none_iff _ _).mpr hc] at hl
      cases hl
    obtain ⟨c1, c2⟩ := list_inc_some_cnt filp _ l hl
    have hres : aipu_mm_disable_sram_allocation mm filp kzalloc_ok =
        (0, { mm with sram_disable_head := l, sram_disable := mm.sram_disable + 1 }) := by
      unfold aipu_mm_disable_sram_allocation
      rw [if_neg hb, if_neg he, hl]
    rw [hres]
    refine ⟨fun h => absurd h hb, fun _ => ⟨fun h => absurd h hne4, fun h => absurd h hnex⟩,
      fun h => absurd rfl h, fun _ _ hno => absurd hhas hno, ?_⟩
    intro _ _ _
    exact ⟨rfl, rfl, c1, c2, fun hno => absurd hhas hno, rfl, rfl⟩
  | none =>
    have hno := (list_inc_none_iff _ _).mp hl
    cases kzalloc_ok with
    | false =>
      have hres : aipu_mm_disable_sram_allocation mm filp false = (-ENOMEM, mm) := by
        unfold aipu_mm_disable_sram_allocation
        rw [if_neg hb, if_neg he, hl]
        rfl
      rw [hres]
      refine ⟨fun h => absurd h hb, fun _ => ⟨fun h => absurd h hne3, fun h => absurd h hnex⟩,
        fun _ => rfl, fun _ _ _ _ => rfl, ?_⟩
      intro _ _ h
      rcases h with h | h
      · exact absurd h hno
      · cases h
    | true =>
      have hres : aipu_mm_disable_sram_allocation mm filp true =
          (0, { mm with
                  sram_disable_head := { cnt := 1, filp := filp } :: mm.sram_disable_head
                  sram_disable := mm.sram_disable + 1 }) := by
        unfold aipu_mm_disable_sram_allocation
        rw [if_neg hb, if_neg he, hl]
        rfl
      rw [hres]
      refine ⟨fun h => absurd h hb, fun _ => ⟨fun h => absurd h hne4, fun h => absurd h hnex⟩,
        fun h => absurd rfl h, fun _ _ _ h => Bool.noConfusion h, ?_⟩
      intro _ _ _
      refine ⟨rfl, rfl, ?_, fun g hg => ?_, fun _ => rfl, rfl, rfl⟩
      · show per_fd_cnt filp ({ cnt := 1, filp := filp } :: mm.sram_disable_head) = _
        simp [per_fd_cnt, per_fd_cnt_of_no_entry filp _ hno]
      · show per_fd_cnt g ({ cnt := 1, filp := filp } :: mm.sram_disable_head) = _
        have : ¬ filp = g := fun c => hg c.symm
        simp [per_fd_cnt, this]

/-- C15, scenario B of the specification: with one SRAM page allocated,
disable by caller 7 returns `-EPERM` and changes nothing; after the page has
been freed, disable succeeds, the global counter is 1 and caller 7 has the
count 1. -/
theorem disable_outcome_witness :
    ((aipu_mm_disable_sram_allocation
        (mm_run mm_scenario_b [.alloc (mk_req 4096 1) 7 100]) 7 true).1 = -EPERM ↔
      ∃ j, j < (mm_run mm_scenario_b [.alloc (mk_req 4096 1) 7 100]).reg_sram.count ∧
        test_bit (mm_run mm_scenario_b [.alloc (mk_req 4096 1) 7 100]).reg_sram.bitmap j =
          true) ∧
    aipu_mm_disable_sram_allocation
        (mm_run mm_scenario_b [.alloc (mk_req 4096 1) 7 100]) 7 true =
      (-EPERM, mm_run mm_scenario_b [.alloc (mk_req 4096 1) 7 100]) ∧
    (aipu_mm_disable_sram_allocation
        (mm_run mm_scenario_b [.alloc (mk_req 4096 1) 7 100, .free (desc_at 0x100000) 7])
        7 true).1 = 0 ∧
    (aipu_mm_disable_sram_allocation
        (mm_run mm_scenario_b [.alloc (mk_req 4096 1) 7 100, .free (desc_at 0x100000) 7])
        7 true).2.sram_disable = 1 ∧
    (aipu_mm_disable_sram_allocation
        (mm_run mm_scenario_b [.alloc (mk_req 4096 1) 7 100, .free (desc_at 0x100000) 7])
        7 true).2.sram_disable_head = [{ cnt := 1, filp := 7 }] :=
  ⟨(disable_outcome (mm_run mm_scenario_b [.alloc (mk_req 4096 1) 7 100]) 7 true).2.1
      (by decide),
   by decide,
   ((disable_outcome
      (mm_run mm_scenario_b [.alloc (mk_req 4096 1) 7 100, .free (desc_at 0x100000) 7])
      7 true).2.2.2.2 (by decide) (by decide) (Or.inr rfl)).1,
   by decide, by decide⟩

/-- C15, counterexample to the claim as stated: SRAM is present, its bitmap
is clear, caller 7 has no list entry and the entry cannot be allocated. The
call does not succeed: it returns `-ENOMEM` and changes nothing. -/
theorem disable_fails_without_memory :
    mm_scenario_b.reg_sram.bytes ≠ 0 ∧
    (∀ j, j < mm_scenario_b.reg_sram.count → test_bit mm_scenario_b.reg_sram.bitmap j = false) ∧
    aipu_mm_disable_sram_allocation mm_scenario_b 7 false = (-ENOMEM, mm_scenario_b) := by
  decide

/-- C17. Enable is permissive across callers: with SRAM present and the
global disable counter above zero, `aipu_mm_enable_sram_allocation` by any
caller, with or without a list entry, succeeds and lowers the global counter
by one. The caller's own count goes down by one exactly when it is non-zero
(for a non-negative count: exactly when it is positive); no other caller's
count and neither region changes. -/
theorem enable_permissive (mm : aipu_memory_manager) (filp : Nat)
    (hs : mm.reg_sram.bytes ≠ 0) (hn : 0 < mm.sram_disable) :
    (aipu_mm_enable_sram_allocation mm filp).1 = 0 ∧
    (aipu_mm_enable_sram_allocation mm filp).2.sram_disable = mm.sram_disable - 1 ∧
    per_fd_cnt filp (aipu_mm_enable_sram_allocation mm filp).2.sram_disable_head =
      (if per_fd_cnt filp mm.sram_disable_head ≠ 0 then per_fd_cnt filp mm.sram_disable_head - 1
       else per_fd_cnt filp mm.sram_disable_head) ∧
    (0 ≤ per_fd_cnt filp mm.sram_disable_head →
      (per_fd_cnt filp (aipu_mm_enable_sram_allocation mm filp).2.sram_disable_head =
          per_fd_cnt filp mm.sram_disable_head - 1 ↔
        0 < per_fd_cnt filp mm.sram_disable_head)) ∧
    (∀ g, g ≠ filp →
      per_fd_cnt g (aipu_mm_enable_sram_allocation mm filp).2.sram_disable_head =
        per_fd_cnt g mm.sram_disable_head) ∧
    (aipu_mm_enable_sram_allocation mm filp).2.reg_dram = mm.reg_dram ∧
    (aipu_mm_enable_sram_allocation mm filp).2.reg_sram = mm.reg_sram := by
  have hn0 : ¬ mm.sram_disable = 0 := by omega
  obtain ⟨c1, c2⟩ := list_dec_cnt filp mm.sram_disable_head
  unfold aipu_mm_enable_sram_allocation
  rw [if_neg hs, if_neg hn0]
  refine ⟨rfl, rfl, c1, fun hpos => ?_, c2, rfl, rfl⟩
  show per_fd_cnt filp (sram_disable_list_dec filp mm.sram_disable_head) = _ ↔ _
  rw [c1]
  by_cases hz : per_fd_cnt filp mm.sram_disable_head ≠ 0
  · rw [if_pos hz]
    constructor
    · intro _; omega
    · intro _; rfl
  · rw [if_neg hz]
    constructor
    · intro h; omega
    · intro h; omega

/-- C17, the closing sentence of the claim: after a single disable by caller
7, an enable by caller 9 (who never disabled) succeeds, the global counter
is back to 0, caller 7's own count is still 1, and a request of the eligible
class is placed in SRAM again. -/
theorem enable_permissive_witness :
    ((aipu_mm_enable_sram_allocation (mm_run mm_scenario_b [.disable_sram 7 true]) 9).1 = 0 ∧
      (aipu_mm_enable_sram_allocation (mm_run mm_scenario_b [.disable_sram 7 true])
        9).2.sram_disable =
        (mm_run mm_scenario_b [.disable_sram 7 true]).sram_disable - 1) ∧
    (mm_run mm_scenario_b [.disable_sram 7 true]).sram_disable = 1 ∧
    (aipu_mm_enable_sram_allocation (mm_run mm_scenario_b [.disable_sram 7 true])
      9).2.sram_disable = 0 ∧
    per_fd_cnt 7 (aipu_mm_enable_sram_allocation (mm_run mm_scenario_b [.disable_sram 7 true])
      9).2.sram_disable_head = 1 ∧
    (aipu_mm_alloc (mm_run mm_scenario_b [.disable_sram 7 true, .enable_sram 9])
      (mk_req 4096 1) 9 200).2.1.desc.pa = 0x100000 :=
  ⟨⟨(enable_permissive (mm_run mm_scenario_b [.disable_sram 7 true]) 9
        (by decide) (by decide)).1,
    (enable_permissive (mm_run mm_scenario_b [.disable_sram 7 true]) 9
        (by decide) (by decide)).2.1⟩,
   by decide, by decide, by decide, by decide⟩

/-- C18 as amended. `aipu_mm_enable_sram_allocation` returns an error exactly
when SRAM is absent or the global disable counter is 0; the error is `-EPERM`
and the manager is unchanged, so a counter at 0 stays 0. -/
theorem enable_outcome (mm : aipu_memory_manager) (filp : Nat) :
    ((aipu_mm_enable_sram_allocation mm filp).1 ≠ 0 ↔
      mm.reg_sram.bytes = 0 ∨ mm.sram_disable = 0) ∧
    (aipu_mm_enable_sram_allocation mm filp = (-EPERM, mm) ∨
      (aipu_mm_enable_sram_allocation mm filp).1 = 0) := by
  have hne : (-EPERM : Int) ≠ 0 := by decide
  unfold aipu_mm_enable_sram_allocation
  by_cases hs : mm.reg_sram.bytes = 0
  · rw [if_pos hs]
    exact ⟨⟨fun _ => Or.inl hs, fun _ => hne⟩, Or.inl rfl⟩
  · rw [if_neg hs]
    by_cases hn : mm.sram_disable = 0
    · rw [if_pos hn]
      exact ⟨⟨fun _ => Or.inr hn, fun _ => hne⟩, Or.inl rfl⟩
    · rw [if_neg hn]
      refine ⟨⟨fun h => absurd rfl h, fun h => ?_⟩, Or.inr rfl⟩
      rcases h with h | h
      · exact absurd h hs
      · exact absurd h hn

/-- C18, example of the amended statement on the manager of scenario B, where
SRAM is present and the counter is 0. -/
theorem enable_outcome_witness :
    ((aipu_mm_enable_sram_allocation mm_scenario_b 7).1 ≠ 0 ↔
      mm_scenario_b.reg_sram.bytes = 0 ∨ mm_scenario_b.sram_disable = 0) ∧
    (aipu_mm_enable_sram_allocation (mm_run mm_scenario_b [.disable_sram 7 true]) 7).1 = 0 :=
  ⟨(enable_outcome mm_scenario_b 7).1, by decide⟩

/-- C18, counterexample to the claim as stated: SRAM is present and the
global disable counter is 0, yet `aipu_mm_enable_sram_allocation` returns the
error `-EPERM`. -/
theorem enable_fails_when_open :
    mm_scenario_b.reg_sram.bytes ≠ 0 ∧ mm_scenario_b.sram_disable = 0 ∧
    aipu_mm_enable_sram_allocation mm_scenario_b 7 = (-EPERM, mm_scenario_b) := by
  decide

/-! ### Region selection and alignment -/

/-- A successful placement, whatever the request, returns the address of a
page of the region. -/
theorem alloc_in_region_ok_index (buf_req : aipu_buf_request) (reg : aipu_mem_region)
    (filp : Nat) (tid : Int)
    (hok : (aipu_mm_alloc_in_region_no_lock buf_req reg filp tid).1 = 0) :
    ∃ i, i < reg.count ∧
      (aipu_mm_alloc_in_region_no_lock buf_req reg filp tid).2.1.desc.pa =
        reg.base_iova + i * PAGE_SIZE := by
  have e : (2 : Nat) ^ PAGE_SHIFT = PAGE_SIZE := by norm_num [PAGE_SHIFT, PAGE_SIZE]
  unfold aipu_mm_alloc_in_region_no_lock at hok ⊢
  by_cases hf : filp = 0
  · rw [if_pos hf] at hok
    simp [EINVAL] at hok
  · rw [if_neg hf] at hok ⊢
    dsimp only at hok ⊢
    split
    · rename_i hge
      rw [if_pos hge] at hok
      simp [ENOMEM] at hok
    · rename_i hlt
      refine ⟨_, Nat.lt_of_not_le hlt, ?_⟩
      simp only [Nat.shiftLeft_eq, e]

/-- An index below the page count of a region whose page count is
`bytes >> PAGE_SHIFT` names an address inside the region. -/
theorem in_region_of_index (reg : aipu_mem_region) (i : Nat)
    (hcount : reg.count = reg.bytes >>> PAGE_SHIFT) (hi : i < reg.count) :
    in_region reg (reg.base_iova + i * PAGE_SIZE) := by
  have hc : reg.count = reg.bytes / 4096 := by
    rw [hcount]
    simp [Nat.shiftRight_eq_div_pow, PAGE_SHIFT]
  have := Nat.div_mul_le_self reg.bytes 4096
  unfold in_region PAGE_SIZE
  constructor
  · omega
  · have h2 : (i + 1) * 4096 ≤ reg.bytes / 4096 * 4096 := Nat.mul_le_mul_right _ (by omega)
    omega

/-- The two outcomes of a placement for a valid request, with what each says
about the region: `-ENOMEM` and no fitting run, or a run placed on a fitting
window. -/
theorem alloc_in_region_full (buf_req : aipu_buf_request) (reg : aipu_mem_region)
    (filp : Nat) (tid : Int) (hfilp : filp ≠ 0)
    (hbytes : 0 < buf_req.bytes) (hwrap : run_fits buf_req.bytes)
    (hpow : ∃ k, buf_req.align_in_page = 2 ^ k) (h32 : buf_req.align_in_page < 2 ^ 32) :
    (aipu_mm_alloc_in_region_no_lock buf_req reg filp tid = (-ENOMEM, buf_req, reg) ∧
      ∀ i, ¬ fits reg (page_run buf_req.bytes) buf_req.align_in_page i) ∨
    ∃ i, fits reg (page_run buf_req.bytes) buf_req.align_in_page i ∧
      aipu_mm_alloc_in_region_no_lock buf_req reg filp tid =
        (0,
         { buf_req with desc :=
            { pa := reg.base_iova + i * PAGE_SIZE, dev_offset := reg.base_iova + i * PAGE_SIZE,
              bytes := page_run buf_req.bytes * PAGE_SIZE } },
         region_placed reg i (page_run buf_req.bytes) filp tid) := by
  rcases alloc_in_region_cases buf_req reg filp tid hfilp hbytes hwrap hpow h32 with
    h | ⟨i, hfit, h⟩
  · rcases alloc_in_region_status buf_req reg filp tid hfilp hbytes hwrap hpow h32 with
      ⟨_, s2⟩ | ⟨s1, _⟩
    · exact Or.inl ⟨h, s2⟩
    · rw [h] at s1
      simp [ENOMEM] at s1
  · exact Or.inr ⟨i, hfit, h⟩

/-- `aipu_mm_alloc` when the SRAM branch is not taken: the DRAM placement
alone decides. -/
theorem alloc_dram_only (mm : aipu_memory_manager) (buf_req : aipu_buf_request)
    (filp : Nat) (tid : Int) (hfilp : filp ≠ 0)
    (hv : ¬ (buf_req.bytes = 0 ∨ is_power_of_2 buf_req.align_in_page = false))
    (he : ¬ sram_eligible mm buf_req) :
    aipu_mm_alloc mm buf_req filp tid =
      ((aipu_mm_alloc_in_region_no_lock buf_req mm.reg_dram filp tid).1,
       (aipu_mm_alloc_in_region_no_lock buf_req mm.reg_dram filp tid).2.1,
       { mm with reg_dram := (aipu_mm_alloc_in_region_no_lock buf_req mm.reg_dram filp tid).2.2 }) := by
  have he' : ¬ (AIPU_CONFIG_ENABLE_SRAM = 1 ∧ mm.reg_sram.bytes ≠ 0 ∧ mm.sram_disable = 0 ∧
      mm.sram_dft_dtype = buf_req.data_type) := fun h => he h.2
  unfold aipu_mm_alloc
  rw [if_neg hfilp, if_neg hv, if_neg he']

/-- C16. The gate blocks SRAM placement: when the global disable counter is
above zero, every successful `aipu_mm_alloc`, whatever the request, returns
an address inside the DRAM region (whose page count is
`bytes >> PAGE_SHIFT`) and leaves the SRAM region, bitmap and page array,
unchanged. -/
theorem gate_blocks_sram (mm : aipu_memory_manager) (buf_req : aipu_buf_request)
    (filp : Nat) (tid : Int) (hgate : 0 < mm.sram_disable)
    (hcount : mm.reg_dram.count = mm.reg_dram.bytes >>> PAGE_SHIFT)
    (hok : (aipu_mm_alloc mm buf_req filp tid).1 = 0) :
    in_region mm.reg_dram (aipu_mm_alloc mm buf_req filp tid).2.1.desc.pa ∧
    (aipu_mm_alloc mm buf_req filp tid).2.2.reg_sram = mm.reg_sram := by
  have hne : (-EINVAL : Int) ≠ 0 := by decide
  have hfilp : filp ≠ 0 := by
    intro h
    unfold aipu_mm_alloc at hok
    rw [if_pos h] at hok
    exact hne hok
  have hv : ¬ (buf_req.bytes = 0 ∨ is_power_of_2 buf_req.align_in_page = false) := by
    intro h
    unfold aipu_mm_alloc at hok
    rw [if_neg hfilp, if_pos h] at hok
    exact hne hok
  have he : ¬ sram_eligible mm buf_req := by
    intro h
    have := h.2.1
    omega
  rw [alloc_dram_only mm buf_req filp tid hfilp hv he] at hok ⊢
  obtain ⟨i, hi, hpa⟩ := alloc_in_region_ok_index buf_req mm.reg_dram filp tid hok
  refine ⟨?_, rfl⟩
  show in_region mm.reg_dram (aipu_mm_alloc_in_region_no_lock buf_req mm.reg_dram filp tid).2.1.desc.pa
  rw [hpa]
  exact in_region_of_index mm.reg_dram i hcount hi

/-- C16, scenario B of the specification: after a disable by caller 7 the
counter is 1, SRAM is entirely free, and a request of the eligible class is
placed at the base of DRAM; SRAM is untouched. -/
theorem gate_blocks_sram_witness :
    (in_region (mm_run mm_scenario_b [.disable_sram 7 true]).reg_dram
        (aipu_mm_alloc (mm_run mm_scenario_b [.disable_sram 7 true])
          (mk_req 4096 1) 7 100).2.1.desc.pa ∧
      (aipu_mm_alloc (mm_run mm_scenario_b [.disable_sram 7 true])
          (mk_req 4096 1) 7 100).2.2.reg_sram =
        (mm_run mm_scenario_b [.disable_sram 7 true]).reg_sram) ∧
    (mm_run mm_scenario_b [.disable_sram 7 true]).sram_disable = 1 ∧
    (mm_run mm_scenario_b [.disable_sram 7 true]).reg_sram.bitmap = [false, false] ∧
    (aipu_mm_alloc (mm_run mm_scenario_b [.disable_sram 7 true])
      (mk_req 4096 1) 7 100).2.1.desc.pa = 0x40000000 :=
  ⟨gate_blocks_sram (mm_run mm_scenario_b [.disable_sram 7 true]) (mk_req 4096 1) 7 100
      (by decide) (by decide) (by decide),
   by decide, by decide, by decide⟩

/-- `aipu_mm_alloc` when SRAM is eligible and has a fitting run: the run is
placed in SRAM and DRAM is not touched. -/
theorem alloc_sram_first (mm : aipu_memory_manager) (buf_req : aipu_buf_request)
    (filp : Nat) (tid : Int) (hfilp : filp ≠ 0)
    (hbytes : 0 < buf_req.bytes) (hwrap : run_fits buf_req.bytes)
    (hpow : ∃ k, buf_req.align_in_page = 2 ^ k) (h32 : buf_req.align_in_page < 2 ^ 32)
    (he : sram_eligible mm buf_req)
    (hfit : ∃ i, fits mm.reg_sram (page_run buf_req.bytes) buf_req.align_in_page i) :
    ∃ i, fits mm.reg_sram (page_run buf_req.bytes) buf_req.align_in_page i ∧
      aipu_mm_alloc mm buf_req filp tid =
        (0,
         { buf_req with desc :=
            { pa := mm.reg_sram.base_iova + i * PAGE_SIZE,
              dev_offset := mm.reg_sram.base_iova + i * PAGE_SIZE,
              bytes := page_run buf_req.bytes * PAGE_SIZE } },
         { mm with reg_sram := region_placed mm.reg_sram i (page_run buf_req.bytes) filp tid }) := by
  have hv : ¬ (buf_req.bytes = 0 ∨ is_power_of_2 buf_req.align_in_page = false) := by
    rw [(is_power_of_2_iff _).mpr hpow]
    simp
    omega
  have he' : AIPU_CONFIG_ENABLE_SRAM = 1 ∧ mm.reg_sram.bytes ≠ 0 ∧ mm.sram_disable = 0 ∧
      mm.sram_dft_dtype = buf_req.data_type := ⟨rfl, he⟩
  rcases alloc_in_region_full buf_req mm.reg_sram filp tid hfilp hbytes hwrap hpow h32 with
    ⟨_, hno⟩ | ⟨i, hi, hs⟩
  · obtain ⟨i, hi⟩ := hfit
    exact absurd hi (hno i)
  · refine ⟨i, hi, ?_⟩
    unfold aipu_mm_alloc
    rw [if_neg hfilp, if_neg hv, if_pos he']
    simp only [hs, or_true, if_true]

/-- `aipu_mm_alloc` when SRAM is eligible but has no fitting run: the failed
SRAM attempt leaves no trace and the DRAM placement alone decides. -/
theorem alloc_sram_fallback (mm : aipu_memory_manager) (buf_req : aipu_buf_request)
    (filp : Nat) (tid : Int) (hfilp : filp ≠ 0)
    (hbytes : 0 < buf_req.bytes) (hwrap : run_fits buf_req.bytes)
    (hpow : ∃ k, buf_req.align_in_page = 2 ^ k) (h32 : buf_req.align_in_page < 2 ^ 32)
    (he : sram_eligible mm buf_req)
    (hno : ∀ i, ¬ fits mm.reg_sram (page_run buf_req.bytes) buf_req.align_in_page i) :
    aipu_mm_alloc mm buf_req filp tid =
      ((aipu_mm_alloc_in_region_no_lock buf_req mm.reg_dram filp tid).1,
       (aipu_mm_alloc_in_region_no_lock buf_req mm.reg_dram filp tid).2.1,
       { mm with reg_dram := (aipu_mm_alloc_in_region_no_lock buf_req mm.reg_dram filp tid).2.2 }) := by
  have hv : ¬ (buf_req.bytes = 0 ∨ is_power_of_2 buf_req.align_in_page = false) := by
    rw [(is_power_of_2_iff _).mpr hpow]
    simp
    omega
  have he' : AIPU_CONFIG_ENABLE_SRAM = 1 ∧ mm.reg_sram.bytes ≠ 0 ∧ mm.sram_disable = 0 ∧
      mm.sram_dft_dtype = buf_req.data_type := ⟨rfl, he⟩
  have hne : (-ENOMEM : Int) ≠ 0 := by decide
  have hfb : ¬ (AIPU_CONFIG_ENABLE_FALL_BACK_TO_DDR = 0) := by decide
  rcases alloc_in_region_full buf_req mm.reg_sram filp tid hfilp hbytes hwrap hpow h32 with
    ⟨hs, _⟩ | ⟨i, hi, _⟩
  · unfold aipu_mm_alloc
    rw [if_neg hfilp, if_neg hv, if_pos he']
    simp only [hs, hne, hfb, and_false, or_false, if_false]
  · exact absurd hi (hno i)

/-- Region selection below `2 ^ 32` pages, for a request of non-zero byte
length that rounds up to fewer than `2 ^ 32` pages and of power-of-two
alignment, by a caller with a file pointer. If SRAM is eligible (present, gate open, data type matching) and has
a fitting aligned free run, `aipu_mm_alloc` succeeds, the returned address
lies in the SRAM range (page count `bytes >> PAGE_SHIFT`) and DRAM is
unchanged. If SRAM is not eligible, or is eligible without a fitting run, the
result is exactly that of the DRAM placement alone and SRAM is unchanged. -/
theorem region_selection (mm : aipu_memory_manager) (buf_req : aipu_buf_request)
    (filp : Nat) (tid : Int) (hfilp : filp ≠ 0)
    (hbytes : 0 < buf_req.bytes) (hwrap : run_fits buf_req.bytes)
    (hpow : ∃ k, buf_req.align_in_page = 2 ^ k) (h32 : buf_req.align_in_page < 2 ^ 32) :
    (sram_eligible mm buf_req →
      (∃ i, fits mm.reg_sram (page_run buf_req.bytes) buf_req.align_in_page i) →
      mm.reg_sram.count = mm.reg_sram.bytes >>> PAGE_SHIFT →
      (aipu_mm_alloc mm buf_req filp tid).1 = 0 ∧
      in_region mm.reg_sram (aipu_mm_alloc mm buf_req filp tid).2.1.desc.pa ∧
      (aipu_mm_alloc mm buf_req filp tid).2.2.reg_dram = mm.reg_dram) ∧
    ((¬ sram_eligible mm buf_req ∨
        ∀ i, ¬ fits mm.reg_sram (page_run buf_req.bytes) buf_req.align_in_page i) →
      aipu_mm_alloc mm buf_req filp tid =
        ((aipu_mm_alloc_in_region_no_lock buf_req mm.reg_dram filp tid).1,
         (aipu_mm_alloc_in_region_no_lock buf_req mm.reg_dram filp tid).2.1,
         { mm with
             reg_dram := (aipu_mm_alloc_in_region_no_lock buf_req mm.reg_dram filp tid).2.2 }) ∧
      (aipu_mm_alloc mm buf_req filp tid).2.2.reg_sram = mm.reg_sram) := by
  have hv : ¬ (buf_req.bytes = 0 ∨ is_power_of_2 buf_req.align_in_page = false) := by
    rw [(is_power_of_2_iff _).mpr hpow]
    simp
    omega
  constructor
  · intro he hfit hcount
    obtain ⟨i, hi, h⟩ := alloc_sram_first mm buf_req filp tid hfilp hbytes hwrap hpow h32 he hfit
    rw [h]
    refine ⟨rfl, ?_, rfl⟩
    have hlt : i < mm.reg_sram.count := by
      have := hi.1
      have := page_run_pos _ hbytes
      omega
    exact in_region_of_index mm.reg_sram i hcount hlt
  · intro h
    by_cases he : sram_eligible mm buf_req
    · have hno : ∀ i, ¬ fits mm.reg_sram (page_run buf_req.bytes) buf_req.align_in_page i := by
        rcases h with h | h
        · exact absurd he h
        · exact h
      rw [alloc_sram_fallback mm buf_req filp tid hfilp hbytes hwrap hpow h32 he hno]
      exact ⟨rfl, rfl⟩
    · rw [alloc_dram_only mm buf_req filp tid hfilp hv he]
      exact ⟨rfl, rfl⟩

/-- Scenario B of the specification: with a 2-page SRAM and a 2-page
DRAM region, a request of 4096 bytes of the eligible class succeeds at the
base of SRAM and leaves DRAM unchanged; a request of a different class
(data type 5) is placed at the base of DRAM and leaves SRAM unchanged. -/
theorem region_selection_witness :
    ((aipu_mm_alloc mm_scenario_b (mk_req 4096 1) 7 100).1 = 0 ∧
      in_region mm_scenario_b.reg_sram
        (aipu_mm_alloc mm_scenario_b (mk_req 4096 1) 7 100).2.1.desc.pa ∧
      (aipu_mm_alloc mm_scenario_b (mk_req 4096 1) 7 100).2.2.reg_dram =
        mm_scenario_b.reg_dram) ∧
    (aipu_mm_alloc mm_scenario_b (mk_req 4096 1) 7 100).2.1.desc.pa = 0x100000 ∧
    ((aipu_mm_alloc mm_scenario_b { mk_req 4096 1 with data_type := 5 } 7 100).2.2.reg_sram =
      mm_scenario_b.reg_sram) ∧
    (aipu_mm_alloc mm_scenario_b { mk_req 4096 1 with data_type := 5 } 7 100).2.1.desc.pa =
      0x40000000 :=
  ⟨(region_selection mm_scenario_b (mk_req 4096 1) 7 100 (by decide) (by decide) (by decide)
      ⟨0, rfl⟩ (by decide)).1 (by decide) ⟨0, by decide⟩ (by decide),
   by decide,
   ((region_selection mm_scenario_b { mk_req 4096 1 with data_type := 5 } 7 100 (by decide)
      (by decide) (by decide) ⟨0, rfl⟩ (by decide)).2 (Or.inl (by decide))).2,
   by decide⟩

/-- C14, failing input. In scenario B a request of `2 ^ 44` bytes of the
eligible class passes the argument check and rounds up to `2 ^ 32` pages
without wrapping 64 bits. The 2-page SRAM region is eligible and has no
fitting run, so the request should be left to DRAM with SRAM unchanged; yet
the SRAM placement succeeds, because the bitmap search takes the page count
as an `unsigned int`, that is `0`: `aipu_mm_alloc` returns the SRAM base
address, writes the head entry of SRAM page 0, and never tries DRAM. -/
theorem sram_taken_without_run :
    0 < (mk_req (2 ^ 44) 1).bytes ∧ no_wrap (mk_req (2 ^ 44) 1).bytes ∧
    is_power_of_2 (mk_req (2 ^ 44) 1).align_in_page = true ∧
    mm_fresh mm_scenario_b ∧ sram_eligible mm_scenario_b (mk_req (2 ^ 44) 1) ∧
    (∀ i, ¬ fits mm_scenario_b.reg_sram (page_run (mk_req (2 ^ 44) 1).bytes) 1 i) ∧
    (aipu_mm_alloc mm_scenario_b (mk_req (2 ^ 44) 1) 7 100).1 = 0 ∧
    (aipu_mm_alloc mm_scenario_b (mk_req (2 ^ 44) 1) 7 100).2.1.desc.pa = 0x100000 ∧
    in_region mm_scenario_b.reg_sram
      (aipu_mm_alloc mm_scenario_b (mk_req (2 ^ 44) 1) 7 100).2.1.desc.pa ∧
    (aipu_mm_alloc mm_scenario_b (mk_req (2 ^ 44) 1) 7 100).2.2.reg_sram ≠
      mm_scenario_b.reg_sram ∧
    ((aipu_mm_alloc mm_scenario_b (mk_req (2 ^ 44) 1) 7 100).2.2.reg_sram.page 0).filp = 7 ∧
    (aipu_mm_alloc mm_scenario_b (mk_req (2 ^ 44) 1) 7 100).2.2.reg_dram =
      mm_scenario_b.reg_dram := by
  refine ⟨by decide, by decide, by decide, by decide, by decide, ?_, by decide, by decide,
    by decide, by decide, by decide, by decide⟩
  intro i h
  have h1 := h.1
  have e : page_run (mk_req (2 ^ 44) 1).bytes = 2 ^ 32 := by decide
  have c : mm_scenario_b.reg_sram.count = 2 := rfl
  rw [e, c] at h1
  omega

/-- Whatever the number of pages asked for, an index below the page count
returned by the search loop names a page whose frame number is a multiple of
the alignment. -/
theorem find_area_loop_aligned (reg : aipu_mem_region) (nr k : Nat) :
    ∀ (fuel start : Nat),
      bitmap_find_next_zero_area_off_loop reg.bitmap reg.count nr (2 ^ k - 1)
          (reg.base_pfn &&& (2 ^ k - 1)) fuel start < reg.count →
      (reg.base_pfn + bitmap_find_next_zero_area_off_loop reg.bitmap reg.count nr (2 ^ k - 1)
          (reg.base_pfn &&& (2 ^ k - 1)) fuel start) % 2 ^ k = 0 := by
  intro fuel
  induction fuel with
  | zero =>
    intro start h
    unfold bitmap_find_next_zero_area_off_loop at h
    omega
  | succ fuel ih =>
    intro start
    unfold bitmap_find_next_zero_area_off_loop
    dsimp only
    generalize find_next_zero_bit reg.bitmap reg.count start = index0
    obtain ⟨_, a2, _⟩ := align_up_spec reg.base_pfn k index0 _ rfl
    generalize ALIGN_MASK (index0 + (reg.base_pfn &&& (2 ^ k - 1))) (2 ^ k - 1) -
      (reg.base_pfn &&& (2 ^ k - 1)) = index at a2 ⊢
    by_cases hend : index + nr > reg.count
    · rw [if_pos hend]
      intro h
      omega
    · rw [if_neg hend]
      by_cases hi : find_next_bit reg.bitmap (index + nr) index < index + nr
      · rw [if_pos hi]
        exact ih _
      · rw [if_neg hi]
        intro _
        exact a2

/-- A successful placement, whatever the byte length of the request, returns
the address of a page of the region whose frame number is a multiple of the
alignment. -/
theorem alloc_in_region_ok_aligned (buf_req : aipu_buf_request) (reg : aipu_mem_region)
    (filp : Nat) (tid : Int)
    (hpow : ∃ k, buf_req.align_in_page = 2 ^ k) (h32 : buf_req.align_in_page < 2 ^ 32)
    (hok : (aipu_mm_alloc_in_region_no_lock buf_req reg filp tid).1 = 0) :
    ∃ i, i < reg.count ∧
      (aipu_mm_alloc_in_region_no_lock buf_req reg filp tid).2.1.desc.pa =
        reg.base_iova + i * PAGE_SIZE ∧
      (reg.base_pfn + i) % buf_req.align_in_page = 0 := by
  obtain ⟨k, hk⟩ := hpow
  have hk64 : k ≤ 64 := by
    by_contra hc
    have : 2 ^ 32 ≤ 2 ^ k := Nat.pow_le_pow_right (by norm_num) (by omega)
    omega
  have hfilp := alloc_in_region_ok_filp buf_req reg filp tid hok
  rw [alloc_in_region_unfold buf_req reg filp tid k hk64 hfilp hk] at hok ⊢
  rw [hk]
  have hal := find_area_loop_aligned reg
    ((ALIGN buf_req.bytes PAGE_SIZE >>> PAGE_SHIFT) % U32_MOD) k (reg.count + 1) 0
  have e : bitmap_find_next_zero_area_off_loop reg.bitmap reg.count
      ((ALIGN buf_req.bytes PAGE_SIZE >>> PAGE_SHIFT) % U32_MOD) (2 ^ k - 1)
      (reg.base_pfn &&& (2 ^ k - 1)) (reg.count + 1) 0 =
    bitmap_find_next_zero_area_off reg.bitmap reg.count 0
      ((ALIGN buf_req.bytes PAGE_SIZE >>> PAGE_SHIFT) % U32_MOD) (2 ^ k - 1)
      (reg.base_pfn &&& (2 ^ k - 1)) := rfl
  rw [e] at hal
  generalize bitmap_find_next_zero_area_off reg.bitmap reg.count 0
      ((ALIGN buf_req.bytes PAGE_SIZE >>> PAGE_SHIFT) % U32_MOD) (2 ^ k - 1)
      (reg.base_pfn &&& (2 ^ k - 1)) = r at hal hok ⊢
  by_cases hge : r ≥ reg.count
  · rw [if_pos hge] at hok
    simp [ENOMEM] at hok
  · rw [if_neg hge]
    exact ⟨r, by omega, rfl, hal (by omega)⟩

/-- A successful `aipu_mm_alloc`, whatever the request, is the success of the
placement in one region: the request passed the argument check, and status,
descriptor and region are those of `aipu_mm_alloc_in_region_no_lock` there. -/
theorem alloc_ok_region (mm : aipu_memory_manager) (buf_req : aipu_buf_request)
    (filp : Nat) (tid : Int) (hok : (aipu_mm_alloc mm buf_req filp tid).1 = 0) :
    filp ≠ 0 ∧ 0 < buf_req.bytes ∧ (∃ k, buf_req.align_in_page = 2 ^ k) ∧
    ∃ id, (aipu_mm_alloc_in_region_no_lock buf_req (mm.reg id) filp tid).1 = 0 ∧
      (aipu_mm_alloc mm buf_req filp tid).2.1 =
        (aipu_mm_alloc_in_region_no_lock buf_req (mm.reg id) filp tid).2.1 ∧
      (aipu_mm_alloc mm buf_req filp tid).2.2 =
        mm.set_reg id (aipu_mm_alloc_in_region_no_lock buf_req (mm.reg id) filp tid).2.2 := by
  have hne2 : (-EINVAL : Int) ≠ 0 := by decide
  have hfb : ¬ (AIPU_CONFIG_ENABLE_FALL_BACK_TO_DDR = 0) := by decide
  unfold aipu_mm_alloc at hok ⊢
  by_cases hfilp : filp = 0
  · rw [if_pos hfilp] at hok; exact absurd hok hne2
  rw [if_neg hfilp] at hok ⊢
  by_cases hv : buf_req.bytes = 0 ∨ is_power_of_2 buf_req.align_in_page = false
  · rw [if_pos hv] at hok; exact absurd hok hne2
  rw [if_neg hv] at hok ⊢
  have hbytes : 0 < buf_req.bytes := by
    rcases Nat.eq_zero_or_pos buf_req.bytes with h | h
    · exact absurd (Or.inl h) hv
    · exact h
  have hpow : ∃ k, buf_req.align_in_page = 2 ^ k := by
    apply (is_power_of_2_iff _).mp
    cases hp : is_power_of_2 buf_req.align_in_page
    · exact absurd (Or.inr hp) hv
    · rfl
  refine ⟨hfilp, hbytes, hpow, ?_⟩
  by_cases he : AIPU_CONFIG_ENABLE_SRAM = 1 ∧ mm.reg_sram.bytes ≠ 0 ∧ mm.sram_disable = 0 ∧
      mm.sram_dft_dtype = buf_req.data_type
  · rw [if_pos he] at hok ⊢
    by_cases hs : (aipu_mm_alloc_in_region_no_lock buf_req mm.reg_sram filp tid).1 = 0
    · simp only [hs, or_true, if_true]
      exact ⟨.AIPU_MEM_REGION_SRAM_ID, hs, rfl, rfl⟩
    · have hs2 := alloc_in_region_fail _ _ _ _ hs
      simp only [hs, hfb, and_false, or_false, if_false, hs2] at hok ⊢
      exact ⟨.AIPU_MEM_REGION_DRAM_ID, hok, rfl, rfl⟩
  · rw [if_neg he] at hok ⊢
    dsimp only at hok ⊢
    exact ⟨.AIPU_MEM_REGION_DRAM_ID, hok, rfl, rfl⟩

/-- C13 as amended. Every successful `aipu_mm_alloc`, whatever the byte
length of the request, is the placement of the request in one region at a
page index `i` below the page count, returns `base_iova + i * PAGE_SIZE`, and
has `(base_pfn + i) mod align_in_page = 0`: the page frame of the region base
plus the offset of the returned address is a multiple of
`align_in_page * PAGE_SIZE`. The offset itself is such a multiple whenever the
region's `base_pfn` is a multiple of the alignment. -/
theorem alignment_law (mm : aipu_memory_manager) (buf_req : aipu_buf_request)
    (filp : Nat) (tid : Int) (h32 : buf_req.align_in_page < 2 ^ 32)
    (hok : (aipu_mm_alloc mm buf_req filp tid).1 = 0) :
    ∃ id i, i < (mm.reg id).count ∧
      (aipu_mm_alloc mm buf_req filp tid).2.2 =
        mm.set_reg id (aipu_mm_alloc_in_region_no_lock buf_req (mm.reg id) filp tid).2.2 ∧
      (aipu_mm_alloc mm buf_req filp tid).2.1.desc.pa = (mm.reg id).base_iova + i * PAGE_SIZE ∧
      ((mm.reg id).base_pfn + i) % buf_req.align_in_page = 0 ∧
      ((mm.reg id).base_pfn * PAGE_SIZE +
          ((aipu_mm_alloc mm buf_req filp tid).2.1.desc.pa - (mm.reg id).base_iova)) %
        (buf_req.align_in_page * PAGE_SIZE) = 0 ∧
      ((mm.reg id).base_pfn % buf_req.align_in_page = 0 →
        ((aipu_mm_alloc mm buf_req filp tid).2.1.desc.pa - (mm.reg id).base_iova) %
          (buf_req.align_in_page * PAGE_SIZE) = 0) := by
  obtain ⟨_, _, hpow, id, hreg, hreq, hst⟩ := alloc_ok_region mm buf_req filp tid hok
  obtain ⟨i, hi, hpa0, hal⟩ :=
    alloc_in_region_ok_aligned buf_req (mm.reg id) filp tid hpow h32 hreg
  have hpa : (aipu_mm_alloc mm buf_req filp tid).2.1.desc.pa =
      (mm.reg id).base_iova + i * PAGE_SIZE := by
    rw [hreq, hpa0]
  refine ⟨id, i, hi, hst, hpa, hal, ?_, ?_⟩
  · rw [hpa, Nat.add_sub_cancel_left, ← Nat.add_mul, Nat.mul_mod_mul_right, hal,
      Nat.zero_mul]
  · intro hb
    have hi2 : i % buf_req.align_in_page = 0 := by
      have h1 := hal
      rw [Nat.add_mod, hb, Nat.zero_add, Nat.mod_mod] at h1
      exact h1
    rw [hpa, Nat.add_sub_cancel_left, Nat.mul_mod_mul_right, hi2, Nat.zero_mul]

/-- C13, example of the amended statement: in the 4-page region at page
frame 1 a request of 8192 bytes aligned to 2 pages is placed at index 1 and
returns `0x2000`; page frame plus offset, `0x1000 + 0x1000`, is a multiple of
`2 * PAGE_SIZE`. -/
theorem alignment_law_witness :
    (∃ id i, i < ((mm_of_dram dram4_odd).reg id).count ∧
      (aipu_mm_alloc (mm_of_dram dram4_odd) (mk_req 8192 2) 8 100).2.2 =
        (mm_of_dram dram4_odd).set_reg id
          (aipu_mm_alloc_in_region_no_lock (mk_req 8192 2) ((mm_of_dram dram4_odd).reg id)
            8 100).2.2 ∧
      (aipu_mm_alloc (mm_of_dram dram4_odd) (mk_req 8192 2) 8 100).2.1.desc.pa =
        ((mm_of_dram dram4_odd).reg id).base_iova + i * PAGE_SIZE ∧
      (((mm_of_dram dram4_odd).reg id).base_pfn + i) % (mk_req 8192 2).align_in_page = 0 ∧
      (((mm_of_dram dram4_odd).reg id).base_pfn * PAGE_SIZE +
          ((aipu_mm_alloc (mm_of_dram dram4_odd) (mk_req 8192 2) 8 100).2.1.desc.pa -
            ((mm_of_dram dram4_odd).reg id).base_iova)) %
        ((mk_req 8192 2).align_in_page * PAGE_SIZE) = 0 ∧
      (((mm_of_dram dram4_odd).reg id).base_pfn % (mk_req 8192 2).align_in_page = 0 →
        ((aipu_mm_alloc (mm_of_dram dram4_odd) (mk_req 8192 2) 8 100).2.1.desc.pa -
            ((mm_of_dram dram4_odd).reg id).base_iova) %
          ((mk_req 8192 2).align_in_page * PAGE_SIZE) = 0)) ∧
    (aipu_mm_alloc (mm_of_dram dram4_odd) (mk_req 8192 2) 8 100).2.1.desc.pa = 0x2000 :=
  ⟨alignment_law (mm_of_dram dram4_odd) (mk_req 8192 2) 8 100 (by decide) (by decide),
   by decide⟩

/-- C13, counterexample to the claim as stated: the fresh 4-page region at
bus address `0x1000` (page frame 1) gives a valid request of 8192 bytes
aligned to 2 pages the address `0x2000`; its offset from the region base,
`0x1000`, is not a multiple of `2 * PAGE_SIZE`. -/
theorem alignment_law_counterexample :
    mm_fresh (mm_of_dram dram4_odd) ∧
    (aipu_mm_alloc (mm_of_dram dram4_odd) (mk_req 8192 2) 8 100).1 = 0 ∧
    (aipu_mm_alloc (mm_of_dram dram4_odd) (mk_req 8192 2) 8 100).2.1.desc.pa = 0x2000 ∧
    ((aipu_mm_alloc (mm_of_dram dram4_odd) (mk_req 8192 2) 8 100).2.1.desc.pa -
        (mm_of_dram dram4_odd).reg_dram.base_iova) %
      ((mk_req 8192 2).align_in_page * PAGE_SIZE) ≠ 0 := by
  decide

/-! ### Export bookkeeping -/

/-- What `aipu_mm_find_page` has checked when it returns a page. -/
theorem find_page_some (reg : aipu_mem_region) (filp iova n : Nat)
    (h : aipu_mm_find_page reg filp iova = some n) :
    filp ≠ 0 ∧ iova % PAGE_SIZE = 0 ∧ n = page_index reg iova ∧ n < reg.count ∧
    (reg.page n).map_num = 0 ∧ (reg.page n).filp = filp := by
  have e : ∀ x : Nat, x >>> PAGE_SHIFT = x / PAGE_SIZE := by
    intro x
    simp [Nat.shiftRight_eq_div_pow, PAGE_SHIFT, PAGE_SIZE]
  unfold aipu_mm_find_page at h
  simp only [e] at h
  split at h
  · cases h
  · rename_i h1
    split at h
    · cases h
    · rename_i h2
      split at h
      · cases h
      · rename_i h3
        cases h
        refine ⟨fun c => h1 (Or.inl c), ?_, rfl, Nat.lt_of_not_le h2, ?_, ?_⟩
        · by_contra c
          exact h1 (Or.inr c)
        · by_contra c
          exact h3 (Or.inl c)
        · by_contra c
          exact h3 (Or.inr c)

/-- `aipu_mm_find_page` refuses a page whose `map_num` is not zero and a page
recorded for another file. -/
theorem find_page_none (reg : aipu_mem_region) (filp iova : Nat)
    (h : (reg.page (page_index reg iova)).map_num ≠ 0 ∨
      (reg.page (page_index reg iova)).filp ≠ filp) :
    aipu_mm_find_page reg filp iova = none := by
  cases hf : aipu_mm_find_page reg filp iova with
  | none => rfl
  | some n =>
    obtain ⟨_, _, hn, _, h1, h2⟩ := find_page_some reg filp iova n hf
    rw [hn] at h1 h2
    rcases h with h | h
    · exact absurd h1 h
    · exact absurd h2 h

/-- The three outcomes of `aipu_mm_mmap_buf`: a check fails (`-EINVAL`,
nothing changed), the external mapper fails (its status, nothing changed),
or the export is counted on the page that `aipu_mm_find_page` returned. -/
theorem mmap_cases_strong (mm : aipu_memory_manager) (vma : vm_area_struct) (filp : Nat)
    (ext_ret : Int) :
    ((aipu_mm_find_region mm (vma_offset vma) = none ∨
        ∃ id, aipu_mm_find_region mm (vma_offset vma) = some id ∧
          aipu_mm_find_page (mm.reg id) filp (vma_offset vma) = none) ∧
      aipu_mm_mmap_buf mm vma filp ext_ret = (-EINVAL, mm)) ∨
    (ext_ret ≠ 0 ∧ aipu_mm_mmap_buf mm vma filp ext_ret = (ext_ret, mm)) ∨
    (∃ id n, aipu_mm_find_region mm (vma_offset vma) = some id ∧
      aipu_mm_find_page (mm.reg id) filp (vma_offset vma) = some n ∧ ext_ret = 0 ∧
      aipu_mm_mmap_buf mm vma filp ext_ret =
        (0, mm.set_reg id (region_mapped (mm.reg id) n))) := by
  unfold aipu_mm_mmap_buf vma_offset
  dsimp only
  cases hr : aipu_mm_find_region mm ((vma.vm_pgoff * PAGE_SIZE) % U64_MOD) with
  | none => exact Or.inl ⟨Or.inl rfl, rfl⟩
  | some id =>
    dsimp only
    cases hp : aipu_mm_find_page (mm.reg id) filp ((vma.vm_pgoff * PAGE_SIZE) % U64_MOD) with
    | none => exact Or.inl ⟨Or.inr ⟨id, rfl, hp⟩, rfl⟩
    | some n =>
      dsimp only
      by_cases he : ext_ret = 0
      · rw [if_pos he]
        subst he
        exact Or.inr (Or.inr ⟨id, n, rfl, hp, rfl, rfl⟩)
      · rw [if_neg he]
        exact Or.inr (Or.inl ⟨he, rfl⟩)

theorem page_region_mapped_ne (reg : aipu_mem_region) (n h : Nat) (hne : h ≠ n) :
    (region_mapped reg n).page h = reg.page h := by
  have e := page_set_eq reg n h { reg.page n with map_num := (reg.page n).map_num + 1 }
  have e2 : (region_mapped reg n).page h =
      if h = n ∧ n < reg.pages.length then
        { reg.page n with map_num := (reg.page n).map_num + 1 } else reg.page h := e
  rw [e2, if_neg (fun c => hne c.1)]

theorem page_region_mapped_self (reg : aipu_mem_region) (n : Nat) (hn : n < reg.pages.length) :
    (region_mapped reg n).page n =
      { reg.page n with map_num := (reg.page n).map_num + 1 } := by
  have e := page_set_eq reg n n { reg.page n with map_num := (reg.page n).map_num + 1 }
  have e2 : (region_mapped reg n).page n =
      if n = n ∧ n < reg.pages.length then
        { reg.page n with map_num := (reg.page n).map_num + 1 } else reg.page n := e
  rw [e2, if_pos ⟨rfl, hn⟩]

/-- The entry of a live head that has been exported is left exactly as it is
by every call in range that does not release the run. -/
theorem page_kept (s s0 : aipu_memory_manager) (op : mm_op) (id : aipu_mem_region_id)
    (i : Nat) (hinv : mm_inv s) (hr : op_in_range op) (hlay : same_layout s s0)
    (hlen : 0 < ((s.reg id).page i).contiguous_alloc_len)
    (hmap : ((s.reg id).page i).map_num ≠ 0)
    (hkeep : ¬ releases s0 id i ((s.reg id).page i).filp op) :
    ((mm_step s op).reg id).page i = (s.reg id).page i := by
  obtain ⟨⟨hbl, hpl⟩, hb, hc, hd⟩ := hinv id
  cases op with
  | alloc buf_req filp tid =>
    simp only [mm_step]
    rcases alloc_cases s buf_req filp tid hr.1 hr.2 with ⟨_, h⟩ | ⟨id', j, _, _, hpr, hfit, h, _⟩
    · rw [h]
    · by_cases e : id = id'
      · subst e
        have hji : i ≠ j := by
          intro c
          subst c
          have h1 := (hc i hlen).2 i (le_refl _) (by omega)
          rw [hfit.2.1 i (le_refl _) (by omega)] at h1
          exact absurd h1 (by simp)
        rw [h, reg_set_reg, page_region_placed _ _ _ _ _ _ (by have := hfit.1; omega),
          if_neg hji]
      · rw [h, reg_set_reg_ne _ _ _ _ e]
  | free buf filp =>
    simp only [mm_step]
    rcases free_cases s buf filp with h | ⟨id', _, hfind, ho, h⟩
    · rw [h]
    · by_cases e : id = id'
      · subst e
        have hne : i ≠ page_index (s.reg id) buf.pa := by
          intro c
          apply hkeep
          refine ⟨?_, ?_, ?_⟩
          · have := ho.2.2.1
            rw [c]
            exact this.symm
          · rw [← find_region_same_layout s s0 hlay]
            exact hfind
          · unfold page_index
            rw [← (hlay id).1]
            exact c.symm
        rw [h]
        show ((s.set_reg id _).reg id).page i = _
        rw [reg_set_reg, page_region_released, if_neg hne]
      · rw [h]
        show ((s.set_reg id' _).reg id).page i = _
        rw [reg_set_reg_ne _ _ _ _ e]
  | free_buffers g =>
    simp only [mm_step]
    rw [free_buffers_reg]
    by_cases hz : g = 0
    · subst hz
      rw [free_filp_in_region_zero]
    · have hg : ¬ ((s.reg id).page i).filp = g := fun c => hkeep c.symm
      rw [(free_filp_in_region_spec (s.reg id) g hz hpl).2.2.2.1 i, if_neg hg]
  | mmap_buf vma filp ext_ret =>
    simp only [mm_step]
    rcases mmap_cases_strong s vma filp ext_ret with ⟨_, h⟩ | ⟨_, h⟩ | ⟨id', n, _, hp, _, h⟩
    · rw [h]
    · rw [h]
    · by_cases e : id = id'
      · subst e
        have hin : i ≠ n := by
          intro c
          subst c
          exact hmap (find_page_some _ _ _ _ hp).2.2.2.2.1
        rw [h]
        show ((s.set_reg id _).reg id).page i = _
        rw [reg_set_reg, page_region_mapped_ne _ _ _ hin]
      · rw [h]
        show ((s.set_reg id' _).reg id).page i = _
        rw [reg_set_reg_ne _ _ _ _ e]
  | disable_sram filp k =>
    simp only [mm_step]
    rw [disable_reg]
  | enable_sram filp =>
    simp only [mm_step]
    rw [enable_reg]

/-- The entry of an exported live head survives every sequence of calls in
range none of which releases the run. -/
theorem page_kept_run (s0 : aipu_memory_manager) (id : aipu_mem_region_id) (i f : Nat)
    (ops : List mm_op) :
    ∀ s : aipu_memory_manager, mm_inv s → same_layout s s0 →
      0 < ((s.reg id).page i).contiguous_alloc_len → ((s.reg id).page i).map_num ≠ 0 →
      ((s.reg id).page i).filp = f →
      (∀ op, op ∈ ops → op_in_range op) →
      (∀ op, op ∈ ops → ¬ releases s0 id i f op) →
      mm_inv (mm_run s ops) ∧ same_layout (mm_run s ops) s0 ∧
      ((mm_run s ops).reg id).page i = (s.reg id).page i := by
  induction ops with
  | nil => intro s h1 h2 _ _ _ _ _; exact ⟨h1, h2, rfl⟩
  | cons op ops ih =>
    intro s h1 h2 h3 h4 h5 hr hk
    have hr0 := hr op (List.mem_cons_self _ _)
    have hk0 : ¬ releases s0 id i ((s.reg id).page i).filp op := by
      rw [h5]
      exact hk op (List.mem_cons_self _ _)
    have hp := page_kept s s0 op id i h1 hr0 h2 h3 h4 hk0
    obtain ⟨a1, a2, a3⟩ := ih (mm_step s op) (mm_inv_step s op h1 hr0)
      (same_layout_trans _ _ _ (same_layout_step s op h1 hr0) h2)
      (by rw [hp]; exact h3) (by rw [hp]; exact h4) (by rw [hp]; exact h5)
      (fun o ho => hr o (List.mem_cons_of_mem _ ho))
      (fun o ho => hk o (List.mem_cons_of_mem _ ho))
    exact ⟨a1, a2, a3.trans hp⟩

/-- C20 as amended. Start from a freshly initialised manager and run calls
in range (the byte length of every allocation rounds up to fewer than
`2 ^ 32` pages). After one successful `aipu_mm_mmap_buf` by `f` on the run at the
requested address, and any further calls in range none of which releases
that run (no `aipu_mm_free` of it by `f`, no `aipu_mm_free_buffers` by `f`),
every further `aipu_mm_mmap_buf` by `f` at the same address fails with
`-EINVAL` whatever the external mapper would answer, changes nothing, and
`map_num` of the run is 1. A caller that does not own the run gets the same
`-EINVAL`. -/
theorem export_one_shot (mm0 : aipu_memory_manager) (hfresh : mm_fresh mm0)
    (ops1 ops2 : List mm_op) (vma vma2 : vm_area_struct) (f : Nat) (e1 e2 : Int)
    (id : aipu_mem_region_id)
    (hops1 : ∀ op, op ∈ ops1 → op_in_range op)
    (hops2 : ∀ op, op ∈ ops2 → op_in_range op)
    (hfind : aipu_mm_find_region mm0 (vma_offset vma) = some id)
    (hsame : vma_offset vma2 = vma_offset vma)
    (hok : (aipu_mm_mmap_buf (mm_run mm0 ops1) vma f e1).1 = 0)
    (hkeep : ∀ op, op ∈ ops2 →
      ¬ releases mm0 id (page_index (mm0.reg id) (vma_offset vma)) f op) :
    aipu_mm_mmap_buf (mm_run (aipu_mm_mmap_buf (mm_run mm0 ops1) vma f e1).2 ops2) vma2 f e2 =
      (-EINVAL, mm_run (aipu_mm_mmap_buf (mm_run mm0 ops1) vma f e1).2 ops2) ∧
    (((mm_run (aipu_mm_mmap_buf (mm_run mm0 ops1) vma f e1).2 ops2).reg id).page
      (page_index (mm0.reg id) (vma_offset vma))).map_num = 1 ∧
    (∀ g e, g ≠ f →
      aipu_mm_mmap_buf (mm_run (aipu_mm_mmap_buf (mm_run mm0 ops1) vma f e1).2 ops2) vma2 g e =
        (-EINVAL, mm_run (aipu_mm_mmap_buf (mm_run mm0 ops1) vma f e1).2 ops2)) := by
  have hne : (-EINVAL : Int) ≠ 0 := by decide
  have hinv0 := mm_inv_fresh mm0 hfresh
  have hinv1 := mm_inv_run ops1 mm0 hinv0 hops1
  have hlay1 := same_layout_run ops1 mm0 hinv0 hops1
  generalize mm_run mm0 ops1 = s1 at *
  have hinv1' : mm_inv (aipu_mm_mmap_buf s1 vma f e1).2 :=
    mm_inv_step s1 (.mmap_buf vma f e1) hinv1 trivial
  have hlay1' : same_layout (aipu_mm_mmap_buf s1 vma f e1).2 mm0 :=
    same_layout_trans _ _ _ (same_layout_step s1 (.mmap_buf vma f e1) hinv1 trivial) hlay1
  rcases mmap_cases_strong s1 vma f e1 with ⟨_, h⟩ | ⟨he, h⟩ | ⟨id', n, hfr, hfp, _, h⟩
  · rw [h] at hok; exact absurd hok hne
  · rw [h] at hok; exact absurd hok he
  have hid : id' = id := by
    rw [find_region_same_layout s1 mm0 hlay1, hfind] at hfr
    cases hfr
    rfl
  subst hid
  obtain ⟨hf0, _, hn, hnc, hm0, hfl⟩ := find_page_some _ _ _ _ hfp
  have hbase : (s1.reg id').base_iova = (mm0.reg id').base_iova := (hlay1 id').1
  have hidx : page_index (mm0.reg id') (vma_offset vma) = n := by
    rw [hn]
    unfold page_index
    rw [hbase]
  rw [hidx] at hkeep ⊢
  have hnl : n < (s1.reg id').pages.length := by
    have := (hinv1 id').1.2
    omega
  have hpage : ((aipu_mm_mmap_buf s1 vma f e1).2.reg id').page n =
      { (s1.reg id').page n with map_num := ((s1.reg id').page n).map_num + 1 } := by
    rw [h]
    show ((s1.set_reg id' _).reg id').page n = _
    rw [reg_set_reg, page_region_mapped_self _ _ hnl]
  have hlen : 0 < ((s1.reg id').page n).contiguous_alloc_len :=
    (hinv1 id').2.1 n (by rw [hfl]; exact hf0)
  have hmap1 : (((aipu_mm_mmap_buf s1 vma f e1).2.reg id').page n).map_num = 1 := by
    rw [hpage]
    show ((s1.reg id').page n).map_num + 1 = 1
    rw [hm0]
    rfl
  obtain ⟨_, hlay2, hkept⟩ :=
    page_kept_run mm0 id' n f ops2 (aipu_mm_mmap_buf s1 vma f e1).2 hinv1' hlay1'
      (by rw [hpage]; exact hlen) (by rw [hmap1]; decide) (by rw [hpage]; exact hfl)
      hops2 hkeep
  generalize mm_run (aipu_mm_mmap_buf s1 vma f e1).2 ops2 = s2 at *
  have hfr2 : aipu_mm_find_region s2 (vma_offset vma2) = some id' := by
    rw [hsame, find_region_same_layout s2 mm0 hlay2, hfind]
  have hidx2 : page_index (s2.reg id') (vma_offset vma2) = n := by
    rw [hsame, hn]
    unfold page_index
    rw [(hlay2 id').1, hbase]
  have hfail : ∀ g e, (((s2.reg id').page n).map_num ≠ 0 ∨ ((s2.reg id').page n).filp ≠ g) →
      aipu_mm_mmap_buf s2 vma2 g e = (-EINVAL, s2) := by
    intro g e hc
    have hnone : aipu_mm_find_page (s2.reg id') g (vma_offset vma2) = none :=
      find_page_none _ _ _ (by rw [hidx2]; exact hc)
    rcases mmap_cases_strong s2 vma2 g e with ⟨_, h2⟩ | ⟨_, h2⟩ | ⟨id2, n2, hfr3, hfp3, _, _⟩
    · exact h2
    · unfold aipu_mm_mmap_buf
      have hfr2' : aipu_mm_find_region s2 ((vma2.vm_pgoff * PAGE_SIZE) % U64_MOD) = some id' :=
        hfr2
      have hnone' : aipu_mm_find_page (s2.reg id') g ((vma2.vm_pgoff * PAGE_SIZE) % U64_MOD) =
          none := hnone
      dsimp only
      rw [hfr2']
      dsimp only
      rw [hnone']
    · rw [hfr2] at hfr3
      cases hfr3
      rw [hnone] at hfp3
      cases hfp3
  have hm2 : ((s2.reg id').page n).map_num = 1 := by rw [hkept]; exact hmap1
  refine ⟨hfail f e2 (Or.inl (by rw [hm2]; decide)), hm2, fun g e hg => ?_⟩
  apply hfail g e
  right
  rw [hkept, hpage]
  show ((s1.reg id').page n).filp ≠ g
  rw [hfl]
  exact fun c => hg c.symm

/-- C20, scenario D of the specification: caller 7 holds the run at the base
of the 4-page region and exports it; after an unrelated allocation by caller
9 a second export of the same run by caller 7 fails with `-EINVAL`, the
manager is unchanged and `map_num` is 1. -/
theorem export_one_shot_witness :
    (aipu_mm_mmap_buf (mm_run (aipu_mm_mmap_buf
          (mm_run (mm_of_dram dram4) [.alloc (mk_req 8192 1) 7 100])
          { vm_pgoff := 0x40000, vm_start := 0, vm_end := 8192 } 7 0).2
          [.alloc (mk_req 4096 1) 9 200])
        { vm_pgoff := 0x40000, vm_start := 0x10000, vm_end := 0x12000 } 7 0 =
      (-EINVAL, mm_run (aipu_mm_mmap_buf
          (mm_run (mm_of_dram dram4) [.alloc (mk_req 8192 1) 7 100])
          { vm_pgoff := 0x40000, vm_start := 0, vm_end := 8192 } 7 0).2
          [.alloc (mk_req 4096 1) 9 200])) ∧
    (((mm_run (aipu_mm_mmap_buf
          (mm_run (mm_of_dram dram4) [.alloc (mk_req 8192 1) 7 100])
          { vm_pgoff := 0x40000, vm_start := 0, vm_end := 8192 } 7 0).2
          [.alloc (mk_req 4096 1) 9 200]).reg .AIPU_MEM_REGION_DRAM_ID).page
        (page_index ((mm_of_dram dram4).reg .AIPU_MEM_REGION_DRAM_ID)
          (vma_offset { vm_pgoff := 0x40000, vm_start := 0, vm_end := 8192 }))).map_num = 1 ∧
    (aipu_mm_mmap_buf (mm_run (mm_of_dram dram4) [.alloc (mk_req 8192 1) 7 100])
      { vm_pgoff := 0x40000, vm_start := 0, vm_end := 8192 } 7 0).1 = 0 :=
  ⟨(export_one_shot (mm_of_dram dram4) (by decide) [.alloc (mk_req 8192 1) 7 100]
      [.alloc (mk_req 4096 1) 9 200]
      { vm_pgoff := 0x40000, vm_start := 0, vm_end := 8192 }
      { vm_pgoff := 0x40000, vm_start := 0x10000, vm_end := 0x12000 } 7 0 0
      .AIPU_MEM_REGION_DRAM_ID (by decide) (by decide) (by decide) (by decide) (by decide)
      (by decide)).1,
   (export_one_shot (mm_of_dram dram4) (by decide) [.alloc (mk_req 8192 1) 7 100]
      [.alloc (mk_req 4096 1) 9 200]
      { vm_pgoff := 0x40000, vm_start := 0, vm_end := 8192 }
      { vm_pgoff := 0x40000, vm_start := 0x10000, vm_end := 0x12000 } 7 0 0
      .AIPU_MEM_REGION_DRAM_ID (by decide) (by decide) (by decide) (by decide) (by decide)
      (by decide)).2.1,
   by decide⟩

/-- C20, counterexample to the claim as stated: caller 7 exports its run at
the base of the 4-page region. A second export by caller 7 returns
`-EINVAL`; an export of the same address by caller 9, who does not own it,
and an export by caller 7 of the free page 3, which it does not own, return
`-EINVAL` as well: the code has one error for all three. -/
theorem export_errors_coincide :
    (aipu_mm_mmap_buf mm_scenario_a
      { vm_pgoff := 0x40000, vm_start := 0, vm_end := 8192 } 7 0).1 = 0 ∧
    (aipu_mm_mmap_buf (aipu_mm_mmap_buf mm_scenario_a
        { vm_pgoff := 0x40000, vm_start := 0, vm_end := 8192 } 7 0).2
      { vm_pgoff := 0x40000, vm_start := 0, vm_end := 8192 } 7 0).1 = -EINVAL ∧
    (aipu_mm_mmap_buf (aipu_mm_mmap_buf mm_scenario_a
        { vm_pgoff := 0x40000, vm_start := 0, vm_end := 8192 } 7 0).2
      { vm_pgoff := 0x40000, vm_start := 0, vm_end := 8192 } 9 0).1 = -EINVAL ∧
    (aipu_mm_mmap_buf (aipu_mm_mmap_buf mm_scenario_a
        { vm_pgoff := 0x40000, vm_start := 0, vm_end := 8192 } 7 0).2
      { vm_pgoff := 0x40003, vm_start := 0, vm_end := 4096 } 7 0).1 = -EINVAL := by
  decide

/-! ### Region set-up -/

/-- The `err:` path returns `ret`, clears `base_va` and empties a sound
ledger. -/
theorem init_region_err_spec (id : aipu_mem_region_id) (ret : Int) (reg : aipu_mem_region)
    (res : region_resources) (h : ledger_sound id reg res) :
    aipu_mm_init_mem_region_err id ret reg res = (ret, { reg with base_va := 0 }, no_resources) := by
  obtain ⟨h1, h2, h3, h4, h5⟩ := h
  rcases res with ⟨c, m, r, d, p⟩
  rcases reg with ⟨iova, pa, va, bytes, pfn, ty, pages, bm, cnt, attrs⟩
  simp only at h1 h2 h3 h4 h5
  subst h1
  unfold aipu_mm_init_mem_region_err no_resources
  by_cases hva : va = 0
  · subst hva
    have hm : m = false := by
      cases m
      · rfl
      · exact absurd rfl (h3 rfl).2
    have hd : d = false := by
      cases d
      · rfl
      · exact absurd rfl (h4 rfl).2
    subst hm hd
    cases id <;> cases r <;> cases c <;> simp_all
  · cases id <;> cases m <;> cases d <;> cases r <;> cases c <;> simp_all

/-- The `init_page:` path: with both allocations it succeeds, fills in page
count, bitmap, page array and base page frame, and enters the page array in
the ledger; otherwise it fails with `-ENOMEM` and leaves nothing held. -/
theorem init_region_pages_spec (id : aipu_mem_region_id) (srv : region_services)
    (reg : aipu_mem_region) (res : region_resources) (h : ledger_sound id reg res) :
    (srv.bitmap_ok = true ∧ srv.pages_ok = true ∧
      aipu_mm_init_mem_region_pages id srv reg res =
        (0,
         { reg with
             count := reg.bytes >>> PAGE_SHIFT
             bitmap := List.replicate (reg.bytes >>> PAGE_SHIFT) false
             pages := List.replicate (reg.bytes >>> PAGE_SHIFT) zero_page
             base_pfn := reg.base_iova >>> PAGE_SHIFT },
         { res with page_array := true })) ∨
    ((srv.bitmap_ok = false ∨ srv.pages_ok = false) ∧
      ∃ reg1, aipu_mm_init_mem_region_pages id srv reg res = (-ENOMEM, reg1, no_resources) ∧
        reg1.base_va = 0) := by
  have hne : (-ENOMEM : Int) ≠ 0 := by decide
  unfold aipu_mm_init_mem_region_pages aipu_mm_init_pages
  dsimp only
  cases hb : srv.bitmap_ok
  · right
    refine ⟨Or.inl rfl, ?_⟩
    simp only [if_true, hne, ne_eq, not_false_eq_true]
    exact ⟨_, init_region_err_spec _ _ _ _ h, rfl⟩
  · cases hp : srv.pages_ok
    · right
      refine ⟨Or.inr rfl, ?_⟩
      simp only [if_true, if_false, hne, ne_eq, not_false_eq_true, Bool.true_eq_false]
      exact ⟨_, init_region_err_spec _ _ _ _ h, rfl⟩
    · left
      refine ⟨rfl, rfl, ?_⟩
      simp

/-- Soundness of a ledger depends on the type and `base_va` of the region
only. -/
theorem ledger_sound_congr (id : aipu_mem_region_id) (reg reg1 : aipu_mem_region)
    (res : region_resources) (ht : reg1.type = reg.type) (hv : reg1.base_va = reg.base_va)
    (h : ledger_sound id reg res) : ledger_sound id reg1 res := by
  unfold ledger_sound at h ⊢
  rw [ht, hv]
  exact h

/-- The ledger that holds at most the child device of the SRAM region is
sound for a region without backing store. -/
theorem ledger_sound_child (id : aipu_mem_region_id) (reg : aipu_mem_region)
    (hva : reg.base_va = 0) :
    ledger_sound id reg
      (if id = .AIPU_MEM_REGION_SRAM_ID then { no_resources with child_dev := true }
       else no_resources) := by
  unfold ledger_sound no_resources
  cases id <;> simp [hva]

/-- Outcomes of `aipu_mm_init_mem_region` started on a region without
backing store and with an empty ledger: the region is passed over; the child
device cannot be created; the address check fails; a later step fails with
an error code; `dma_alloc_attrs` fails and the status is `0`; or the set-up
goes through. Only the last outcome leaves anything in the ledger, and every
other one leaves `base_va` at `NULL`. -/
theorem init_region_cases (mm : aipu_memory_manager) (id : aipu_mem_region_id)
    (use_dft dft_size : Nat) (srv : region_services) (hva : (mm.reg id).base_va = 0) :
    (((mm.reg id).bytes = 0 ∧ (mm.reg id).type ≠ .AIPU_MEM_TYPE_CMA_DEFAULT ∧
        (mm.reg id).type ≠ .AIPU_MEM_TYPE_KERNEL) ∧
      aipu_mm_init_mem_region mm id use_dft dft_size srv no_resources = (0, mm, no_resources)) ∨
    (¬ ((mm.reg id).bytes = 0 ∧ (mm.reg id).type ≠ .AIPU_MEM_TYPE_CMA_DEFAULT ∧
        (mm.reg id).type ≠ .AIPU_MEM_TYPE_KERNEL) ∧
      ((id = .AIPU_MEM_REGION_SRAM_ID ∧ aipu_mm_create_child_sramdev srv = 0 ∧
          aipu_mm_init_mem_region mm id use_dft dft_size srv no_resources =
            (-ENODEV, mm, no_resources)) ∨
       (¬ (id = .AIPU_MEM_REGION_SRAM_ID ∧ aipu_mm_create_child_sramdev srv = 0) ∧
        ((range_checked mm (mm.reg id) ∧ region_upper mm (mm.reg id) > mm.limit ∧
            aipu_mm_init_mem_region mm id use_dft dft_size srv no_resources =
              (-EINVAL, mm.set_reg id { mm.reg id with base_va := 0 }, no_resources)) ∨
         (¬ (range_checked mm (mm.reg id) ∧ region_upper mm (mm.reg id) > mm.limit) ∧
          (((aipu_mm_init_mem_region mm id use_dft dft_size srv no_resources).1 ≠ 0 ∧
              ¬ services_succeed srv ∧
              (aipu_mm_init_mem_region mm id use_dft dft_size srv no_resources).2.2 =
                no_resources ∧
              ((aipu_mm_init_mem_region mm id use_dft dft_size srv no_resources).2.1.reg
                id).base_va = 0) ∨
           ((mm.reg id).type ≠ .AIPU_MEM_TYPE_DEV_RESERVED ∧ srv.dma_alloc_va = 0 ∧
              (aipu_mm_init_mem_region mm id use_dft dft_size srv no_resources).1 = 0 ∧
              (aipu_mm_init_mem_region mm id use_dft dft_size srv no_resources).2.2 =
                no_resources ∧
              ((aipu_mm_init_mem_region mm id use_dft dft_size srv no_resources).2.1.reg
                id).base_va = 0) ∨
           ((aipu_mm_init_mem_region mm id use_dft dft_size srv no_resources).1 = 0 ∧
              (aipu_mm_init_mem_region mm id use_dft dft_size srv no_resources).2.2 =
                ledger_full id (mm.reg id).type ∧
              ((aipu_mm_init_mem_region mm id use_dft dft_size srv no_resources).2.1.reg
                id).base_va ≠ 0 ∧
              ((aipu_mm_init_mem_region mm id use_dft dft_size srv no_resources).2.1.reg
                id).type = (mm.reg id).type ∧
              ((aipu_mm_init_mem_region mm id use_dft dft_size srv no_resources).2.1.reg
                id).bytes =
                (if (mm.reg id).type ≠ .AIPU_MEM_TYPE_DEV_RESERVED ∧
                    ((mm.reg id).type = .AIPU_MEM_TYPE_KERNEL ∨
                      (mm.reg id).type = .AIPU_MEM_TYPE_CMA_DEFAULT ∨ use_dft = 1) then dft_size
                 else (mm.reg id).bytes) ∧
              region_fresh
                ((aipu_mm_init_mem_region mm id use_dft dft_size srv no_resources).2.1.reg
                  id)))))))) := by
  have hneI : (-EINVAL : Int) ≠ 0 := by decide
  have hneM : (-ENOMEM : Int) ≠ 0 := by decide
  have hs0 := ledger_sound_child id (mm.reg id) hva
  unfold aipu_mm_init_mem_region
  dsimp only
  by_cases hskip : (mm.reg id).bytes = 0 ∧ (mm.reg id).type ≠ .AIPU_MEM_TYPE_CMA_DEFAULT ∧
      (mm.reg id).type ≠ .AIPU_MEM_TYPE_KERNEL
  · rw [if_pos hskip]
    exact Or.inl ⟨hskip, rfl⟩
  rw [if_neg hskip]
  refine Or.inr ⟨hskip, ?_⟩
  by_cases hdev : id = .AIPU_MEM_REGION_SRAM_ID ∧ aipu_mm_create_child_sramdev srv = 0
  · rw [if_pos hdev]
    exact Or.inl ⟨hdev.1, hdev.2, rfl⟩
  rw [if_neg hdev]
  refine Or.inr ⟨hdev, ?_⟩
  by_cases hchk : range_checked mm (mm.reg id) ∧ region_upper mm (mm.reg id) > mm.limit
  · rw [if_pos hchk, init_region_err_spec _ _ _ _ hs0]
    exact Or.inl ⟨hchk.1, hchk.2, rfl⟩
  rw [if_neg hchk]
  refine Or.inr ⟨hchk, ?_⟩
  by_cases hty : (mm.reg id).type = .AIPU_MEM_TYPE_DEV_RESERVED
  · rw [if_pos hty]
    by_cases hm : srv.memremap = 0
    · rw [if_pos hm, init_region_err_spec _ _ _ _ hs0]
      refine Or.inl ⟨hneI, fun h => h.2.1 hm, rfl, ?_⟩
      show ((mm.set_reg id _).reg id).base_va = 0
      rw [reg_set_reg]
    · rw [if_neg hm]
      have hs1 : ledger_sound id
          { mm.reg id with base_va := srv.memremap, base_iova := (mm.reg id).base_pa }
          { (if id = .AIPU_MEM_REGION_SRAM_ID then { no_resources with child_dev := true }
             else no_resources) with mapping := true } := by
        unfold ledger_sound no_resources
        cases id <;> simp [hty, hm]
      rcases init_region_pages_spec id srv _ _ hs1 with ⟨_, _, he⟩ | ⟨hf, reg1, he, hv⟩
      · rw [he]
        refine Or.inr (Or.inr ⟨rfl, ?_, ?_, ?_, ?_, ?_⟩)
        · unfold ledger_full no_resources
          cases id <;> simp [hty]
        · show ((mm.set_reg id _).reg id).base_va ≠ 0
          rw [reg_set_reg]
          exact hm
        · show ((mm.set_reg id _).reg id).type = _
          rw [reg_set_reg]
        · show ((mm.set_reg id _).reg id).bytes = _
          have hif : ¬ ((mm.reg id).type ≠ .AIPU_MEM_TYPE_DEV_RESERVED ∧
              ((mm.reg id).type = .AIPU_MEM_TYPE_KERNEL ∨
                (mm.reg id).type = .AIPU_MEM_TYPE_CMA_DEFAULT ∨ use_dft = 1)) :=
            fun h => h.1 hty
          rw [reg_set_reg, if_neg hif]
        · show region_fresh ((mm.set_reg id _).reg id)
          rw [reg_set_reg]
          exact ⟨rfl, rfl, rfl, rfl⟩
      · rw [he]
        refine Or.inl ⟨hneM, ?_, rfl, ?_⟩
        · intro h
          rcases hf with hf | hf
          · rw [h.2.2.2.2.2.1] at hf
            cases hf
          · rw [h.2.2.2.2.2.2] at hf
            cases hf
        · show ((mm.set_reg id _).reg id).base_va = 0
          rw [reg_set_reg]
          exact hv
  · rw [if_neg hty]
    generalize hres0 : (if id = .AIPU_MEM_REGION_SRAM_ID then
        { no_resources with child_dev := true } else no_resources) = res0 at hs0 ⊢
    generalize hret1 : (if (mm.reg id).type = .AIPU_MEM_TYPE_DMA_RESERVED ∨
        (mm.reg id).type = .AIPU_MEM_TYPE_CMA_RESERVED then
          srv.of_reserved_mem_device_init_by_idx else (0 : Int)) = ret1
    by_cases c1 : ((mm.reg id).type = .AIPU_MEM_TYPE_DMA_RESERVED ∨
        (mm.reg id).type = .AIPU_MEM_TYPE_CMA_RESERVED) ∧ ret1 ≠ 0
    · rw [if_pos c1, init_region_err_spec _ _ _ _ hs0]
      refine Or.inl ⟨c1.2, ?_, rfl, ?_⟩
      · intro h
        apply c1.2
        rw [← hret1, if_pos c1.1]
        exact h.2.2.1
      · show ((mm.set_reg id _).reg id).base_va = 0
        rw [reg_set_reg]
    rw [if_neg c1]
    have hret1z : ret1 = 0 := by
      by_cases hr : (mm.reg id).type = .AIPU_MEM_TYPE_DMA_RESERVED ∨
          (mm.reg id).type = .AIPU_MEM_TYPE_CMA_RESERVED
      · by_contra hne
        exact c1 ⟨hr, hne⟩
      · rw [← hret1, if_neg hr]
    subst hret1z
    generalize hres1 : (if (mm.reg id).type = .AIPU_MEM_TYPE_DMA_RESERVED ∨
        (mm.reg id).type = .AIPU_MEM_TYPE_CMA_RESERVED then
          { res0 with reserved_mem := true } else res0) = res1
    have hs1 : ledger_sound id (mm.reg id) res1 := by
      rw [← hres1]
      unfold ledger_sound at hs0 ⊢
      split
      · rename_i hr
        exact ⟨hs0.1, hs0.2.1, hs0.2.2.1, hs0.2.2.2.1, fun _ => hr⟩
      · exact hs0
    generalize hret2 : (if mm.has_iommu = true ∧
        ((mm.reg id).type = .AIPU_MEM_TYPE_CMA_RESERVED ∨
          (mm.reg id).type = .AIPU_MEM_TYPE_KERNEL) then
          srv.dma_set_coherent_mask else (0 : Int)) = ret2
    by_cases c2 : (mm.has_iommu = true ∧
        ((mm.reg id).type = .AIPU_MEM_TYPE_CMA_RESERVED ∨
          (mm.reg id).type = .AIPU_MEM_TYPE_KERNEL)) ∧ ret2 ≠ 0
    · rw [if_pos c2, init_region_err_spec _ _ _ _ hs1]
      refine Or.inl ⟨c2.2, ?_, rfl, ?_⟩
      · intro h
        apply c2.2
        rw [← hret2, if_pos c2.1]
        exact h.2.2.2.1
      · show ((mm.set_reg id _).reg id).base_va = 0
        rw [reg_set_reg]
    rw [if_neg c2]
    have hret2z : ret2 = 0 := by
      by_cases hr : mm.has_iommu = true ∧
          ((mm.reg id).type = .AIPU_MEM_TYPE_CMA_RESERVED ∨
            (mm.reg id).type = .AIPU_MEM_TYPE_KERNEL)
      · by_contra hne
        exact c2 ⟨hr, hne⟩
      · rw [← hret2, if_neg hr]
    subst hret2z
    generalize hreg2 : ((if (mm.reg id).type = .AIPU_MEM_TYPE_KERNEL ∨
        (mm.reg id).type = .AIPU_MEM_TYPE_CMA_DEFAULT ∨ use_dft = 1 then
          { base_iova := (mm.reg id).base_iova, base_pa := (mm.reg id).base_pa,
            base_va := (mm.reg id).base_va, bytes := dft_size, base_pfn := (mm.reg id).base_pfn,
            type := (mm.reg id).type, pages := (mm.reg id).pages, bitmap := (mm.reg id).bitmap,
            count := (mm.reg id).count,
            attrs :=
              if mm.has_iommu = true ∧ (mm.reg id).type = .AIPU_MEM_TYPE_CMA_RESERVED then
                DMA_ATTR_FORCE_CONTIGUOUS
              else 0 }
        else
          { base_iova := (mm.reg id).base_iova, base_pa := (mm.reg id).base_pa,
            base_va := (mm.reg id).base_va, bytes := (mm.reg id).bytes,
            base_pfn := (mm.reg id).base_pfn,
            type := (mm.reg id).type, pages := (mm.reg id).pages, bitmap := (mm.reg id).bitmap,
            count := (mm.reg id).count,
            attrs :=
              if mm.has_iommu = true ∧ (mm.reg id).type = .AIPU_MEM_TYPE_CMA_RESERVED then
                DMA_ATTR_FORCE_CONTIGUOUS
              else 0 }) : aipu_mem_region) = reg2
    have h2 : reg2.type = (mm.reg id).type ∧ reg2.base_va = (mm.reg id).base_va ∧
        reg2.bytes =
          (if (mm.reg id).type ≠ .AIPU_MEM_TYPE_DEV_RESERVED ∧
              ((mm.reg id).type = .AIPU_MEM_TYPE_KERNEL ∨
                (mm.reg id).type = .AIPU_MEM_TYPE_CMA_DEFAULT ∨ use_dft = 1) then dft_size
           else (mm.reg id).bytes) := by
      rw [← hreg2]
      by_cases hd : (mm.reg id).type = .AIPU_MEM_TYPE_KERNEL ∨
          (mm.reg id).type = .AIPU_MEM_TYPE_CMA_DEFAULT ∨ use_dft = 1
      · have e : (if (mm.reg id).type ≠ .AIPU_MEM_TYPE_DEV_RESERVED ∧
            ((mm.reg id).type = .AIPU_MEM_TYPE_KERNEL ∨
              (mm.reg id).type = .AIPU_MEM_TYPE_CMA_DEFAULT ∨ use_dft = 1) then dft_size
            else (mm.reg id).bytes) = dft_size := if_pos ⟨hty, hd⟩
        rw [e, if_pos hd]
        exact ⟨rfl, rfl, rfl⟩
      · have e : (if (mm.reg id).type ≠ .AIPU_MEM_TYPE_DEV_RESERVED ∧
            ((mm.reg id).type = .AIPU_MEM_TYPE_KERNEL ∨
              (mm.reg id).type = .AIPU_MEM_TYPE_CMA_DEFAULT ∨ use_dft = 1) then dft_size
            else (mm.reg id).bytes) = (mm.reg id).bytes := if_neg (fun h => hd h.2)
        rw [e, if_neg hd]
        exact ⟨rfl, rfl, rfl⟩
    by_cases c3 : srv.dma_alloc_va = 0
    · rw [if_pos c3,
        init_region_err_spec _ _ _ _ (ledger_sound_congr id _ reg2 res1 h2.1 h2.2.1 hs1)]
      refine Or.inr (Or.inl ⟨hty, c3, rfl, rfl, ?_⟩)
      show ((mm.set_reg id _).reg id).base_va = 0
      rw [reg_set_reg]
    rw [if_neg c3]
    have hs2 : ledger_sound id
        { reg2 with base_va := srv.dma_alloc_va, base_iova := srv.dma_alloc_iova }
        { res1 with dma_buffer := true } := by
      unfold ledger_sound at hs1 ⊢
      refine ⟨hs1.1, hs1.2.1, fun h => ?_, fun _ => ?_, fun h => ?_⟩
      · have := (hs1.2.2.1 h).1
        exact absurd this hty
      · exact ⟨by show reg2.type ≠ _; rw [h2.1]; exact hty, c3⟩
      · show reg2.type = _ ∨ reg2.type = _
        rw [h2.1]
        exact hs1.2.2.2.2 h
    rcases init_region_pages_spec id srv _ _ hs2 with ⟨_, _, he⟩ | ⟨hf, reg1, he, hv⟩
    · rw [he]
      refine Or.inr (Or.inr ⟨rfl, ?_, ?_, ?_, ?_, ?_⟩)
      · rw [← hres1, ← hres0]
        unfold ledger_full no_resources
        cases id <;> split <;> simp_all
      · show ((mm.set_reg id _).reg id).base_va ≠ 0
        rw [reg_set_reg]
        exact c3
      · show ((mm.set_reg id _).reg id).type = _
        rw [reg_set_reg]
        exact h2.1
      · show ((mm.set_reg id _).reg id).bytes = _
        rw [reg_set_reg]
        exact h2.2.2
      · show region_fresh ((mm.set_reg id _).reg id)
        rw [reg_set_reg]
        exact ⟨rfl, rfl, rfl, rfl⟩
    · rw [he]
      refine Or.inl ⟨hneM, ?_, rfl, ?_⟩
      · intro h
        rcases hf with hf | hf
        · rw [h.2.2.2.2.2.1] at hf
          cases hf
        · rw [h.2.2.2.2.2.2] at hf
          cases hf
      · show ((mm.set_reg id _).reg id).base_va = 0
        rw [reg_set_reg]
        exact hv

/-- One round of the `memory-region` loop changes only type, base address
and byte length of the region, and never yields the kernel or default CMA
type. -/
theorem memory_region_shape (cma : Bool) (np : Option of_memory_region)
    (reg reg1 : aipu_mem_region)
    (h : aipu_init_mm_memory_region cma np reg = some reg1) :
    reg1.base_va = reg.base_va ∧ reg1.base_iova = reg.base_iova ∧ reg1.count = reg.count ∧
    reg1.pages = reg.pages ∧ reg1.bitmap = reg.bitmap ∧ reg1.base_pfn = reg.base_pfn ∧
    reg1.bytes = (if np = none then reg.bytes else declared_bytes np) ∧
    reg1.base_pa = (if np = none then reg.base_pa else declared_base np) ∧
    (reg.type = .AIPU_MEM_TYPE_NONE →
      reg1.type ≠ .AIPU_MEM_TYPE_CMA_DEFAULT ∧ reg1.type ≠ .AIPU_MEM_TYPE_KERNEL) := by
  unfold aipu_init_mm_memory_region at h
  cases np with
  | none =>
    simp only [Option.some.injEq] at h
    subst h
    refine ⟨rfl, rfl, rfl, rfl, rfl, rfl, rfl, rfl, fun ht => ?_⟩
    rw [ht]
    exact ⟨by decide, by decide⟩
  | some n =>
    cases hr : n.resource with
    | none =>
      simp only [hr] at h
      cases h
    | some r =>
      simp only [hr, Option.some.injEq] at h
      subst h
      refine ⟨?_, ?_, ?_, ?_, ?_, ?_, ?_, ?_, fun ht => ?_⟩
      · dsimp only; split_ifs <;> rfl
      · dsimp only; split_ifs <;> rfl
      · dsimp only; split_ifs <;> rfl
      · dsimp only; split_ifs <;> rfl
      · dsimp only; split_ifs <;> rfl
      · dsimp only; split_ifs <;> rfl
      · simp [declared_bytes, hr]
      · simp [declared_base, hr]
      · dsimp only
        split_ifs <;> simp [ht]

/-- What `aipu_init_mm` has put in the manager when it reaches region
set-up, or returns before: the version, the limit `0xC0000000`, an open gate
and an empty disable list; no region has backing store or page tables yet
and the SRAM region is neither of the kernel nor of the default CMA type. -/
theorem probe_shape (version : Int) (env : init_env) :
    (aipu_init_mm_probe version env).2.version = version ∧
    (aipu_init_mm_probe version env).2.limit = 0xC0000000 ∧
    (aipu_init_mm_probe version env).2.sram_disable = 0 ∧
    (aipu_init_mm_probe version env).2.sram_disable_head = [] ∧
    (∀ id, ((aipu_init_mm_probe version env).2.reg id).base_va = 0) ∧
    (aipu_init_mm_probe version env).2.reg_sram.type ≠ .AIPU_MEM_TYPE_CMA_DEFAULT ∧
    (aipu_init_mm_probe version env).2.reg_sram.type ≠ .AIPU_MEM_TYPE_KERNEL := by
  unfold aipu_init_mm_probe
  dsimp only
  by_cases hh : env.head_ok = false
  · rw [if_pos hh]
    exact ⟨rfl, rfl, rfl, rfl, fun id => by cases id <;> rfl,
      by show aipu_mem_type.AIPU_MEM_TYPE_NONE ≠ _; decide,
      by show aipu_mem_type.AIPU_MEM_TYPE_NONE ≠ _; decide⟩
  rw [if_neg hh]
  cases hd : aipu_init_mm_memory_region env.CONFIG_CMA env.memory_region_dram
      (mm_zeroed version).reg_dram with
  | none =>
    exact ⟨rfl, rfl, rfl, rfl, fun id => by cases id <;> rfl,
      by show aipu_mem_type.AIPU_MEM_TYPE_NONE ≠ _; decide,
      by show aipu_mem_type.AIPU_MEM_TYPE_NONE ≠ _; decide⟩
  | some dram =>
    have sd := memory_region_shape _ _ _ _ hd
    dsimp only
    cases hs : aipu_init_mm_memory_region env.CONFIG_CMA env.memory_region_sram
        (mm_zeroed version).reg_sram with
    | none =>
      refine ⟨rfl, rfl, rfl, rfl, fun id => ?_,
        by show aipu_mem_type.AIPU_MEM_TYPE_NONE ≠ _; decide,
        by show aipu_mem_type.AIPU_MEM_TYPE_NONE ≠ _; decide⟩
      cases id
      · exact sd.1
      · rfl
    | some sram =>
      have ss := memory_region_shape _ _ _ _ hs
      dsimp only
      split_ifs <;>
        refine ⟨rfl, rfl, rfl, rfl, fun id => ?_, (ss.2.2.2.2.2.2.2.2 rfl).1,
          (ss.2.2.2.2.2.2.2.2 rfl).2⟩ <;>
        cases id <;> first | exact sd.1 | exact ss.1

/-- The set-up of one region changes at most that region of the manager. -/
theorem init_region_frame (mm : aipu_memory_manager) (id : aipu_mem_region_id)
    (use_dft dft_size : Nat) (srv : region_services) (res : region_resources) :
    ∃ reg, (aipu_mm_init_mem_region mm id use_dft dft_size srv res).2.1 = mm.set_reg id reg := by
  have hself : mm = mm.set_reg id (mm.reg id) := by cases id <;> rfl
  unfold aipu_mm_init_mem_region
  dsimp only
  by_cases hskip : (mm.reg id).bytes = 0 ∧ (mm.reg id).type ≠ .AIPU_MEM_TYPE_CMA_DEFAULT ∧
      (mm.reg id).type ≠ .AIPU_MEM_TYPE_KERNEL
  · rw [if_pos hskip]
    exact ⟨mm.reg id, hself⟩
  rw [if_neg hskip]
  by_cases hdev : id = .AIPU_MEM_REGION_SRAM_ID ∧ aipu_mm_create_child_sramdev srv = 0
  · rw [if_pos hdev]
    exact ⟨mm.reg id, hself⟩
  rw [if_neg hdev]
  exact ⟨_, rfl⟩

/-- A set-up that returns an error leaves nothing in the ledger and no
backing store in the region. -/
theorem init_region_error_ledger (mm : aipu_memory_manager) (id : aipu_mem_region_id)
    (use_dft dft_size : Nat) (srv : region_services) (hva : (mm.reg id).base_va = 0)
    (h : (aipu_mm_init_mem_region mm id use_dft dft_size srv no_resources).1 ≠ 0) :
    (aipu_mm_init_mem_region mm id use_dft dft_size srv no_resources).2.2 = no_resources ∧
    ((aipu_mm_init_mem_region mm id use_dft dft_size srv no_resources).2.1.reg id).base_va =
      0 := by
  rcases init_region_cases mm id use_dft dft_size srv hva with
    ⟨_, e⟩ | ⟨_, ⟨_, _, e⟩ | ⟨_, ⟨_, _, e⟩ | ⟨_, ⟨_, _, e1, e2⟩ | ⟨_, _, e, _⟩ | ⟨e, _⟩⟩⟩⟩
  · rw [e] at h
    exact absurd rfl h
  · rw [e]
    exact ⟨rfl, hva⟩
  · rw [e]
    refine ⟨rfl, ?_⟩
    show ((mm.set_reg id _).reg id).base_va = 0
    rw [reg_set_reg]
  · exact ⟨e1, e2⟩
  · exact absurd e h
  · exact absurd e h

/-- A set-up that returns `0` has either acquired nothing and left the
region without backing store, or holds the full ledger of the region's type
with backing store and, when the default size is not zero, a non-zero byte
length. -/
theorem init_region_ok_ledger (mm : aipu_memory_manager) (id : aipu_mem_region_id)
    (use_dft dft_size : Nat) (srv : region_services) (hva : (mm.reg id).base_va = 0)
    (hsize : dft_size ≠ 0)
    (h : (aipu_mm_init_mem_region mm id use_dft dft_size srv no_resources).1 = 0) :
    ((aipu_mm_init_mem_region mm id use_dft dft_size srv no_resources).2.2 = no_resources ∧
      ((aipu_mm_init_mem_region mm id use_dft dft_size srv no_resources).2.1.reg id).base_va =
        0) ∨
    ((aipu_mm_init_mem_region mm id use_dft dft_size srv no_resources).2.2 =
        ledger_full id
          ((aipu_mm_init_mem_region mm id use_dft dft_size srv no_resources).2.1.reg id).type ∧
      ((aipu_mm_init_mem_region mm id use_dft dft_size srv no_resources).2.1.reg id).base_va ≠
        0 ∧
      ((aipu_mm_init_mem_region mm id use_dft dft_size srv no_resources).2.1.reg id).bytes ≠
        0) := by
  have hneD : (-ENODEV : Int) ≠ 0 := by decide
  have hneI : (-EINVAL : Int) ≠ 0 := by decide
  rcases init_region_cases mm id use_dft dft_size srv hva with
    ⟨_, e⟩ | ⟨hskip, ⟨_, _, e⟩ | ⟨_, ⟨_, _, e⟩ | ⟨_, ⟨e, _⟩ | ⟨_, _, _, e1, e2⟩ |
      ⟨_, e1, e2, e3, e4, _⟩⟩⟩⟩
  · rw [e]
    exact Or.inl ⟨rfl, hva⟩
  · rw [e] at h
    exact absurd h hneD
  · rw [e] at h
    exact absurd h hneI
  · exact absurd h e
  · exact Or.inl ⟨e1, e2⟩
  · refine Or.inr ⟨by rw [e1, e3], e2, ?_⟩
    rw [e4]
    split
    · exact hsize
    · rename_i hc
      intro hb
      apply hskip
      refine ⟨hb, fun h1 => hc ⟨?_, Or.inr (Or.inl h1)⟩, fun h1 => hc ⟨?_, Or.inl h1⟩⟩
      · rw [h1]; decide
      · rw [h1]; decide

/-- Tearing the DRAM region down gives back whatever a set-up that returned
`0` had acquired, and leaves the region without backing store and, if it had
any, without bytes. The SRAM region is not touched. -/
theorem deinit_dram_release (mm : aipu_memory_manager) (res : region_resources)
    (h : (res = no_resources ∧ mm.reg_dram.base_va = 0) ∨
      (res = ledger_full .AIPU_MEM_REGION_DRAM_ID mm.reg_dram.type ∧
        mm.reg_dram.base_va ≠ 0 ∧ mm.reg_dram.bytes ≠ 0)) :
    (aipu_mm_deinit_mem_region mm .AIPU_MEM_REGION_DRAM_ID res).2 = no_resources ∧
    (aipu_mm_deinit_mem_region mm .AIPU_MEM_REGION_DRAM_ID res).1.reg_dram.base_va = 0 ∧
    (mm.reg_dram.base_va ≠ 0 →
      (aipu_mm_deinit_mem_region mm .AIPU_MEM_REGION_DRAM_ID res).1.reg_dram.bytes = 0) ∧
    (aipu_mm_deinit_mem_region mm .AIPU_MEM_REGION_DRAM_ID res).1.reg_sram = mm.reg_sram := by
  unfold aipu_mm_deinit_mem_region
  dsimp only
  rcases h with ⟨h1, h2⟩ | ⟨h1, h2, h3⟩
  · have hc : (mm.reg .AIPU_MEM_REGION_DRAM_ID).bytes = 0 ∨
        (mm.reg .AIPU_MEM_REGION_DRAM_ID).base_va = 0 := Or.inr h2
    rw [if_pos hc]
    subst h1
    exact ⟨by simp [no_resources], h2, fun h => absurd h2 h, rfl⟩
  · have hc : ¬ ((mm.reg .AIPU_MEM_REGION_DRAM_ID).bytes = 0 ∨
        (mm.reg .AIPU_MEM_REGION_DRAM_ID).base_va = 0) := by
      rintro (h | h)
      · exact h3 h
      · exact h2 h
    rw [if_neg hc]
    subst h1
    refine ⟨?_, rfl, fun _ => rfl, rfl⟩
    show _ = no_resources
    have ht : (mm.reg .AIPU_MEM_REGION_DRAM_ID).type = mm.reg_dram.type := rfl
    rw [ht]
    unfold ledger_full no_resources
    cases mm.reg_dram.type <;> simp

/-- A DRAM set-up that returns an error is fatal: `aipu_init_mm` returns the
same error and neither region holds anything. -/
theorem init_dram_error_fatal (version : Int) (env : init_env)
    (hprobe : (aipu_init_mm_probe version env).1 = 0)
    (hdram : (aipu_mm_init_mem_region (aipu_init_mm_probe version env).2
      .AIPU_MEM_REGION_DRAM_ID env.AIPU_CONFIG_USE_DRAM_DEFAULT_SIZE
      env.AIPU_CONFIG_DRAM_DEFAULT_SIZE env.dram no_resources).1 ≠ 0) :
    (aipu_init_mm version env).1 =
      (aipu_mm_init_mem_region (aipu_init_mm_probe version env).2
        .AIPU_MEM_REGION_DRAM_ID env.AIPU_CONFIG_USE_DRAM_DEFAULT_SIZE
        env.AIPU_CONFIG_DRAM_DEFAULT_SIZE env.dram no_resources).1 ∧
    (aipu_init_mm version env).2.2 = { dram := no_resources, sram := no_resources } := by
  have hp : ¬ (aipu_init_mm_probe version env).1 ≠ 0 := fun h => h hprobe
  have hl := (init_region_error_ledger _ _ _ _ _
    ((probe_shape version env).2.2.2.2.1 .AIPU_MEM_REGION_DRAM_ID) hdram).1
  unfold aipu_init_mm
  dsimp only
  rw [if_neg hp, if_pos hdram]
  exact ⟨rfl, by rw [hl]⟩

/-- C21, failing input. The device tree declares 4 pages of DMA reserved
DRAM and no SRAM, and `dma_alloc_attrs` returns `NULL` for the DRAM region.
The preparation reaches region set-up, yet `aipu_init_mm` returns `0`: the
DRAM region is left without backing store, page count `0` and no page
array, and the first allocation on the manager fails with `-ENOMEM`. -/
theorem dram_alloc_failure_unreported :
    (aipu_init_mm_probe 1 { env_board with
        memory_region_dram := some (node_dma 0x40000000 0x40003fff)
        memory_region_sram := none
        dram := { services_ok with dma_alloc_va := 0 } }).1 = 0 ∧
    (aipu_init_mm_probe 1 { env_board with
        memory_region_dram := some (node_dma 0x40000000 0x40003fff)
        memory_region_sram := none
        dram := { services_ok with dma_alloc_va := 0 } }).2.reg_dram.type =
      .AIPU_MEM_TYPE_DMA_RESERVED ∧
    (aipu_init_mm 1 { env_board with
        memory_region_dram := some (node_dma 0x40000000 0x40003fff)
        memory_region_sram := none
        dram := { services_ok with dma_alloc_va := 0 } }).1 = 0 ∧
    (aipu_init_mm 1 { env_board with
        memory_region_dram := some (node_dma 0x40000000 0x40003fff)
        memory_region_sram := none
        dram := { services_ok with dma_alloc_va := 0 } }).2.1.reg_dram =
      { no_region with
          base_pa := 0x40000000, bytes := 0x4000, type := .AIPU_MEM_TYPE_DMA_RESERVED } ∧
    (aipu_mm_alloc (aipu_init_mm 1 { env_board with
        memory_region_dram := some (node_dma 0x40000000 0x40003fff)
        memory_region_sram := none
        dram := { services_ok with dma_alloc_va := 0 } }).2.1 (mk_req 4096 1) 7 100).1 =
      -ENOMEM ∧
    (aipu_init_mm 1 { env_board with
        memory_region_dram := some (node_dma 0x40000000 0x40003fff)
        memory_region_sram := none }).1 = 0 ∧
    (aipu_init_mm 1 { env_board with
        memory_region_dram := some (node_dma 0x40000000 0x40003fff)
        memory_region_sram := none }).2.1.reg_dram.count = 4 := by
  decide

/-- C22 as amended. When region set-up is reached, the DRAM set-up returns
`0` and the SRAM set-up returns an error, `aipu_init_mm` returns that error
and tears the DRAM region down: neither region holds anything, the DRAM
region has no backing store, and its byte length is `0` if the DRAM set-up
had obtained a backing store (the tear-down returns at once for a region
without one). (The default DRAM size of `config.h` is taken to be
non-zero.) -/
theorem sram_failure_fatal (version : Int) (env : init_env)
    (hsize : env.AIPU_CONFIG_DRAM_DEFAULT_SIZE ≠ 0)
    (hprobe : (aipu_init_mm_probe version env).1 = 0)
    (hdram : (aipu_mm_init_mem_region (aipu_init_mm_probe version env).2
      .AIPU_MEM_REGION_DRAM_ID env.AIPU_CONFIG_USE_DRAM_DEFAULT_SIZE
      env.AIPU_CONFIG_DRAM_DEFAULT_SIZE env.dram no_resources).1 = 0)
    (hsram : (aipu_mm_init_mem_region
      (aipu_mm_init_mem_region (aipu_init_mm_probe version env).2
        .AIPU_MEM_REGION_DRAM_ID env.AIPU_CONFIG_USE_DRAM_DEFAULT_SIZE
        env.AIPU_CONFIG_DRAM_DEFAULT_SIZE env.dram no_resources).2.1
      .AIPU_MEM_REGION_SRAM_ID env.AIPU_CONFIG_USE_DRAM_DEFAULT_SIZE
      env.AIPU_CONFIG_DRAM_DEFAULT_SIZE env.sram no_resources).1 ≠ 0) :
    (aipu_init_mm version env).1 =
      (aipu_mm_init_mem_region
        (aipu_mm_init_mem_region (aipu_init_mm_probe version env).2
          .AIPU_MEM_REGION_DRAM_ID env.AIPU_CONFIG_USE_DRAM_DEFAULT_SIZE
          env.AIPU_CONFIG_DRAM_DEFAULT_SIZE env.dram no_resources).2.1
        .AIPU_MEM_REGION_SRAM_ID env.AIPU_CONFIG_USE_DRAM_DEFAULT_SIZE
        env.AIPU_CONFIG_DRAM_DEFAULT_SIZE env.sram no_resources).1 ∧
    (aipu_init_mm version env).1 ≠ 0 ∧
    (aipu_init_mm version env).2.2 = { dram := no_resources, sram := no_resources } ∧
    (aipu_init_mm version env).2.1.reg_dram.base_va = 0 ∧
    ((aipu_mm_init_mem_region (aipu_init_mm_probe version env).2
        .AIPU_MEM_REGION_DRAM_ID env.AIPU_CONFIG_USE_DRAM_DEFAULT_SIZE
        env.AIPU_CONFIG_DRAM_DEFAULT_SIZE env.dram no_resources).2.1.reg_dram.base_va ≠ 0 →
      (aipu_init_mm version env).2.1.reg_dram.bytes = 0) := by
  have hp : ¬ (aipu_init_mm_probe version env).1 ≠ 0 := fun h => h hprobe
  have hd : ¬ (aipu_mm_init_mem_region (aipu_init_mm_probe version env).2
      .AIPU_MEM_REGION_DRAM_ID env.AIPU_CONFIG_USE_DRAM_DEFAULT_SIZE
      env.AIPU_CONFIG_DRAM_DEFAULT_SIZE env.dram no_resources).1 ≠ 0 := fun h => h hdram
  have hshape := (probe_shape version env).2.2.2.2.1
  have hokd := init_region_ok_ledger _ _ _ _ _ (hshape .AIPU_MEM_REGION_DRAM_ID) hsize hdram
  obtain ⟨regd, hfd⟩ := init_region_frame (aipu_init_mm_probe version env).2
    .AIPU_MEM_REGION_DRAM_ID env.AIPU_CONFIG_USE_DRAM_DEFAULT_SIZE
    env.AIPU_CONFIG_DRAM_DEFAULT_SIZE env.dram no_resources
  unfold aipu_init_mm
  dsimp only
  rw [if_neg hp, if_neg hd, if_pos hsram]
  generalize aipu_mm_init_mem_region (aipu_init_mm_probe version env).2
      .AIPU_MEM_REGION_DRAM_ID env.AIPU_CONFIG_USE_DRAM_DEFAULT_SIZE
      env.AIPU_CONFIG_DRAM_DEFAULT_SIZE env.dram no_resources = d at *
  have hvas : (d.2.1.reg .AIPU_MEM_REGION_SRAM_ID).base_va = 0 := by
    rw [hfd]
    exact hshape .AIPU_MEM_REGION_SRAM_ID
  have hes := (init_region_error_ledger _ _ _ _ _ hvas hsram).1
  obtain ⟨regs, hfs⟩ := init_region_frame d.2.1 .AIPU_MEM_REGION_SRAM_ID
    env.AIPU_CONFIG_USE_DRAM_DEFAULT_SIZE env.AIPU_CONFIG_DRAM_DEFAULT_SIZE env.sram
    no_resources
  generalize aipu_mm_init_mem_region d.2.1 .AIPU_MEM_REGION_SRAM_ID
      env.AIPU_CONFIG_USE_DRAM_DEFAULT_SIZE env.AIPU_CONFIG_DRAM_DEFAULT_SIZE env.sram
      no_resources = s at *
  have hsd : s.2.1.reg_dram = d.2.1.reg_dram := by
    rw [hfs]
    rfl
  have hrel := deinit_dram_release s.2.1 d.2.2 (by
    rw [hsd]
    exact hokd)
  refine ⟨rfl, hsram, ?_, hrel.2.1, fun h => hrel.2.2.1 (by rw [hsd]; exact h)⟩
  show ({ dram := _, sram := _ } : held_resources) = _
  rw [hrel.1, hes]

/-- C22, example of the amended statement: on the board with native
reserved DRAM and SRAM, `memremap` of the SRAM region fails. The DRAM set-up
has returned `0`, the SRAM set-up returns `-EINVAL`, and so does
`aipu_init_mm`, with nothing held. -/
theorem sram_failure_fatal_witness :
    ((aipu_init_mm 1 { env_board with sram := { services_ok with memremap := 0 } }).1 =
      (aipu_mm_init_mem_region
        (aipu_mm_init_mem_region
          (aipu_init_mm_probe 1 { env_board with sram := { services_ok with memremap := 0 } }).2
          .AIPU_MEM_REGION_DRAM_ID 0 0x4000000 services_ok no_resources).2.1
        .AIPU_MEM_REGION_SRAM_ID 0 0x4000000 { services_ok with memremap := 0 }
        no_resources).1 ∧
      (aipu_init_mm 1 { env_board with sram := { services_ok with memremap := 0 } }).1 ≠ 0 ∧
      (aipu_init_mm 1 { env_board with sram := { services_ok with memremap := 0 } }).2.2 =
        { dram := no_resources, sram := no_resources }) ∧
    (aipu_init_mm 1 { env_board with sram := { services_ok with memremap := 0 } }).1 =
      -EINVAL :=
  ⟨⟨(sram_failure_fatal 1 { env_board with sram := { services_ok with memremap := 0 } }
        (by decide) (by decide) (by decide) (by decide)).1,
    (sram_failure_fatal 1 { env_board with sram := { services_ok with memremap := 0 } }
        (by decide) (by decide) (by decide) (by decide)).2.1,
    (sram_failure_fatal 1 { env_board with sram := { services_ok with memremap := 0 } }
        (by decide) (by decide) (by decide) (by decide)).2.2.1⟩,
   by decide⟩

/-- C22, counterexample to the claim as stated: on the board with native
reserved DRAM and SRAM the DRAM set-up succeeds (4 pages, fresh) and
`memremap` of the SRAM region fails. `aipu_init_mm` does not return success
but `-EINVAL`, and the DRAM region is torn down: no bytes, no backing
store. -/
theorem sram_failure_not_tolerated :
    (aipu_mm_init_mem_region
      (aipu_init_mm_probe 1 { env_board with sram := { services_ok with memremap := 0 } }).2
      .AIPU_MEM_REGION_DRAM_ID 0 0x4000000 services_ok no_resources).1 = 0 ∧
    (aipu_mm_init_mem_region
      (aipu_init_mm_probe 1 { env_board with sram := { services_ok with memremap := 0 } }).2
      .AIPU_MEM_REGION_DRAM_ID 0 0x4000000 services_ok no_resources).2.1.reg_dram = dram4 ∧
    (aipu_init_mm 1 { env_board with sram := { services_ok with memremap := 0 } }).1 =
      -EINVAL ∧
    (aipu_init_mm 1 { env_board with
      sram := { services_ok with memremap := 0 } }).2.1.reg_dram.bytes = 0 ∧
    (aipu_init_mm 1 { env_board with
      sram := { services_ok with memremap := 0 } }).2.1.reg_dram.base_va = 0 := by
  decide

/-- C23 as amended. For a region of non-zero length without backing store
whose device exists: when the region is native reserved, DMA reserved, or
CMA reserved without an IOMMU, and `upper > limit`, the set-up fails with
`-EINVAL` and acquires nothing; and when every service succeeds, the set-up
fails (and then with `-EINVAL`) if and only if the region is of one of these
types and `upper > limit`, so `upper = limit` is accepted and a CMA reserved
region behind an IOMMU is never rejected. The limit stored by `aipu_init_mm`
is `0xC0000000`. -/
theorem address_check (mm : aipu_memory_manager) (id : aipu_mem_region_id)
    (use_dft dft_size : Nat) (srv : region_services)
    (hva : (mm.reg id).base_va = 0) (hbytes : (mm.reg id).bytes ≠ 0)
    (hdev : id = .AIPU_MEM_REGION_SRAM_ID → aipu_mm_create_child_sramdev srv ≠ 0) :
    (range_checked mm (mm.reg id) → region_upper mm (mm.reg id) > mm.limit →
      (aipu_mm_init_mem_region mm id use_dft dft_size srv no_resources).1 = -EINVAL ∧
      (aipu_mm_init_mem_region mm id use_dft dft_size srv no_resources).2.2 = no_resources) ∧
    (services_succeed srv →
      ((aipu_mm_init_mem_region mm id use_dft dft_size srv no_resources).1 = -EINVAL ↔
        range_checked mm (mm.reg id) ∧ region_upper mm (mm.reg id) > mm.limit) ∧
      ((aipu_mm_init_mem_region mm id use_dft dft_size srv no_resources).1 ≠ 0 ↔
        range_checked mm (mm.reg id) ∧ region_upper mm (mm.reg id) > mm.limit)) ∧
    (∀ version env, (aipu_init_mm_probe version env).2.limit = 0xC0000000) := by
  have hneI : (-EINVAL : Int) ≠ 0 := by decide
  refine ⟨?_, ?_, fun version env => (probe_shape version env).2.1⟩
  · intro hr hu
    rcases init_region_cases mm id use_dft dft_size srv hva with
      ⟨hs, _⟩ | ⟨_, ⟨h1, h2, _⟩ | ⟨_, ⟨_, _, e⟩ | ⟨hc, _⟩⟩⟩
    · exact absurd hs.1 hbytes
    · exact absurd h2 (hdev h1)
    · rw [e]
      exact ⟨rfl, rfl⟩
    · exact absurd ⟨hr, hu⟩ hc
  · intro hsrv
    rcases init_region_cases mm id use_dft dft_size srv hva with
      ⟨hs, _⟩ | ⟨_, ⟨h1, h2, _⟩ | ⟨_, ⟨hr, hu, e⟩ | ⟨hc, ⟨_, hn, _⟩ | ⟨_, ha, _⟩ | ⟨e, _⟩⟩⟩⟩
    · exact absurd hs.1 hbytes
    · exact absurd h2 (hdev h1)
    · rw [e]
      exact ⟨⟨fun _ => ⟨hr, hu⟩, fun _ => rfl⟩, ⟨fun _ => ⟨hr, hu⟩, fun _ => hneI⟩⟩
    · exact absurd hsrv hn
    · exact absurd ha hsrv.2.2.2.2.1
    · rw [e]
      exact ⟨⟨fun h => absurd h.symm hneI, fun h => absurd h hc⟩,
        ⟨fun h => absurd rfl h, fun h => absurd h hc⟩⟩

/-- C23, examples of the amended statement on native reserved DRAM without
IOMMU, every service succeeding: the region `[0x40000000, 0x40003fff]` has
`upper = 0x40004000` and is accepted; the region `[0xBFFFC000, 0xBFFFFFFF]`
has `upper = 0xC0000000 = limit` and is accepted; the region
`[0xBFFFD000, 0xC0000FFF]` has `upper = 0xC0001000` and is rejected with
`-EINVAL`. -/
theorem address_check_witness :
    ((aipu_mm_init_mem_region (aipu_init_mm_probe 1 env_board).2 .AIPU_MEM_REGION_DRAM_ID
          0 0x4000000 services_ok no_resources).1 = -EINVAL ↔
      range_checked (aipu_init_mm_probe 1 env_board).2
          ((aipu_init_mm_probe 1 env_board).2.reg .AIPU_MEM_REGION_DRAM_ID) ∧
        region_upper (aipu_init_mm_probe 1 env_board).2
          ((aipu_init_mm_probe 1 env_board).2.reg .AIPU_MEM_REGION_DRAM_ID) >
            (aipu_init_mm_probe 1 env_board).2.limit) ∧
    region_upper (aipu_init_mm_probe 1 env_board).2
      (aipu_init_mm_probe 1 env_board).2.reg_dram = 0x40004000 ∧
    (aipu_init_mm 1 env_board).1 = 0 ∧
    region_upper
      (aipu_init_mm_probe 1 { env_board with
        memory_region_dram := some (node_native 0xBFFFC000 0xBFFFFFFF) }).2
      (aipu_init_mm_probe 1 { env_board with
        memory_region_dram := some (node_native 0xBFFFC000 0xBFFFFFFF) }).2.reg_dram =
      0xC0000000 ∧
    (aipu_init_mm 1 { env_board with
      memory_region_dram := some (node_native 0xBFFFC000 0xBFFFFFFF) }).1 = 0 ∧
    (aipu_init_mm 1 { env_board with
      memory_region_dram := some (node_native 0xBFFFD000 0xC0000FFF) }).1 = -EINVAL :=
  ⟨((address_check (aipu_init_mm_probe 1 env_board).2 .AIPU_MEM_REGION_DRAM_ID 0 0x4000000
      services_ok (by decide) (by decide) (by decide)).2.1 (by decide)).1,
   by decide, by decide, by decide, by decide, by decide⟩

/-- C23, counterexample to the claim as stated. Behind an IOMMU, 4 pages of
CMA reserved DRAM at `0xD0000000` have `upper = 0xD0004000 > 0xC0000000`,
yet the set-up returns `0` and so does `aipu_init_mm`: the check is not made
for this type. And a native reserved region with `upper` below the limit
fails with the same `-EINVAL` when `memremap` fails. -/
theorem address_check_not_for_all_types :
    (aipu_init_mm_probe 1 { env_board with
        iommu_group := true
        memory_region_dram := some (node_cma 0xD0000000 0xD0003fff)
        memory_region_sram := none }).2.reg_dram.type = .AIPU_MEM_TYPE_CMA_RESERVED ∧
    region_upper
      (aipu_init_mm_probe 1 { env_board with
        iommu_group := true
        memory_region_dram := some (node_cma 0xD0000000 0xD0003fff)
        memory_region_sram := none }).2
      (aipu_init_mm_probe 1 { env_board with
        iommu_group := true
        memory_region_dram := some (node_cma 0xD0000000 0xD0003fff)
        memory_region_sram := none }).2.reg_dram = 0xD0004000 ∧
    (aipu_init_mm_probe 1 { env_board with
        iommu_group := true
        memory_region_dram := some (node_cma 0xD0000000 0xD0003fff)
        memory_region_sram := none }).2.limit = 0xC0000000 ∧
    (aipu_mm_init_mem_region
      (aipu_init_mm_probe 1 { env_board with
        iommu_group := true
        memory_region_dram := some (node_cma 0xD0000000 0xD0003fff)
        memory_region_sram := none }).2
      .AIPU_MEM_REGION_DRAM_ID 0 0x4000000 services_ok no_resources).1 = 0 ∧
    (aipu_init_mm 1 { env_board with
        iommu_group := true
        memory_region_dram := some (node_cma 0xD0000000 0xD0003fff)
        memory_region_sram := none }).1 = 0 ∧
    region_upper
      (aipu_init_mm_probe 1 { env_board with memory_region_sram := none }).2
      (aipu_init_mm_probe 1 { env_board with memory_region_sram := none }).2.reg_dram =
      0x40004000 ∧
    (aipu_mm_init_mem_region
      (aipu_init_mm_probe 1 { env_board with memory_region_sram := none }).2
      .AIPU_MEM_REGION_DRAM_ID 0 0x4000000 { services_ok with memremap := 0 }
      no_resources).1 = -EINVAL := by
  decide

/-- A `memory-region` node that is absent or whose resource can be read
passes the loop round. -/
theorem memory_region_some (cma : Bool) (np : Option of_memory_region) (reg : aipu_mem_region)
    (h : ∀ n, np = some n → n.resource ≠ none) :
    ∃ reg1, aipu_init_mm_memory_region cma np reg = some reg1 := by
  cases np with
  | none => exact ⟨_, rfl⟩
  | some n =>
    cases hr : n.resource with
    | none => exact absurd hr (h n rfl)
    | some r =>
      unfold aipu_init_mm_memory_region
      dsimp only
      rw [hr]
      exact ⟨_, rfl⟩

/-- A region declared with a non-zero length has a node whose resource can
be read. -/
theorem declared_bytes_readable (np : Option of_memory_region)
    (h : declared_bytes np ≠ 0) : np ≠ none ∧ ∀ n, np = some n → n.resource ≠ none := by
  cases np with
  | none => exact absurd rfl h
  | some n =>
    refine ⟨by simp, fun m hm hr => h ?_⟩
    cases hm
    simp [declared_bytes, hr]

/-- C24. Co-location soft degrade. Let the list head be allocated, the DRAM
node be absent or readable, and SRAM be declared with non-zero length. If no
IOMMU is usable (there is none, or DRAM is native or DMA reserved) and the
high 32 bits of the SRAM and DRAM base addresses differ, `aipu_init_mm`
reaches region set-up with the SRAM byte length zeroed, and its status is
that of the DRAM set-up alone. If an IOMMU is in use or the high 32 bits
agree, the SRAM byte length is the declared one. -/
theorem colocation_soft_degrade (version : Int) (env : init_env)
    (hhead : env.head_ok = true)
    (hdram : ∀ n, env.memory_region_dram = some n → n.resource ≠ none)
    (hlen : declared_bytes env.memory_region_sram ≠ 0) :
    (iommu_unusable (aipu_init_mm_probe version env).2 →
      declared_base env.memory_region_sram >>> 32 ≠
        declared_base env.memory_region_dram >>> 32 →
      (aipu_init_mm_probe version env).1 = 0 ∧
      (aipu_init_mm_probe version env).2.reg_sram.bytes = 0 ∧
      (aipu_init_mm version env).1 =
        (aipu_mm_init_mem_region (aipu_init_mm_probe version env).2
          .AIPU_MEM_REGION_DRAM_ID env.AIPU_CONFIG_USE_DRAM_DEFAULT_SIZE
          env.AIPU_CONFIG_DRAM_DEFAULT_SIZE env.dram no_resources).1) ∧
    ((¬ iommu_unusable (aipu_init_mm_probe version env).2 ∨
        declared_base env.memory_region_sram >>> 32 =
          declared_base env.memory_region_dram >>> 32) →
      (aipu_init_mm_probe version env).2.reg_sram.bytes =
        declared_bytes env.memory_region_sram) := by
  have hneI : (-EINVAL : Int) ≠ 0 := by decide
  obtain ⟨hsn, hsr⟩ := declared_bytes_readable _ hlen
  obtain ⟨dram, hd⟩ := memory_region_some env.CONFIG_CMA env.memory_region_dram
    (mm_zeroed version).reg_dram hdram
  obtain ⟨sram, hs⟩ := memory_region_some env.CONFIG_CMA env.memory_region_sram
    (mm_zeroed version).reg_sram hsr
  have sd := memory_region_shape _ _ _ _ hd
  have ss := memory_region_shape _ _ _ _ hs
  have hsb : sram.bytes = declared_bytes env.memory_region_sram := by
    rw [ss.2.2.2.2.2.2.1, if_neg hsn]
  have hsp : sram.base_pa = declared_base env.memory_region_sram := by
    rw [ss.2.2.2.2.2.2.2.1, if_neg hsn]
  have hdp : dram.base_pa = declared_base env.memory_region_dram := by
    rw [sd.2.2.2.2.2.2.2.1]
    split
    · rename_i hn
      rw [hn]
      rfl
    · rfl
  have hF : (iommu_unusable (aipu_init_mm_probe version env).2 →
        sram.base_pa >>> 32 ≠ dram.base_pa >>> 32 →
        (aipu_init_mm_probe version env).1 = 0 ∧
        (aipu_init_mm_probe version env).2.reg_sram.bytes = 0) ∧
      ((¬ iommu_unusable (aipu_init_mm_probe version env).2 ∨
          sram.base_pa >>> 32 = dram.base_pa >>> 32) →
        (aipu_init_mm_probe version env).2.reg_sram.bytes = sram.bytes) := by
    clear sd ss hsb hsp hdp hlen hsn hsr hdram hneI
    unfold aipu_init_mm_probe iommu_unusable
    dsimp only
    rw [if_neg (by rw [hhead]; decide), hd]
    dsimp only
    rw [hs]
    dsimp only
    by_cases hb : dram.bytes = 0 <;> by_cases hi : env.iommu_group = true <;>
      simp only [hb, hi, if_true, if_false] <;> split_ifs <;> simp_all <;> tauto
  have hsty := (probe_shape version env).2.2.2.2.2
  refine ⟨fun hu hne => ?_, fun h => ?_⟩
  · obtain ⟨h1, h2⟩ := hF.1 hu (by rw [hsp, hdp]; exact hne)
    refine ⟨h1, h2, ?_⟩
    have hp : ¬ (aipu_init_mm_probe version env).1 ≠ 0 := fun h => h h1
    obtain ⟨regd, hfd⟩ := init_region_frame (aipu_init_mm_probe version env).2
      .AIPU_MEM_REGION_DRAM_ID env.AIPU_CONFIG_USE_DRAM_DEFAULT_SIZE
      env.AIPU_CONFIG_DRAM_DEFAULT_SIZE env.dram no_resources
    unfold aipu_init_mm
    dsimp only
    rw [if_neg hp]
    generalize aipu_mm_init_mem_region (aipu_init_mm_probe version env).2
      .AIPU_MEM_REGION_DRAM_ID env.AIPU_CONFIG_USE_DRAM_DEFAULT_SIZE
      env.AIPU_CONFIG_DRAM_DEFAULT_SIZE env.dram no_resources = d at hfd ⊢
    by_cases hd0 : d.1 ≠ 0
    · rw [if_pos hd0]
    · rw [if_neg hd0]
      have hskip : (d.2.1.reg .AIPU_MEM_REGION_SRAM_ID).bytes = 0 ∧
          (d.2.1.reg .AIPU_MEM_REGION_SRAM_ID).type ≠ .AIPU_MEM_TYPE_CMA_DEFAULT ∧
          (d.2.1.reg .AIPU_MEM_REGION_SRAM_ID).type ≠ .AIPU_MEM_TYPE_KERNEL := by
        rw [hfd]
        exact ⟨h2, hsty.1, hsty.2⟩
      have hs0 : aipu_mm_init_mem_region d.2.1 .AIPU_MEM_REGION_SRAM_ID
          env.AIPU_CONFIG_USE_DRAM_DEFAULT_SIZE env.AIPU_CONFIG_DRAM_DEFAULT_SIZE env.sram
          no_resources = (0, d.2.1, no_resources) := by
        unfold aipu_mm_init_mem_region
        dsimp only
        rw [if_pos hskip]
      rw [hs0]
      have hz : ¬ ((0 : Int) ≠ 0) := fun h => h rfl
      rw [if_neg hz]
      exact (not_not.mp hd0).symm
  · rw [← hsb]
    apply hF.2
    rcases h with h | h
    · exact Or.inl h
    · right
      rw [hsp, hdp]
      exact h

/-- C24, examples. Without IOMMU, with DRAM at `0x40000000` and 2 pages of
SRAM declared at `0x100100000` (above 4 GB), region set-up is reached with
the SRAM length zeroed and `aipu_init_mm` succeeds; with the SRAM at
`0x100000` the declared length `0x2000` is kept. -/
theorem colocation_soft_degrade_witness :
    ((aipu_init_mm_probe 1 { env_board with
        memory_region_sram := some (node_native 0x100100000 0x100101fff) }).1 = 0 ∧
      (aipu_init_mm_probe 1 { env_board with
        memory_region_sram := some (node_native 0x100100000 0x100101fff) }).2.reg_sram.bytes =
        0 ∧
      (aipu_init_mm 1 { env_board with
        memory_region_sram := some (node_native 0x100100000 0x100101fff) }).1 =
        (aipu_mm_init_mem_region
          (aipu_init_mm_probe 1 { env_board with
            memory_region_sram := some (node_native 0x100100000 0x100101fff) }).2
          .AIPU_MEM_REGION_DRAM_ID 0 0x4000000 services_ok no_resources).1) ∧
    (aipu_init_mm_probe 1 env_board).2.reg_sram.bytes =
      declared_bytes env_board.memory_region_sram ∧
    declared_bytes env_board.memory_region_sram = 0x2000 ∧
    (aipu_init_mm 1 { env_board with
      memory_region_sram := some (node_native 0x100100000 0x100101fff) }).1 = 0 ∧
    (aipu_init_mm 1 { env_board with
      memory_region_sram := some (node_native 0x100100000 0x100101fff) }).2.1.reg_sram.count =
      0 :=
  ⟨(colocation_soft_degrade 1
      { env_board with memory_region_sram := some (node_native 0x100100000 0x100101fff) }
      (by decide) (by decide) (by decide)).1 (by decide) (by decide),
   (colocation_soft_degrade 1 env_board (by decide) (by decide) (by decide)).2
      (Or.inr (by decide)),
   by decide, by decide, by decide⟩

/-! ### Lock discipline -/

/-- Accesses without lock calls made while the mutex is held do not affect
the discipline of what follows. -/
theorem disciplined_append (es rest : List mm_access) (h : lock_free es = true) :
    lock_disciplined_from true (es ++ rest) = lock_disciplined_from true rest := by
  induction es with
  | nil => rfl
  | cons e es ih =>
    have h1 : lock_free es = true := by
      unfold lock_free at h ⊢
      rw [List.all_cons] at h
      exact (Bool.and_eq_true _ _ ▸ h).2
    cases e
    · exact absurd h (by simp [lock_free])
    · exact absurd h (by simp [lock_free])
    all_goals
      show lock_disciplined_from true (_ :: (es ++ rest)) = _
      simp only [lock_disciplined_from, Bool.true_and]
      exact ih h1

theorem lock_free_append (a b : List mm_access) (ha : lock_free a = true)
    (hb : lock_free b = true) : lock_free (a ++ b) = true := by
  unfold lock_free at ha hb ⊢
  rw [List.all_append, ha, hb]
  rfl

theorem alloc_in_region_accesses_lock_free (buf_req : aipu_buf_request)
    (reg : aipu_mem_region) (filp : Nat) (tid : Int) :
    lock_free (aipu_mm_alloc_in_region_no_lock_accesses buf_req reg filp tid) = true := by
  unfold aipu_mm_alloc_in_region_no_lock_accesses
  split_ifs <;> rfl

theorem free_in_region_accesses_lock_free (buf : aipu_buf_desc) (reg : aipu_mem_region)
    (filp : Nat) :
    lock_free (aipu_mm_free_in_region_no_lock_accesses buf reg filp) = true := by
  unfold aipu_mm_free_in_region_no_lock_accesses
  split_ifs <;> rfl

theorem free_filp_loop_accesses_lock_free (filp : Nat) (is : List Nat) :
    ∀ reg, lock_free (aipu_mm_free_filp_loop_accesses filp reg is) = true := by
  induction is with
  | nil => intro reg; rfl
  | cons i is ih =>
    intro reg
    unfold aipu_mm_free_filp_loop_accesses
    apply lock_free_append _ _ _ (ih _)
    split_ifs <;> rfl

theorem free_filp_in_region_disciplined (reg : aipu_mem_region) (filp : Nat) (rest : List mm_access) :
    lock_disciplined_from false (aipu_mm_free_filp_in_region_accesses reg filp ++ rest) =
      lock_disciplined_from false rest := by
  unfold aipu_mm_free_filp_in_region_accesses
  split_ifs
  · rfl
  · show lock_disciplined_from false
      (.mutex_lock :: ((aipu_mm_free_filp_loop_accesses filp reg (List.range reg.count) ++
        [.layout, .mutex_unlock]) ++ rest)) = _
    simp only [lock_disciplined_from, Bool.not_false, Bool.true_and]
    rw [List.append_assoc, disciplined_append _ _ (free_filp_loop_accesses_lock_free _ _ _)]
    simp [lock_disciplined_from]

/-- Every operation other than `aipu_mm_mmap_buf` keeps the lock discipline
on every input: it touches bitmaps, page entries and the SRAM gate only
between `mutex_lock` and `mutex_unlock`, and returns with the mutex free. -/
theorem locked_operations (mm : aipu_memory_manager) (filp : Nat) :
    (∀ buf_req tid, lock_disciplined (aipu_mm_alloc_accesses mm buf_req filp tid) = true) ∧
    (∀ buf, lock_disciplined (aipu_mm_free_accesses mm buf filp) = true) ∧
    lock_disciplined (aipu_mm_free_buffers_accesses mm filp) = true ∧
    (∀ kzalloc_ok,
      lock_disciplined (aipu_mm_disable_sram_allocation_accesses mm filp kzalloc_ok) = true) ∧
    lock_disciplined (aipu_mm_enable_sram_allocation_accesses mm) = true := by
  refine ⟨fun buf_req tid => ?_, fun buf => ?_, ?_, fun kzalloc_ok => ?_, ?_⟩
  · unfold lock_disciplined aipu_mm_alloc_accesses
    by_cases hf : filp = 0
    · rw [if_pos hf]
      rfl
    rw [if_neg hf]
    by_cases hv : buf_req.bytes = 0 ∨ is_power_of_2 buf_req.align_in_page = false
    · rw [if_pos hv]
      rfl
    rw [if_neg hv]
    have hG : lock_free (if mm.reg_sram.bytes ≠ 0 then [mm_access.gate] else []) = true := by
      split_ifs <;> rfl
    have hP : lock_free
        (if AIPU_CONFIG_ENABLE_SRAM = 1 ∧ mm.reg_sram.bytes ≠ 0 ∧ mm.sram_disable = 0 ∧
            mm.sram_dft_dtype = buf_req.data_type then
          let s := aipu_mm_alloc_in_region_no_lock buf_req mm.reg_sram filp tid
          aipu_mm_alloc_in_region_no_lock_accesses buf_req mm.reg_sram filp tid ++
          (if (s.1 ≠ 0 ∧ AIPU_CONFIG_ENABLE_FALL_BACK_TO_DDR = 0) ∨ s.1 = 0 then []
           else aipu_mm_alloc_in_region_no_lock_accesses s.2.1 mm.reg_dram filp tid)
         else aipu_mm_alloc_in_region_no_lock_accesses buf_req mm.reg_dram filp tid) = true := by
      dsimp only
      split_ifs
      · rw [List.append_nil]
        exact alloc_in_region_accesses_lock_free _ _ _ _
      · exact lock_free_append _ _ (alloc_in_region_accesses_lock_free _ _ _ _)
          (alloc_in_region_accesses_lock_free _ _ _ _)
      · exact alloc_in_region_accesses_lock_free _ _ _ _
    generalize (if mm.reg_sram.bytes ≠ 0 then [mm_access.gate] else []) = G at hG ⊢
    generalize (if AIPU_CONFIG_ENABLE_SRAM = 1 ∧ mm.reg_sram.bytes ≠ 0 ∧ mm.sram_disable = 0 ∧
            mm.sram_dft_dtype = buf_req.data_type then
          let s := aipu_mm_alloc_in_region_no_lock buf_req mm.reg_sram filp tid
          aipu_mm_alloc_in_region_no_lock_accesses buf_req mm.reg_sram filp tid ++
          (if (s.1 ≠ 0 ∧ AIPU_CONFIG_ENABLE_FALL_BACK_TO_DDR = 0) ∨ s.1 = 0 then []
           else aipu_mm_alloc_in_region_no_lock_accesses s.2.1 mm.reg_dram filp tid)
         else aipu_mm_alloc_in_region_no_lock_accesses buf_req mm.reg_dram filp tid) = P
      at hP ⊢
    rw [List.append_assoc, List.append_assoc]
    show lock_disciplined_from false
      (.layout :: .mutex_lock :: .layout :: (G ++ (P ++ [.mutex_unlock]))) = true
    simp only [lock_disciplined_from, Bool.not_false, Bool.true_and]
    rw [disciplined_append _ _ hG, disciplined_append _ _ hP]
    rfl
  · unfold lock_disciplined aipu_mm_free_accesses
    split_ifs
    · rfl
    · split
      · rfl
      · rename_i id _
        rw [List.append_assoc]
        show lock_disciplined_from false
          (.layout :: .mutex_lock ::
            (aipu_mm_free_in_region_no_lock_accesses buf (mm.reg id) filp ++
              [.mutex_unlock])) = true
        simp only [lock_disciplined_from, Bool.not_false, Bool.true_and]
        rw [disciplined_append _ _ (free_in_region_accesses_lock_free _ _ _)]
        rfl
  · unfold lock_disciplined aipu_mm_free_buffers_accesses
    rw [free_filp_in_region_disciplined]
    have := free_filp_in_region_disciplined
      { mm with reg_dram := aipu_mm_free_filp_in_region mm.reg_dram filp }.reg_sram filp []
    rw [List.append_nil] at this
    rw [this]
    rfl
  · unfold lock_disciplined aipu_mm_disable_sram_allocation_accesses
    split_ifs <;> first | rfl | (split <;> rfl)
  · unfold lock_disciplined aipu_mm_enable_sram_allocation_accesses
    split_ifs <;> rfl

/-- `aipu_mm_mmap_buf` is its lookup followed by its closing statement. -/
theorem mmap_buf_split (mm : aipu_memory_manager) (vma : vm_area_struct) (filp : Nat)
    (ext_ret : Int) :
    aipu_mm_mmap_buf mm vma filp ext_ret =
      match aipu_mm_mmap_buf_lookup mm vma filp with
      | none => (-EINVAL, mm)
      | some first_page => aipu_mm_mmap_buf_commit mm first_page ext_ret := by
  unfold aipu_mm_mmap_buf aipu_mm_mmap_buf_lookup aipu_mm_mmap_buf_commit vma_offset
  dsimp only
  cases aipu_mm_find_region mm (vma.vm_pgoff * PAGE_SIZE % U64_MOD) with
  | none => rfl
  | some id =>
    dsimp only
    cases aipu_mm_find_page (mm.reg id) filp (vma.vm_pgoff * PAGE_SIZE % U64_MOD) with
    | none => rfl
    | some n => rfl

/-- C25, failing input. `aipu_mm_mmap_buf` never calls `mutex_lock`. On the
4-page manager where caller 7 holds the run at page 0, its export of that
run reads `map_num` and owner and later writes `map_num` with the mutex
free, so the discipline fails. The test and the increment can therefore be
separated by another call: if `aipu_mm_free` of the run comes between them,
both calls return `0` and the freed page 0 is left with `map_num = 1`, owner
`NULL` and its bit clear; run one after the other, the export after the
free returns `-EINVAL`. -/
theorem mmap_buf_without_lock :
    (∀ mm vma filp ext_ret,
      lock_free (aipu_mm_mmap_buf_accesses mm vma filp ext_ret) = true) ∧
    aipu_mm_mmap_buf_accesses mm_scenario_a
        { vm_pgoff := 0x40000, vm_start := 0, vm_end := 8192 } 7 0 =
      [.layout, .layout, .pages, .layout, .mapper, .pages] ∧
    lock_disciplined (aipu_mm_mmap_buf_accesses mm_scenario_a
        { vm_pgoff := 0x40000, vm_start := 0, vm_end := 8192 } 7 0) = false ∧
    aipu_mm_mmap_buf_lookup mm_scenario_a
        { vm_pgoff := 0x40000, vm_start := 0, vm_end := 8192 } 7 =
      some (.AIPU_MEM_REGION_DRAM_ID, 0) ∧
    (aipu_mm_free mm_scenario_a (desc_at 0x40000000) 7).1 = 0 ∧
    (aipu_mm_mmap_buf_commit (aipu_mm_free mm_scenario_a (desc_at 0x40000000) 7).2
        (.AIPU_MEM_REGION_DRAM_ID, 0) 0).1 = 0 ∧
    (aipu_mm_mmap_buf_commit (aipu_mm_free mm_scenario_a (desc_at 0x40000000) 7).2
        (.AIPU_MEM_REGION_DRAM_ID, 0) 0).2.reg_dram.page 0 =
      { tid := 0, filp := 0, map_num := 1, contiguous_alloc_len := 0 } ∧
    test_bit (aipu_mm_mmap_buf_commit (aipu_mm_free mm_scenario_a (desc_at 0x40000000) 7).2
        (.AIPU_MEM_REGION_DRAM_ID, 0) 0).2.reg_dram.bitmap 0 = false ∧
    (aipu_mm_mmap_buf (aipu_mm_free mm_scenario_a (desc_at 0x40000000) 7).2
        { vm_pgoff := 0x40000, vm_start := 0, vm_end := 8192 } 7 0).1 = -EINVAL := by
  refine ⟨fun mm vma filp ext_ret => ?_, by decide, by decide, by decide, by decide, by decide,
    by decide, by decide, by decide⟩
  unfold aipu_mm_mmap_buf_accesses aipu_mm_find_page_accesses
  split
  · rfl
  · split <;> split_ifs <;> rfl

/-- A placement leaves the alignment field of the request as it was. -/
theorem alloc_in_region_align (buf_req : aipu_buf_request) (reg : aipu_mem_region)
    (filp : Nat) (tid : Int) :
    (aipu_mm_alloc_in_region_no_lock buf_req reg filp tid).2.1.align_in_page =
      buf_req.align_in_page := by
  unfold aipu_mm_alloc_in_region_no_lock
  dsimp only
  split_ifs <;> rfl

/-- `aipu_mm_alloc` leaves the alignment field of the request as it was. -/
theorem alloc_align (mm : aipu_memory_manager) (buf_req : aipu_buf_request) (filp : Nat)
    (tid : Int) :
    (aipu_mm_alloc mm buf_req filp tid).2.1.align_in_page = buf_req.align_in_page := by
  unfold aipu_mm_alloc
  dsimp only
  split_ifs
  · rfl
  · rfl
  · exact alloc_in_region_align _ _ _ _
  · rw [alloc_in_region_align, alloc_in_region_align]
  · exact alloc_in_region_align _ _ _ _

/-- The address property behind the `WARN_ON` of `aipu_mm_alloc`: when both
regions have a page-aligned base with `base_pfn = base_iova / PAGE_SIZE`,
every successful allocation returns an address that is a multiple of
`align_in_page * PAGE_SIZE`; and for `align_in_page < 2 ^ 20`, where the
32-bit shift of the `WARN_ON` does not wrap, its condition is false. -/
theorem alloc_address_aligned (mm : aipu_memory_manager) (buf_req : aipu_buf_request)
    (filp : Nat) (tid : Int)
    (hbase : ∀ id, (mm.reg id).base_iova = (mm.reg id).base_pfn * PAGE_SIZE)
    (h32 : buf_req.align_in_page < 2 ^ 32)
    (hok : (aipu_mm_alloc mm buf_req filp tid).1 = 0) :
    (aipu_mm_alloc mm buf_req filp tid).2.1.desc.pa % (buf_req.align_in_page * PAGE_SIZE) = 0 ∧
    (buf_req.align_in_page < 2 ^ 20 →
      aipu_mm_alloc_warn_on (aipu_mm_alloc mm buf_req filp tid).2.1 = false) := by
  obtain ⟨_, _, hpow, id, hreg, hreq, _⟩ := alloc_ok_region mm buf_req filp tid hok
  obtain ⟨i, _, hpa0, hfit⟩ :=
    alloc_in_region_ok_aligned buf_req (mm.reg id) filp tid hpow h32 hreg
  have hal : (aipu_mm_alloc mm buf_req filp tid).2.1.desc.pa %
      (buf_req.align_in_page * PAGE_SIZE) = 0 := by
    rw [hreq, hpa0, hbase id, ← Nat.add_mul, Nat.mul_mod_mul_right, hfit, Nat.zero_mul]
  refine ⟨hal, fun h20 => ?_⟩
  unfold aipu_mm_alloc_warn_on
  rw [alloc_align]
  have hs : (buf_req.align_in_page <<< PAGE_SHIFT) % 2 ^ 32 =
      buf_req.align_in_page * PAGE_SIZE := by
    have e : buf_req.align_in_page <<< PAGE_SHIFT = buf_req.align_in_page * PAGE_SIZE := by
      rw [Nat.shiftLeft_eq]
      rfl
    rw [e]
    apply Nat.mod_eq_of_lt
    unfold PAGE_SIZE
    omega
  rw [hs, hal]
  rfl

/-! ### Frame of an allocation and of a bulk release, length of an export -/

/-- C26, failing input. In the 4-page region callers 8, 9 and 8 are given
pages 0, 1 and 2 and caller 9 frees page 1. Page 2 is then set in the bitmap
and heads a run of caller 8. The request of `2 ^ 64 - 1` bytes aligned to 2
pages by caller 7 passes the argument check, is placed by
`aipu_mm_alloc_in_region_no_lock` at page 2, and overwrites owner, thread id
and run length of that entry. -/
theorem alloc_overwrites_live_head :
    (mk_req (2 ^ 64 - 1) 2).bytes ≠ 0 ∧ is_power_of_2 (mk_req (2 ^ 64 - 1) 2).align_in_page = true ∧
    (mm_run (mm_of_dram dram4)
      [.alloc (mk_req 4096 1) 8 100, .alloc (mk_req 4096 1) 9 200, .alloc (mk_req 4096 1) 8 100,
       .free (desc_at 0x40001000) 9]).reg_dram.bitmap = [true, false, true, false] ∧
    (mm_run (mm_of_dram dram4)
      [.alloc (mk_req 4096 1) 8 100, .alloc (mk_req 4096 1) 9 200, .alloc (mk_req 4096 1) 8 100,
       .free (desc_at 0x40001000) 9]).reg_dram.page 2 =
      { tid := 100, filp := 8, map_num := 0, contiguous_alloc_len := 1 } ∧
    (aipu_mm_alloc_in_region_no_lock (mk_req (2 ^ 64 - 1) 2)
      (mm_run (mm_of_dram dram4)
        [.alloc (mk_req 4096 1) 8 100, .alloc (mk_req 4096 1) 9 200,
         .alloc (mk_req 4096 1) 8 100, .free (desc_at 0x40001000) 9]).reg_dram 7 300).1 = 0 ∧
    (aipu_mm_alloc_in_region_no_lock (mk_req (2 ^ 64 - 1) 2)
      (mm_run (mm_of_dram dram4)
        [.alloc (mk_req 4096 1) 8 100, .alloc (mk_req 4096 1) 9 200,
         .alloc (mk_req 4096 1) 8 100, .free (desc_at 0x40001000) 9]).reg_dram 7 300).2.1.desc.pa =
      0x40002000 ∧
    (aipu_mm_alloc_in_region_no_lock (mk_req (2 ^ 64 - 1) 2)
      (mm_run (mm_of_dram dram4)
        [.alloc (mk_req 4096 1) 8 100, .alloc (mk_req 4096 1) 9 200,
         .alloc (mk_req 4096 1) 8 100, .free (desc_at 0x40001000) 9]).reg_dram 7 300).2.2.page 2 =
      { tid := 300, filp := 7, map_num := 0, contiguous_alloc_len := 0 } := by
  decide

/-- C28, failing input. In the 4-page region at page frame 1 caller 9 is
given pages `[0, 1]`, caller 8 pages `[2, 3]`, and caller 9 frees its run.
The request of `2 ^ 64 - 1` bytes aligned to 4 pages by caller 7 is placed at
page 3, inside the run of caller 8. `aipu_mm_free_buffers` for caller 7 then
clears bit 3, a bit of the run whose head, page 2, is owned by caller 8, and
a later request of caller 9 is given page 3 (address `0x4000`). -/
theorem bulk_free_clears_foreign_bit :
    mm_fresh (mm_of_dram dram4_odd) ∧
    (mm_run (mm_of_dram dram4_odd)
      [.alloc (mk_req 8192 1) 9 100, .alloc (mk_req 8192 1) 8 200, .free (desc_at 0x1000) 9,
       .alloc (mk_req (2 ^ 64 - 1) 4) 7 300]).reg_dram.page 2 =
      { tid := 200, filp := 8, map_num := 0, contiguous_alloc_len := 2 } ∧
    (mm_run (mm_of_dram dram4_odd)
      [.alloc (mk_req 8192 1) 9 100, .alloc (mk_req 8192 1) 8 200, .free (desc_at 0x1000) 9,
       .alloc (mk_req (2 ^ 64 - 1) 4) 7 300]).reg_dram.bitmap = [false, false, true, true] ∧
    (mm_run (mm_of_dram dram4_odd)
      [.alloc (mk_req 8192 1) 9 100, .alloc (mk_req 8192 1) 8 200, .free (desc_at 0x1000) 9,
       .alloc (mk_req (2 ^ 64 - 1) 4) 7 300]).reg_dram.page 3 =
      { tid := 300, filp := 7, map_num := 0, contiguous_alloc_len := 0 } ∧
    (aipu_mm_free_buffers (mm_run (mm_of_dram dram4_odd)
      [.alloc (mk_req 8192 1) 9 100, .alloc (mk_req 8192 1) 8 200, .free (desc_at 0x1000) 9,
       .alloc (mk_req (2 ^ 64 - 1) 4) 7 300]) 7).reg_dram.bitmap = [false, false, true, false] ∧
    (aipu_mm_free_buffers (mm_run (mm_of_dram dram4_odd)
      [.alloc (mk_req 8192 1) 9 100, .alloc (mk_req 8192 1) 8 200, .free (desc_at 0x1000) 9,
       .alloc (mk_req (2 ^ 64 - 1) 4) 7 300]) 7).reg_dram.page 2 =
      { tid := 200, filp := 8, map_num := 0, contiguous_alloc_len := 2 } ∧
    (aipu_mm_alloc (aipu_mm_free_buffers (mm_run (mm_of_dram dram4_odd)
      [.alloc (mk_req 8192 1) 9 100, .alloc (mk_req 8192 1) 8 200, .free (desc_at 0x1000) 9,
       .alloc (mk_req (2 ^ 64 - 1) 4) 7 300]) 7) (mk_req 4096 4) 9 400).1 = 0 ∧
    (aipu_mm_alloc (aipu_mm_free_buffers (mm_run (mm_of_dram dram4_odd)
      [.alloc (mk_req 8192 1) 9 100, .alloc (mk_req 8192 1) 8 200, .free (desc_at 0x1000) 9,
       .alloc (mk_req (2 ^ 64 - 1) 4) 7 300]) 7) (mk_req 4096 4) 9 400).2.1.desc.pa = 0x4000 := by
  decide

/-- C29, failing input. In the native reserved 4-page region caller 7 holds
page 0 (one page, 4096 bytes) and caller 9 holds page 1. Caller 7 maps the
address of page 0 with a mapping of 8192 bytes: `aipu_mm_mmap_buf` returns
`0` and has handed `remap_pfn_range` the length 8192, twice the run. With
the region of DMA reserved type the length handed to `dma_mmap_attrs` is that
of the run, 4096. -/
theorem export_length_unchecked :
    ((mm_run (mm_of_dram dram4)
      [.alloc (mk_req 4096 1) 7 100, .alloc (mk_req 4096 1) 9 200]).reg_dram.page
        0).contiguous_alloc_len = 1 ∧
    ((mm_run (mm_of_dram dram4)
      [.alloc (mk_req 4096 1) 7 100, .alloc (mk_req 4096 1) 9 200]).reg_dram.page 1).filp = 9 ∧
    aipu_mm_mmap_buf_call
      (mm_run (mm_of_dram dram4) [.alloc (mk_req 4096 1) 7 100, .alloc (mk_req 4096 1) 9 200])
      { vm_pgoff := 0x40000, vm_start := 0x10000, vm_end := 0x12000 } 7 =
      some { remap := true, size := 8192 } ∧
    (aipu_mm_mmap_buf
      (mm_run (mm_of_dram dram4) [.alloc (mk_req 4096 1) 7 100, .alloc (mk_req 4096 1) 9 200])
      { vm_pgoff := 0x40000, vm_start := 0x10000, vm_end := 0x12000 } 7 0).1 = 0 ∧
    aipu_mm_mmap_buf_call
      (mm_run (mm_of_dram { dram4 with type := .AIPU_MEM_TYPE_DMA_RESERVED })
        [.alloc (mk_req 4096 1) 7 100, .alloc (mk_req 4096 1) 9 200])
      { vm_pgoff := 0x40000, vm_start := 0x10000, vm_end := 0x12000 } 7 =
      some { remap := false, size := 4096 } := by
  decide

/-- C27, failing input. The 4-page region at bus address `0x100000000` has
`base_pfn = base_iova / PAGE_SIZE`. The valid request of 4096 bytes aligned
to `2 ^ 20` pages succeeds and returns `0x100000000`, a multiple of
`2 ^ 20 * PAGE_SIZE`. The divisor of the `WARN_ON`, `align_in_page <<
PAGE_SHIFT` in 32 bits, is `0`, and the condition of the `WARN_ON` is
true. -/
theorem warn_on_divisor_wraps :
    mm_fresh (mm_of_dram dram4_high) ∧
    dram4_high.base_iova % PAGE_SIZE = 0 ∧
    dram4_high.base_pfn = dram4_high.base_iova / PAGE_SIZE ∧
    is_power_of_2 (mk_req 4096 (2 ^ 20)).align_in_page = true ∧
    (aipu_mm_alloc (mm_of_dram dram4_high) (mk_req 4096 (2 ^ 20)) 7 100).1 = 0 ∧
    (aipu_mm_alloc (mm_of_dram dram4_high) (mk_req 4096 (2 ^ 20)) 7 100).2.1.desc.pa =
      0x100000000 ∧
    (aipu_mm_alloc (mm_of_dram dram4_high) (mk_req 4096 (2 ^ 20)) 7 100).2.1.desc.pa %
      (2 ^ 20 * PAGE_SIZE) = 0 ∧
    ((mk_req 4096 (2 ^ 20)).align_in_page <<< PAGE_SHIFT) % 2 ^ 32 = 0 ∧
    aipu_mm_alloc_warn_on
      (aipu_mm_alloc (mm_of_dram dram4_high) (mk_req 4096 (2 ^ 20)) 7 100).2.1 = true := by
  decide

/-! ### Counters of the SRAM gate -/

/-- Calls other than disable and enable leave the gate alone. -/
theorem step_gate (s : aipu_memory_manager) (op : mm_op)
    (h : ∀ filp k, op ≠ .disable_sram filp k) (h2 : ∀ filp, op ≠ .enable_sram filp) :
    (mm_step s op).sram_disable = s.sram_disable ∧
    (mm_step s op).sram_disable_head = s.sram_disable_head := by
  cases op with
  | alloc buf_req filp tid =>
    simp only [mm_step]
    unfold aipu_mm_alloc
    dsimp only
    split_ifs <;> exact ⟨rfl, rfl⟩
  | free buf filp =>
    simp only [mm_step]
    unfold aipu_mm_free
    split_ifs
    · exact ⟨rfl, rfl⟩
    · split
      · exact ⟨rfl, rfl⟩
      · rename_i id _
        cases id <;> exact ⟨rfl, rfl⟩
  | free_buffers filp => exact ⟨rfl, rfl⟩
  | mmap_buf vma filp ext_ret =>
    simp only [mm_step]
    rcases mmap_cases_strong s vma filp ext_ret with ⟨_, e⟩ | ⟨_, e⟩ | ⟨id, n, _, _, _, e⟩
    · rw [e]
      exact ⟨rfl, rfl⟩
    · rw [e]
      exact ⟨rfl, rfl⟩
    · rw [e]
      cases id <;> exact ⟨rfl, rfl⟩
  | disable_sram filp k => exact absurd rfl (h filp k)
  | enable_sram filp => exact absurd rfl (h2 filp)

/-- The list walk of disable adds one to the sum of the counts and keeps
them non-negative. -/
theorem list_inc_sum (filp : Nat) (l l1 : List aipu_sram_disable_per_fd)
    (h : sram_disable_list_inc filp l = some l1) (hpos : ∀ e, e ∈ l → 0 ≤ e.cnt) :
    gate_sum l1 = gate_sum l + 1 ∧ ∀ e, e ∈ l1 → 0 ≤ e.cnt := by
  induction l generalizing l1 with
  | nil => cases h
  | cons a as ih =>
    unfold sram_disable_list_inc at h
    by_cases ha : a.filp = filp
    · rw [if_pos ha] at h
      cases h
      refine ⟨?_, fun e he => ?_⟩
      · simp only [gate_sum, List.map_cons, List.sum_cons]
        omega
      · rcases List.mem_cons.mp he with he | he
        · subst he
          have := hpos a (List.mem_cons_self _ _)
          show 0 ≤ a.cnt + 1
          omega
        · exact hpos e (List.mem_cons_of_mem _ he)
    · rw [if_neg ha] at h
      cases hr : sram_disable_list_inc filp as with
      | none =>
        rw [hr] at h
        cases h
      | some as1 =>
        rw [hr] at h
        cases h
        obtain ⟨i1, i2⟩ := ih as1 hr (fun e he => hpos e (List.mem_cons_of_mem _ he))
        refine ⟨?_, fun e he => ?_⟩
        · simp only [gate_sum, List.map_cons, List.sum_cons] at i1 ⊢
          omega
        · rcases List.mem_cons.mp he with he | he
          · subst he
            exact hpos _ (List.mem_cons_self _ _)
          · exact i2 e he

/-- The list walk of enable lowers the sum of the counts by at most one and
keeps them non-negative. -/
theorem list_dec_sum (filp : Nat) (l : List aipu_sram_disable_per_fd)
    (hpos : ∀ e, e ∈ l → 0 ≤ e.cnt) :
    gate_sum l - 1 ≤ gate_sum (sram_disable_list_dec filp l) ∧
    gate_sum (sram_disable_list_dec filp l) ≤ gate_sum l ∧
    ∀ e, e ∈ sram_disable_list_dec filp l → 0 ≤ e.cnt := by
  induction l with
  | nil =>
    refine ⟨by simp [sram_disable_list_dec, gate_sum], le_refl _, fun e he => ?_⟩
    simp [sram_disable_list_dec] at he
  | cons a as ih =>
    have ha0 := hpos a (List.mem_cons_self _ _)
    unfold sram_disable_list_dec
    by_cases ha : a.filp = filp
    · rw [if_pos ha]
      by_cases hc : a.cnt ≠ 0
      · rw [if_pos hc]
        refine ⟨?_, ?_, fun e he => ?_⟩
        · simp only [gate_sum, List.map_cons, List.sum_cons]
          omega
        · simp only [gate_sum, List.map_cons, List.sum_cons]
          omega
        · rcases List.mem_cons.mp he with he | he
          · subst he
            show 0 ≤ a.cnt - 1
            omega
          · exact hpos e (List.mem_cons_of_mem _ he)
      · rw [if_neg hc]
        exact ⟨by omega, le_refl _, hpos⟩
    · rw [if_neg ha]
      obtain ⟨i1, i2, i3⟩ := ih (fun e he => hpos e (List.mem_cons_of_mem _ he))
      refine ⟨?_, ?_, fun e he => ?_⟩
      · simp only [gate_sum, List.map_cons, List.sum_cons] at i1 ⊢
        omega
      · simp only [gate_sum, List.map_cons, List.sum_cons] at i2 ⊢
        omega
      · rcases List.mem_cons.mp he with he | he
        · subst he
          exact ha0
        · exact i3 e he

/-- A non-negative count is at most the sum of the non-negative counts. -/
theorem cnt_le_gate_sum (l : List aipu_sram_disable_per_fd)
    (hpos : ∀ e, e ∈ l → 0 ≤ e.cnt) : 0 ≤ gate_sum l ∧ ∀ e, e ∈ l → e.cnt ≤ gate_sum l := by
  induction l with
  | nil => exact ⟨le_refl _, fun e he => by simp at he⟩
  | cons a as ih =>
    obtain ⟨i1, i2⟩ := ih (fun e he => hpos e (List.mem_cons_of_mem _ he))
    have ha0 := hpos a (List.mem_cons_self _ _)
    refine ⟨?_, fun e he => ?_⟩
    · simp only [gate_sum, List.map_cons, List.sum_cons] at i1 ⊢
      omega
    · simp only [gate_sum, List.map_cons, List.sum_cons] at i1 i2 ⊢
      rcases List.mem_cons.mp he with he | he
      · subst he
        omega
      · have := i2 e he
        omega

/-- One call keeps the gate invariant, with one more call counted. -/
theorem gate_inv_step (s : aipu_memory_manager) (op : mm_op) (n : Int)
    (h : 0 ≤ s.sram_disable ∧ (∀ e, e ∈ s.sram_disable_head → 0 ≤ e.cnt) ∧
      s.sram_disable ≤ gate_sum s.sram_disable_head ∧ gate_sum s.sram_disable_head ≤ n) :
    0 ≤ (mm_step s op).sram_disable ∧
    (∀ e, e ∈ (mm_step s op).sram_disable_head → 0 ≤ e.cnt) ∧
    (mm_step s op).sram_disable ≤ gate_sum (mm_step s op).sram_disable_head ∧
    gate_sum (mm_step s op).sram_disable_head ≤ n + 1 := by
  obtain ⟨h1, h2, h3, h4⟩ := h
  have hkeep : (0 ≤ s.sram_disable ∧ (∀ e, e ∈ s.sram_disable_head → 0 ≤ e.cnt) ∧
      s.sram_disable ≤ gate_sum s.sram_disable_head ∧ gate_sum s.sram_disable_head ≤ n + 1) :=
    ⟨h1, h2, h3, by omega⟩
  cases op with
  | disable_sram filp k =>
    simp only [mm_step]
    unfold aipu_mm_disable_sram_allocation
    by_cases hb : s.reg_sram.bytes = 0
    · rw [if_pos hb]
      exact hkeep
    rw [if_neg hb]
    by_cases he : bitmap_empty s.reg_sram.bitmap s.reg_sram.count = false
    · rw [if_pos he]
      exact hkeep
    rw [if_neg he]
    cases hl : sram_disable_list_inc filp s.sram_disable_head with
    | some l =>
      obtain ⟨i1, i2⟩ := list_inc_sum filp _ l hl h2
      refine ⟨?_, i2, ?_, ?_⟩
      · show 0 ≤ s.sram_disable + 1
        omega
      · show s.sram_disable + 1 ≤ gate_sum l
        omega
      · show gate_sum l ≤ n + 1
        omega
    | none =>
      dsimp only
      by_cases hk : k = false
      · rw [if_pos hk]
        exact hkeep
      · rw [if_neg hk]
        refine ⟨?_, fun e he => ?_, ?_, ?_⟩
        · show 0 ≤ s.sram_disable + 1
          omega
        · rcases List.mem_cons.mp he with he | he
          · subst he
            show (0 : Int) ≤ 1
            decide
          · exact h2 e he
        · show s.sram_disable + 1 ≤ gate_sum (_ :: s.sram_disable_head)
          simp only [gate_sum, List.map_cons, List.sum_cons] at h3 ⊢
          omega
        · show gate_sum (_ :: s.sram_disable_head) ≤ n + 1
          simp only [gate_sum, List.map_cons, List.sum_cons] at h4 ⊢
          omega
  | enable_sram filp =>
    simp only [mm_step]
    unfold aipu_mm_enable_sram_allocation
    split_ifs
    · exact hkeep
    · exact hkeep
    · rename_i _ hz
      obtain ⟨i1, i2, i3⟩ := list_dec_sum filp s.sram_disable_head h2
      refine ⟨?_, i3, ?_, ?_⟩
      · show 0 ≤ s.sram_disable - 1
        omega
      · show s.sram_disable - 1 ≤ gate_sum (sram_disable_list_dec filp s.sram_disable_head)
        omega
      · show gate_sum (sram_disable_list_dec filp s.sram_disable_head) ≤ n + 1
        omega
  | alloc buf_req filp tid =>
    obtain ⟨e1, e2⟩ := step_gate s (.alloc buf_req filp tid)
      (fun _ _ h => by cases h) (fun _ h => by cases h)
    rw [e1, e2]
    exact hkeep
  | free buf filp =>
    obtain ⟨e1, e2⟩ := step_gate s (.free buf filp)
      (fun _ _ h => by cases h) (fun _ h => by cases h)
    rw [e1, e2]
    exact hkeep
  | free_buffers filp =>
    obtain ⟨e1, e2⟩ := step_gate s (.free_buffers filp)
      (fun _ _ h => by cases h) (fun _ h => by cases h)
    rw [e1, e2]
    exact hkeep
  | mmap_buf vma filp ext_ret =>
    obtain ⟨e1, e2⟩ := step_gate s (.mmap_buf vma filp ext_ret)
      (fun _ _ h => by cases h) (fun _ h => by cases h)
    rw [e1, e2]
    exact hkeep

/-- A sequence of calls keeps the gate invariant, with its length counted. -/
theorem gate_inv_run (ops : List mm_op) :
    ∀ (s : aipu_memory_manager) (n : Int),
      (0 ≤ s.sram_disable ∧ (∀ e, e ∈ s.sram_disable_head → 0 ≤ e.cnt) ∧
        s.sram_disable ≤ gate_sum s.sram_disable_head ∧ gate_sum s.sram_disable_head ≤ n) →
      0 ≤ (mm_run s ops).sram_disable ∧
      (∀ e, e ∈ (mm_run s ops).sram_disable_head → 0 ≤ e.cnt) ∧
      (mm_run s ops).sram_disable ≤ gate_sum (mm_run s ops).sram_disable_head ∧
      gate_sum (mm_run s ops).sram_disable_head ≤ n + ops.length := by
  induction ops with
  | nil =>
    intro s n h
    simpa [mm_run] using h
  | cons op ops ih =>
    intro s n h
    have := ih (mm_step s op) (n + 1) (gate_inv_step s op n h)
    have e : mm_run s (op :: ops) = mm_run (mm_step s op) ops := rfl
    rw [e]
    refine ⟨this.1, this.2.1, this.2.2.1, ?_⟩
    have := this.2.2.2
    simp only [List.length_cons, Nat.cast_add, Nat.cast_one]
    omega

/-- Gate counters below `2 ^ 31` calls. In every state reached from a freshly
initialised manager by fewer than `2 ^ 31` calls (disable and enable by any
callers, and any other call in between), the global disable counter is
non-negative, every per-caller count is non-negative, and the global counter
is at most the sum of the per-caller counts. None of them exceeds the number
of calls made, so all of them are at most `INT_MAX` and the `int` counters of
the C code hold exactly these values. -/
theorem gate_counter_invariant (mm0 : aipu_memory_manager) (hfresh : mm_fresh mm0)
    (ops : List mm_op) (hlen : ops.length < 2 ^ 31) :
    0 ≤ (mm_run mm0 ops).sram_disable ∧
    (∀ e, e ∈ (mm_run mm0 ops).sram_disable_head → 0 ≤ e.cnt) ∧
    (mm_run mm0 ops).sram_disable ≤ gate_sum (mm_run mm0 ops).sram_disable_head ∧
    gate_sum (mm_run mm0 ops).sram_disable_head ≤ ops.length ∧
    (∀ e, e ∈ (mm_run mm0 ops).sram_disable_head → e.cnt ≤ ops.length) ∧
    (mm_run mm0 ops).sram_disable ≤ INT_MAX ∧
    (∀ e, e ∈ (mm_run mm0 ops).sram_disable_head → e.cnt ≤ INT_MAX) := by
  have h0 : 0 ≤ mm0.sram_disable ∧ (∀ e, e ∈ mm0.sram_disable_head → 0 ≤ e.cnt) ∧
      mm0.sram_disable ≤ gate_sum mm0.sram_disable_head ∧
      gate_sum mm0.sram_disable_head ≤ 0 := by
    rw [hfresh.2.2.1, hfresh.2.2.2]
    exact ⟨le_refl _, fun e he => by simp at he, le_refl _, le_refl _⟩
  obtain ⟨i1, i2, i3, i4⟩ := gate_inv_run ops mm0 0 h0
  rw [Int.zero_add] at i4
  have hl : (ops.length : Int) < 2 ^ 31 := by exact_mod_cast hlen
  have hc : ∀ e, e ∈ (mm_run mm0 ops).sram_disable_head → e.cnt ≤ ops.length := by
    intro e he
    have := (cnt_le_gate_sum _ i2).2 e he
    omega
  refine ⟨i1, i2, i3, i4, hc, ?_, fun e he => ?_⟩
  · unfold INT_MAX
    omega
  · have := hc e he
    unfold INT_MAX
    omega

/-- Example of the gate counters: on the manager of scenario B, after a
disable by caller 7, a disable by caller 9, an allocation, an enable by
caller 9 and an enable by caller 3, who never disabled, the global counter is
0 and the per-caller counts add up to 1. -/
theorem gate_counter_invariant_witness :
    (0 ≤ (mm_run mm_scenario_b [.disable_sram 7 true, .disable_sram 9 true,
        .alloc (mk_req 4096 1) 7 100, .enable_sram 9, .enable_sram 3]).sram_disable ∧
      (mm_run mm_scenario_b [.disable_sram 7 true, .disable_sram 9 true,
        .alloc (mk_req 4096 1) 7 100, .enable_sram 9, .enable_sram 3]).sram_disable ≤
        gate_sum (mm_run mm_scenario_b [.disable_sram 7 true, .disable_sram 9 true,
          .alloc (mk_req 4096 1) 7 100, .enable_sram 9, .enable_sram 3]).sram_disable_head) ∧
    (mm_run mm_scenario_b [.disable_sram 7 true, .disable_sram 9 true,
      .alloc (mk_req 4096 1) 7 100, .enable_sram 9, .enable_sram 3]).sram_disable = 0 ∧
    gate_sum (mm_run mm_scenario_b [.disable_sram 7 true, .disable_sram 9 true,
      .alloc (mk_req 4096 1) 7 100, .enable_sram 9, .enable_sram 3]).sram_disable_head = 1 :=
  ⟨⟨(gate_counter_invariant mm_scenario_b (by decide) [.disable_sram 7 true,
        .disable_sram 9 true, .alloc (mk_req 4096 1) 7 100, .enable_sram 9,
        .enable_sram 3] (by decide)).1,
    (gate_counter_invariant mm_scenario_b (by decide) [.disable_sram 7 true,
        .disable_sram 9 true, .alloc (mk_req 4096 1) 7 100, .enable_sram 9,
        .enable_sram 3] (by decide)).2.2.1⟩,
   by decide, by decide⟩

/-- The manager of scenario B after `n + 1` disables by caller 7: one list
entry, and both counters at `n + 1`. -/
theorem disable_run_state (n : Nat) :
    mm_run mm_scenario_b (List.replicate (n + 1) (.disable_sram 7 true)) =
      { mm_scenario_b with
          sram_disable_head := [{ cnt := (n : Int) + 1, filp := 7 }]
          sram_disable := (n : Int) + 1 } := by
  induction n with
  | zero => rfl
  | succ n ih =>
    rw [List.replicate_succ', mm_run, List.foldl_append]
    have ih2 : List.foldl mm_step mm_scenario_b (List.replicate (n + 1) (.disable_sram 7 true)) =
        { mm_scenario_b with
          sram_disable_head := [{ cnt := (n : Int) + 1, filp := 7 }]
          sram_disable := (n : Int) + 1 } := ih
    rw [ih2]
    simp only [List.foldl_cons, List.foldl_nil, mm_step, aipu_mm_disable_sram_allocation]
    have hb : mm_scenario_b.reg_sram.bytes ≠ 0 := by decide
    have he : bitmap_empty mm_scenario_b.reg_sram.bitmap mm_scenario_b.reg_sram.count = true := by
      decide
    simp only [hb, he, if_false, sram_disable_list_inc, if_true]
    simp

/-- C30, failing input. On the manager of scenario B (SRAM present and
entirely free) caller 7 calls `aipu_mm_disable_sram_allocation` over and
over. For every `n` up to `INT_MAX`, after `n` calls the global counter and
the caller's own count both equal `n`, and a further call is accepted with
status `0`: nothing bounds the counters. After `INT_MAX = 2 ^ 31 - 1` calls
both `int` counters hold `INT_MAX`, and the accepted call number `2 ^ 31`
executes `cnt++` and `sram_disable++` on them, which leaves the range of a C
`int`. -/
theorem gate_counter_reaches_int_max (n : Nat) (hn : (n : Int) ≤ INT_MAX) :
    (mm_run mm_scenario_b (List.replicate n (.disable_sram 7 true))).sram_disable = n ∧
    per_fd_cnt 7 (mm_run mm_scenario_b
      (List.replicate n (.disable_sram 7 true))).sram_disable_head = n ∧
    (aipu_mm_disable_sram_allocation
      (mm_run mm_scenario_b (List.replicate n (.disable_sram 7 true))) 7 true).1 = 0 := by
  cases n with
  | zero => decide
  | succ n =>
    rw [disable_run_state]
    refine ⟨by simp, by simp [per_fd_cnt], ?_⟩
    have hb : mm_scenario_b.reg_sram.bytes ≠ 0 := by decide
    have he : bitmap_empty mm_scenario_b.reg_sram.bitmap mm_scenario_b.reg_sram.count = true := by
      decide
    simp only [aipu_mm_disable_sram_allocation, hb, he, if_false, sram_disable_list_inc, if_true]
    simp

/-- C30, the failing input at its end: after `2 ^ 31 - 1` disables by caller
7 both counters hold `INT_MAX` and the next disable is accepted. -/
theorem gate_counter_reaches_int_max_witness :
    (mm_run mm_scenario_b
      (List.replicate (2 ^ 31 - 1) (.disable_sram 7 true))).sram_disable = (2 ^ 31 - 1 : Nat) ∧
    per_fd_cnt 7 (mm_run mm_scenario_b
      (List.replicate (2 ^ 31 - 1) (.disable_sram 7 true))).sram_disable_head =
        (2 ^ 31 - 1 : Nat) ∧
    (aipu_mm_disable_sram_allocation
      (mm_run mm_scenario_b (List.replicate (2 ^ 31 - 1) (.disable_sram 7 true))) 7 true).1 = 0 :=
  gate_counter_reaches_int_max (2 ^ 31 - 1) (by decide)

/-! ### What holds for requests in range -/

/-- For a request in range a successful placement writes one page entry,
that of a page whose bit was clear, and no other. -/
theorem alloc_in_region_frame (buf_req : aipu_buf_request) (reg : aipu_mem_region)
    (filp : Nat) (tid : Int) (hlen : reg.pages.length = reg.count)
    (hbytes : 0 < buf_req.bytes) (hwrap : run_fits buf_req.bytes)
    (hpow : ∃ k, buf_req.align_in_page = 2 ^ k) (h32 : buf_req.align_in_page < 2 ^ 32)
    (hok : (aipu_mm_alloc_in_region_no_lock buf_req reg filp tid).1 = 0) :
    ∃ i, test_bit reg.bitmap i = false ∧
      ∀ j, j ≠ i →
        (aipu_mm_alloc_in_region_no_lock buf_req reg filp tid).2.2.page j = reg.page j := by
  have hne : (-ENOMEM : Int) ≠ 0 := by decide
  have hfilp : filp ≠ 0 := alloc_in_region_ok_filp buf_req reg filp tid hok
  rcases alloc_in_region_cases buf_req reg filp tid hfilp hbytes hwrap hpow h32 with
    e | ⟨i, hfit, e⟩
  · rw [e] at hok
    exact absurd hok hne
  · have hpos := page_run_pos _ hbytes
    refine ⟨i, hfit.2.1 i (le_refl _) (by omega), fun j hj => ?_⟩
    rw [e]
    show (region_placed reg i (page_run buf_req.bytes) filp tid).page j = _
    rw [page_region_placed _ _ _ _ _ _ (by have := hfit.1; omega), if_neg hj]

/-- In a region that satisfies the invariant kept by requests in range, bulk
release for `caller` changes no bit and no page entry of a run whose head is
owned by somebody else. -/
theorem free_filp_in_region_isolated (reg : aipu_mem_region) (caller h j : Nat)
    (hinv : region_inv reg) (hlen : 0 < (reg.page h).contiguous_alloc_len)
    (hown : (reg.page h).filp ≠ caller) (h1 : h ≤ j)
    (h2 : j < h + (reg.page h).contiguous_alloc_len) :
    (aipu_mm_free_filp_in_region reg caller).page j = reg.page j ∧
    test_bit (aipu_mm_free_filp_in_region reg caller).bitmap j = test_bit reg.bitmap j := by
  by_cases hc : caller = 0
  · subst hc
    rw [free_filp_in_region_zero]
    exact ⟨rfl, rfl⟩
  obtain ⟨_, _, _, hp, hb⟩ := free_filp_in_region_spec reg caller hc hinv.1.2
  have hj : (reg.page j).filp ≠ caller := by
    by_cases e : j = h
    · rw [e]
      exact hown
    · intro hf
      have hl := hinv.2.1 j (by rw [hf]; exact hc)
      rcases hinv.2.2.2 h j (fun c => e c.symm) hlen hl with c | c
      · omega
      · omega
  rw [hp j, hb j, if_neg hj, if_neg hj]
  exact ⟨rfl, rfl⟩

/-- In every state reached from a freshly initialised manager by calls in
range, `aipu_mm_free_buffers` for `caller` changes no bit and no page entry
of a run whose head is owned by somebody else, and leaves the SRAM gate as it
is. -/
theorem free_buffers_isolated (mm0 : aipu_memory_manager) (hfresh : mm_fresh mm0)
    (ops : List mm_op) (hops : ∀ op, op ∈ ops → op_in_range op) (caller : Nat)
    (id : aipu_mem_region_id) (h j : Nat)
    (hlen : 0 < (((mm_run mm0 ops).reg id).page h).contiguous_alloc_len)
    (hown : (((mm_run mm0 ops).reg id).page h).filp ≠ caller) (h1 : h ≤ j)
    (h2 : j < h + (((mm_run mm0 ops).reg id).page h).contiguous_alloc_len) :
    ((aipu_mm_free_buffers (mm_run mm0 ops) caller).reg id).page j =
      ((mm_run mm0 ops).reg id).page j ∧
    test_bit ((aipu_mm_free_buffers (mm_run mm0 ops) caller).reg id).bitmap j =
      test_bit ((mm_run mm0 ops).reg id).bitmap j ∧
    (aipu_mm_free_buffers (mm_run mm0 ops) caller).sram_disable =
      (mm_run mm0 ops).sram_disable ∧
    (aipu_mm_free_buffers (mm_run mm0 ops) caller).sram_disable_head =
      (mm_run mm0 ops).sram_disable_head := by
  have hinv := mm_inv_run ops mm0 (mm_inv_fresh mm0 hfresh) hops id
  rw [free_buffers_reg]
  obtain ⟨a, b⟩ := free_filp_in_region_isolated _ caller h j hinv hlen hown h1 h2
  exact ⟨a, b, rfl, rfl⟩

/-- For a region that is not native reserved, the length handed to
`dma_mmap_attrs` is the byte length of the run at the requested address. -/
theorem mmap_call_dma_length (mm : aipu_memory_manager) (vma : vm_area_struct) (filp : Nat)
    (id : aipu_mem_region_id) (c : mmap_call)
    (hreg : aipu_mm_find_region mm (vma_offset vma) = some id)
    (hty : (mm.reg id).type ≠ .AIPU_MEM_TYPE_DEV_RESERVED)
    (hc : aipu_mm_mmap_buf_call mm vma filp = some c) :
    c.remap = false ∧
    c.size =
      ((mm.reg id).page (page_index (mm.reg id) (vma_offset vma))).contiguous_alloc_len *
        PAGE_SIZE := by
  have hreg1 : aipu_mm_find_region mm (vma.vm_pgoff * PAGE_SIZE % U64_MOD) = some id := hreg
  unfold aipu_mm_mmap_buf_call at hc
  dsimp only at hc
  rw [hreg1] at hc
  dsimp only at hc
  cases hp : aipu_mm_find_page (mm.reg id) filp (vma.vm_pgoff * PAGE_SIZE % U64_MOD) with
  | none =>
    rw [hp] at hc
    cases hc
  | some n =>
    rw [hp] at hc
    dsimp only at hc
    rw [if_neg hty] at hc
    cases hc
    have hn := (find_page_some _ _ _ _ hp).2.2.1
    refine ⟨rfl, ?_⟩
    show ((mm.reg id).page n).contiguous_alloc_len <<< PAGE_SHIFT = _
    rw [hn, Nat.shiftLeft_eq]
    rfl

end AipuMM
